import Mathlib

/-!
A shallow embedding of the visibility and pathing engine of `src/cave.c`
(line of sight, field of view, room lighting, monster pursuit flow),
together with proofs and refutations of the specification's properties.

Machine integers are modelled as `Int`/`Nat`; the byte-sized fields
(`cost`, `when`, the flow queue entries) take their values modulo 256 at
every write, mirroring the implicit conversions of the C code.
-/

namespace Cave

/-- Capability flags of a terrain feature, as the engine reads them from the
external terrain catalog `f_info` through `tf_has`: `TF_PROJECT`,
`TF_NO_FLOW`, `TF_INTERESTING`. -/
structure Feature where
  project : Bool
  no_flow : Bool
  interesting : Bool
deriving DecidableEq

/-- The per-square flag set `cave->info[y][x]`, restricted to the flags the
embedded code reads or writes: `SQUARE_VIEW`, `SQUARE_SEEN`,
`SQUARE_WASSEEN`, `SQUARE_GLOW`, `SQUARE_MARK`, `SQUARE_ROOM`,
`SQUARE_FEEL`. -/
structure SqInfo where
  view : Bool
  seen : Bool
  wasseen : Bool
  glow : Bool
  mark : Bool
  room : Bool
  feel : Bool
deriving DecidableEq

/-- The fields of a monster record that the embedded code reads: position,
liveness (`m->race` non-null), the `RF_HAS_LIGHT` trait, the sleep timer
`m_timed[MON_TMD_SLEEP]`, and the `RF_SMART` / `RF_STUPID` traits. -/
structure Monster where
  fy : Int
  fx : Int
  alive : Bool
  has_light : Bool
  sleep : Nat
  smart : Bool
  stupid : Bool
deriving DecidableEq

/-- The per-level grid `struct chunk`: dimensions, terrain ids, per-square
flags, the flow cost/timestamp bytes, the level-feeling counter, the monster
list, and (for memorization side effects) a per-square flag recording that
the objects lying there are marked `MARK_SEEN`. -/
structure Chunk where
  height : Int
  width : Int
  feat : Int → Int → Nat
  info : Int → Int → SqInfo
  cost : Int → Int → Nat
  whenv : Int → Int → Nat
  feeling_squares : Int
  mons : List Monster
  objMarked : Int → Int → Bool

/-- The fields of the player record that the embedded code reads. -/
structure PlayerS where
  py : Int
  px : Int
  cur_light : Int
  blind : Bool

/-- The `ABS` macro. -/
def ABS (x : Int) : Int := if x < 0 then -x else x

/-- Modelled from the spec: the fixed max-sight distance bound (`MAX_SIGHT`),
a constant of the surrounding codebase not defined in `cave.c`. -/
def MAX_SIGHT : Int := 20

/-- `square_in_bounds` (cave.c:1564). -/
def square_in_bounds (c : Chunk) (y x : Int) : Bool :=
  decide (0 ≤ x) && decide (x < c.width) && decide (0 ≤ y) && decide (y < c.height)

/-- `square_isprojectable` (cave.c:1977): the terrain's `TF_PROJECT` flag.
The in-bounds assertion of the C code is dropped (the model is total). -/
def square_isprojectable (F : Nat → Feature) (c : Chunk) (y x : Int) : Bool :=
  (F (c.feat y x)).project

/-- `square_iswall` (cave.c:1987): negation of `square_isprojectable`. -/
def square_iswall (F : Nat → Feature) (c : Chunk) (y x : Int) : Bool :=
  !(square_isprojectable F c y x)

/-- `square_isglow` (cave.c:2014). -/
def square_isglow (c : Chunk) (y x : Int) : Bool := (c.info y x).glow

/-- `square_isroom` (cave.c:2032). -/
def square_isroom (c : Chunk) (y x : Int) : Bool := (c.info y x).room

/-- `square_isseen` (cave.c:2040). -/
def square_isseen (c : Chunk) (y x : Int) : Bool := (c.info y x).seen

/-- `square_isview` (cave.c:2048). -/
def square_isview (c : Chunk) (y x : Int) : Bool := (c.info y x).view

/-- `square_wasseen`: the `SQUARE_WASSEEN` flag. -/
def square_wasseen (c : Chunk) (y x : Int) : Bool := (c.info y x).wasseen

/-- `square_ismark` (cave.c:2006). -/
def square_ismark (c : Chunk) (y x : Int) : Bool := (c.info y x).mark

/-- `square_isfeel`: the `SQUARE_FEEL` flag. -/
def square_isfeel (c : Chunk) (y x : Int) : Bool := (c.info y x).feel

/-- `square_isinteresting` (cave.c:2336): the terrain's `TF_INTERESTING`. -/
def square_isinteresting (F : Nat → Feature) (c : Chunk) (y x : Int) : Bool :=
  (F (c.feat y x)).interesting

/-- Point update of the per-square flag map. -/
def putInfo (c : Chunk) (y x : Int) (s : SqInfo) : Chunk :=
  { c with info := fun a b => if a = y ∧ b = x then s else c.info a b }

/-- Point update of the terrain map. -/
def putFeat (c : Chunk) (y x : Int) (f : Nat) : Chunk :=
  { c with feat := fun a b => if a = y ∧ b = x then f else c.feat a b }

/-- `distance` (cave.c:46): octagonal approximate distance
`max(ay,ax) + min(ay,ax)/2`. -/
def distance (y1 x1 y2 x2 : Int) : Int :=
  let ay := ABS (y2 - y1)
  let ax := ABS (x2 - x1)
  if ay > ax then ay + ax / 2 else ax + ay / 2

/-- The south/east scan loops of `los` (cave.c:136, cave.c:161):
`for (t = t0; t < e; t++) if (!P t) return false`.  The fuel argument
(always instantiated with `(e - t).toNat`, exactly the number of
iterations) only makes the recursion structural and never cuts the loop
short. -/
def scanS (P : Int → Bool) : Nat → Int → Int → Bool
  | 0, _, _ => true
  | Nat.succ fuel, t, e => if t < e then P t && scanS P fuel (t + 1) e else true

/-- The north/west scan loops of `los` (cave.c:145, cave.c:170):
`for (t = t0; t > e; t--) if (!P t) return false`, with fuel
`(t - e).toNat` exactly as for `scanS`. -/
def scanN (P : Int → Bool) : Nat → Int → Int → Bool
  | 0, _, _ => true
  | Nat.succ fuel, t, e => if e < t then P t && scanN P fuel (t - 1) e else true

/-- The fixed-point travel loop of `los` (cave.c:232).  The loop of the C
code runs `while (x2 - tx)`, advancing `tx` by `sx` once per iteration; the
fuel argument (always instantiated with `ax`, strictly more than the number
of iterations possible) only makes the recursion structural and never cuts
the loop short.  The vertical loop of the C code (cave.c:279) is the exact
x/y transpose of the horizontal one and is embedded as this same function
with transposed arguments. -/
def walkH (proj2 : Int → Int → Bool) (sx sy f1 f2 m : Int) :
    Nat → Int → Int → Int → Int → Bool
  | 0, _, _, _, _ => true
  | Nat.succ fuel, ty, tx, qy, x2 =>
    if x2 - tx ≠ 0 then
      if !proj2 ty tx then false
      else
        let qy2 := qy + m
        if qy2 < f2 then walkH proj2 sx sy f1 f2 m fuel ty (tx + sx) qy2 x2
        else if qy2 > f2 then
          if !proj2 (ty + sy) tx then false
          else walkH proj2 sx sy f1 f2 m fuel (ty + sy) (tx + sx) (qy2 - f1) x2
        else walkH proj2 sx sy f1 f2 m fuel (ty + sy) (tx + sx) (qy2 - f1) x2
    else true

/-- `los` (cave.c:93): integer line of sight between the centers of
`(y1,x1)` and `(y2,x2)`.  Faithful to the C control flow: the adjacency
shortcut, the two orthogonal scans, the two knight's-move special cases
(which fall through into the general walk when their adjacent square is not
projectable), and the two fixed-point travel loops. -/
def los (F : Nat → Feature) (c : Chunk) (y1 x1 y2 x2 : Int) : Bool :=
  let dy := y2 - y1
  let dx := x2 - x1
  let ay := ABS dy
  let ax := ABS dx
  if ax < 2 ∧ ay < 2 then true
  else if dx = 0 then
    (if dy > 0 then
      scanS (fun ty => square_isprojectable F c ty x1) ((y2 - (y1 + 1)).toNat) (y1 + 1) y2
     else
      scanN (fun ty => square_isprojectable F c ty x1) ((y1 - 1 - y2).toNat) (y1 - 1) y2)
  else if dy = 0 then
    (if dx > 0 then
      scanS (fun tx => square_isprojectable F c y1 tx) ((x2 - (x1 + 1)).toNat) (x1 + 1) x2
     else
      scanN (fun tx => square_isprojectable F c y1 tx) ((x1 - 1 - x2).toNat) (x1 - 1) x2)
  else
    let sx : Int := if dx < 0 then -1 else 1
    let sy : Int := if dy < 0 then -1 else 1
    if ax = 1 ∧ ay = 2 ∧ square_isprojectable F c (y1 + sy) x1 then true
    else if ax ≠ 1 ∧ ay = 1 ∧ ax = 2 ∧ square_isprojectable F c y1 (x1 + sx) then
      true
    else
      let f2 := ax * ay
      let f1 := f2 * 2
      if ax ≥ ay then
        let qy := ay * ay
        let m := qy * 2
        if qy = f2 then
          walkH (fun a b => square_isprojectable F c a b) sx sy f1 f2 m
            ax.toNat (y1 + sy) (x1 + sx) (qy - f1) x2
        else
          walkH (fun a b => square_isprojectable F c a b) sx sy f1 f2 m
            ax.toNat y1 (x1 + sx) qy x2
      else
        let qx := ax * ax
        let m := qx * 2
        if qx = f2 then
          walkH (fun a b => square_isprojectable F c b a) sy sx f1 f2 m
            ay.toNat (x1 + sx) (y1 + sy) (qx - f1) y2
        else
          walkH (fun a b => square_isprojectable F c b a) sy sx f1 f2 m
            ay.toNat x1 (y1 + sy) qx y2

/-! ### Basic arithmetic facts about the embedded helpers -/

theorem ABS_eq_natAbs (x : Int) : ABS x = (x.natAbs : Int) := by
  simp only [ABS]
  split <;> omega

theorem scanS_iff (P : Int → Bool) : ∀ (n : Nat) (t e : Int), (e - t).toNat ≤ n →
    (scanS P n t e = true ↔ ∀ j : Int, t ≤ j → j < e → P j = true) := by
  intro n
  induction n with
  | zero =>
    intro t e hn
    simp only [scanS, true_iff]
    intro j hj1 hj2
    omega
  | succ n ih =>
    intro t e hn
    show (if t < e then P t && scanS P n (t + 1) e else true) = true ↔ _
    split
    · rename_i h
      rw [Bool.and_eq_true, ih (t+1) e (by omega)]
      constructor
      · rintro ⟨hp, hall⟩ j hj1 hj2
        rcases eq_or_lt_of_le hj1 with rfl | hlt
        · exact hp
        · exact hall j (by omega) hj2
      · intro hall
        exact ⟨hall t le_rfl h, fun j hj1 hj2 => hall j (by omega) hj2⟩
    · rename_i h
      simp only [true_iff]
      intro j hj1 hj2
      omega

theorem scanN_iff (P : Int → Bool) : ∀ (n : Nat) (t e : Int), (t - e).toNat ≤ n →
    (scanN P n t e = true ↔ ∀ j : Int, e < j → j ≤ t → P j = true) := by
  intro n
  induction n with
  | zero =>
    intro t e hn
    simp only [scanN, true_iff]
    intro j hj1 hj2
    omega
  | succ n ih =>
    intro t e hn
    show (if e < t then P t && scanN P n (t - 1) e else true) = true ↔ _
    split
    · rename_i h
      rw [Bool.and_eq_true, ih (t-1) e (by omega)]
      constructor
      · rintro ⟨hp, hall⟩ j hj1 hj2
        rcases eq_or_lt_of_le hj2 with rfl | hlt
        · exact hp
        · exact hall j hj1 (by omega)
      · intro hall
        exact ⟨hall t h le_rfl, fun j hj1 hj2 => hall j hj1 (by omega)⟩
    · rename_i h
      simp only [true_iff]
      intro j hj1 hj2
      omega

/-- C6: For offsets (|Δx|,|Δy|) = (1,2) or (2,1), `los` returns true whenever
the single cell adjacent to the start along the larger-delta axis, on the
side given by that delta's sign, is projectable (the knight's-move special
case of cave.c:186-201). -/
theorem c6_knight_los (F : Nat → Feature) (c : Chunk) (y1 x1 y2 x2 : Int)
    (h : (ABS (x2 - x1) = 1 ∧ ABS (y2 - y1) = 2 ∧
          square_isprojectable F c (y1 + (if y2 - y1 < 0 then -1 else 1)) x1 = true) ∨
         (ABS (x2 - x1) = 2 ∧ ABS (y2 - y1) = 1 ∧
          square_isprojectable F c y1 (x1 + (if x2 - x1 < 0 then -1 else 1)) = true)) :
    los F c y1 x1 y2 x2 = true := by
  rw [ABS_eq_natAbs, ABS_eq_natAbs] at h
  unfold los
  simp only [ABS_eq_natAbs]
  rcases h with ⟨hax, hay, hp⟩ | ⟨hax, hay, hp⟩
  · rw [if_neg (by omega), if_neg (by omega), if_neg (by omega),
      if_pos ⟨by omega, by omega, hp⟩]
  · rw [if_neg (by omega), if_neg (by omega), if_neg (by omega)]
    rw [if_neg (by omega), if_pos ⟨by omega, by omega, by omega, hp⟩]

/-- Witness for `c6_knight_los` at a concrete grid. -/
theorem c6_knight_los_witness :
    (ABS ((1 : Int) - 0) = 1 ∧ ABS ((2 : Int) - 0) = 2 ∧
      square_isprojectable (fun n => if n = 0 then ⟨true, false, false⟩ else ⟨false, true, false⟩)
        { height := 10, width := 10, feat := fun y x => if y = 1 ∧ x = 1 then 1 else 0,
          info := fun _ _ => ⟨false, false, false, false, false, false, false⟩,
          cost := fun _ _ => 0, whenv := fun _ _ => 0,
          feeling_squares := 0, mons := [], objMarked := fun _ _ => false }
        ((0 : Int) + (if (2 : Int) - 0 < 0 then -1 else 1)) 0 = true) ∧
    los (fun n => if n = 0 then ⟨true, false, false⟩ else ⟨false, true, false⟩)
      { height := 10, width := 10, feat := fun y x => if y = 1 ∧ x = 1 then 1 else 0,
        info := fun _ _ => ⟨false, false, false, false, false, false, false⟩,
        cost := fun _ _ => 0, whenv := fun _ _ => 0,
        feeling_squares := 0, mons := [], objMarked := fun _ _ => false }
      0 0 2 1 = true :=
  ⟨⟨by decide, by decide, by decide⟩,
    c6_knight_los _ _ 0 0 2 1 (Or.inl ⟨by decide, by decide, by decide⟩)⟩

/-! ### The strip characterization of the fixed-point travel loop

The travel loop of `los` walks the long axis one column at a time, stepping
the short axis when the fixed-point accumulator crosses the scale factor.
Its checked cells are exactly the cells strictly pierced by the ideal line:
in (row `T`, column `k`) coordinates relative to the start, with long-axis
length `ax` and short-axis length `ay`, those are the cells satisfying
`inStrip`. -/

/-- Cell `(T, k)` is strictly entered by the line from `(0,0)` to
`(ay, ax)` while crossing column `k`. -/
def inStrip (ax ay T k : Int) : Prop :=
  ax * (2*T - 1) < ay * (2*k + 1) ∧ ay * (2*k - 1) < ax * (2*T + 1)

/-- In column `k`, with `T` the canonical row of the walk (characterized by
the two invariant inequalities), the strip cells are `T` itself and, exactly
when the step condition is strict, `T + 1`. -/
theorem inStrip_column (ax ay T k T' : Int) (hay : 1 ≤ ay) (haxay : ay ≤ ax)
    (hlo : ax * (2*T - 1) ≤ ay * (2*k - 1)) (hhi : ay * (2*k - 1) < ax * (2*T + 1)) :
    inStrip ax ay T' k ↔ (T' = T ∨ (T' = T + 1 ∧ ax * (2*T + 1) < ay * (2*k + 1))) := by
  unfold inStrip
  have e1 : ay * (2*k + 1) = ay * (2*k - 1) + 2*ay := by ring
  have e2 : ax * (2*T + 3) = ax * (2*T + 1) + 2*ax := by ring
  constructor
  · rintro ⟨h1, h2⟩
    have hT1 : T ≤ T' := by
      by_contra hc
      push_neg at hc
      have hle : 2*T' + 1 ≤ 2*T - 1 := by omega
      have hmul := mul_le_mul_of_nonneg_left hle (by omega : (0:Int) ≤ ax)
      linarith
    have hT2 : T' ≤ T + 1 := by
      by_contra hc
      push_neg at hc
      have hle : 2*T + 3 ≤ 2*T' - 1 := by omega
      have hmul := mul_le_mul_of_nonneg_left hle (by omega : (0:Int) ≤ ax)
      linarith
    have : T' = T ∨ T' = T + 1 := by omega
    rcases this with rfl | rfl
    · exact Or.inl rfl
    · refine Or.inr ⟨rfl, ?_⟩
      have e3 : ax * (2*(T+1) - 1) = ax * (2*T + 1) := by ring
      linarith
  · rintro (rfl | ⟨rfl, hstrict⟩)
    · exact ⟨by linarith, hhi⟩
    · have e3 : ax * (2*(T+1) - 1) = ax * (2*T + 1) := by ring
      have e4 : ax * (2*(T+1) + 1) = ax * (2*T + 1) + 2*ax := by ring
      exact ⟨by linarith, by linarith⟩

/-- The travel loop checks exactly the strip cells of the remaining columns:
started at column `k` in the canonical row `T` with the matching accumulator
value, it returns true iff every strip cell in columns `k..ax-1` is
projectable. -/
theorem walkH_eq_strip (proj2 : Int → Int → Bool) (sx sy y1 x1 ax ay : Int)
    (hsx : sx ≠ 0) (hay : 1 ≤ ay) (haxay : ay ≤ ax) :
    ∀ (fuel : Nat) (k T qy : Int),
      1 ≤ k → k ≤ ax → ax - k ≤ (fuel : Int) →
      ax * (2*T - 1) ≤ ay * (2*k - 1) →
      ay * (2*k - 1) < ax * (2*T + 1) →
      qy = ay * ay * (2*k - 1) - (ax * ay) * 2 * T →
      (walkH proj2 sx sy ((ax*ay)*2) (ax*ay) ((ay*ay)*2) fuel
          (y1 + sy*T) (x1 + sx*k) qy (x1 + sx*ax) = true ↔
        ∀ T' k' : Int, k ≤ k' → k' ≤ ax - 1 → inStrip ax ay T' k' →
          proj2 (y1 + sy*T') (x1 + sx*k') = true) := by
  intro fuel
  induction fuel with
  | zero =>
    intro k T qy hk1 hk2 hfuel hlo hhi hqy
    simp only [walkH, true_iff]
    intro T' k' hk1' hk2' _
    omega
  | succ fuel ih =>
    intro k T qy hk1 hk2 hfuel hlo hhi hqy
    by_cases hkax : k = ax
    · subst hkax
      have hzero : x1 + sx*k - (x1 + sx*k) = 0 := by ring
      simp only [walkH, hzero, ne_eq, not_true_eq_false, if_false, true_iff]
      intro T' k' hk1' hk2' _
      omega
    · have hklt : k < ax := lt_of_le_of_ne hk2 hkax
      have hcond : x1 + sx*ax - (x1 + sx*k) ≠ 0 := by
        have e : x1 + sx*ax - (x1 + sx*k) = sx*(ax - k) := by ring
        rw [e]
        exact mul_ne_zero hsx (by omega)
      simp only [walkH, ne_eq, hcond, not_false_eq_true, if_true]
      have hstep : x1 + sx*k + sx = x1 + sx*(k+1) := by ring
      have hq2 : qy + (ay*ay)*2 = ay * (ay*(2*k+1) - 2*ax*T) := by rw [hqy]; ring
      have hf2ay : (ax*ay : Int) = ay * ax := by ring
      have haypos : (0:Int) < ay := by omega
      have hA : ay * (2*k+1) = ay * (2*k-1) + 2*ay := by ring
      have hB : ax * (2*T+1) = ax * (2*T-1) + 2*ax := by ring
      have hlt_iff : qy + (ay*ay)*2 < ax*ay ↔ ay*(2*k+1) < ax*(2*T+1) := by
        rw [hq2, hf2ay, mul_lt_mul_left haypos]
        constructor <;> intro <;> linarith
      have hgt_iff : qy + (ay*ay)*2 > ax*ay ↔ ax*(2*T+1) < ay*(2*k+1) := by
        rw [gt_iff_lt, hq2, hf2ay, mul_lt_mul_left haypos]
        constructor <;> intro <;> linarith
      have hcol := fun T' => inStrip_column ax ay T k T' hay haxay hlo hhi
      have hup : ay * (2*(k+1) - 1) = ay * (2*k+1) := by ring
      have hup2 : ay * (2*k+1) < ax * (2*T + 3) := by linarith
      cases hproj : proj2 (y1 + sy*T) (x1 + sx*k) with
      | false =>
        simp only [hproj, Bool.not_false, if_true, Bool.false_eq_true, false_iff]
        intro hall
        have hT := hall T k le_rfl (by omega) ((hcol T).mpr (Or.inl rfl))
        rw [hproj] at hT
        exact Bool.noConfusion hT
      | true =>
        simp only [hproj, Bool.not_true, Bool.false_eq_true, if_false]
        by_cases hAB : ay*(2*k+1) < ax*(2*T+1)
        · rw [if_pos (hlt_iff.mpr hAB), hstep]
          rw [ih (k+1) T (qy + (ay*ay)*2) (by omega) (by omega) (by omega)
            (by linarith) (by linarith [hup]) (by rw [hqy]; ring)]
          constructor
          · intro hall T' k' hk1' hk2' hstrip
            rcases eq_or_lt_of_le hk1' with rfl | hklt'
            · rcases (hcol T').mp hstrip with rfl | ⟨rfl, hs⟩
              · exact hproj
              · exact absurd hs (by linarith)
            · exact hall T' k' (by omega) hk2' hstrip
          · intro hall T' k' hk1' hk2' hstrip
            exact hall T' k' (by omega) hk2' hstrip
        · by_cases hBA : ax*(2*T+1) < ay*(2*k+1)
          · rw [if_neg (by rw [hlt_iff]; exact hAB), if_pos (hgt_iff.mpr hBA)]
            cases hproj2 : proj2 (y1 + sy*T + sy) (x1 + sx*k) with
            | false =>
              simp only [hproj2, Bool.not_false, if_true, Bool.false_eq_true, false_iff]
              intro hall
              have hT := hall (T+1) k le_rfl (by omega) ((hcol (T+1)).mpr (Or.inr ⟨rfl, hBA⟩))
              rw [show y1 + sy*(T+1) = y1 + sy*T + sy by ring, hproj2] at hT
              exact Bool.noConfusion hT
            | true =>
              simp only [hproj2, Bool.not_true, Bool.false_eq_true, if_false]
              have e : y1 + sy*T + sy = y1 + sy*(T+1) := by ring
              have e5 : ax * (2*(T+1) - 1) = ax * (2*T+1) := by ring
              have e6 : ax * (2*(T+1) + 1) = ax * (2*T+1) + 2*ax := by ring
              rw [hstep, e]
              rw [ih (k+1) (T+1) (qy + (ay*ay)*2 - (ax*ay)*2) (by omega) (by omega)
                (by omega) (by linarith) (by linarith) (by rw [hqy]; ring)]
              constructor
              · intro hall T' k' hk1' hk2' hstrip
                rcases eq_or_lt_of_le hk1' with rfl | hklt'
                · rcases (hcol T').mp hstrip with rfl | ⟨rfl, _⟩
                  · exact hproj
                  · rw [show y1 + sy*(T+1) = y1 + sy*T + sy by ring]
                    exact hproj2
                · exact hall T' k' (by omega) hk2' hstrip
              · intro hall T' k' hk1' hk2' hstrip
                exact hall T' k' (by omega) hk2' hstrip
          · have hEQ : ax*(2*T+1) = ay*(2*k+1) := by linarith
            rw [if_neg (by rw [hlt_iff]; exact hAB), if_neg (by rw [hgt_iff]; exact hBA)]
            have e : y1 + sy*T + sy = y1 + sy*(T+1) := by ring
            have e5 : ax * (2*(T+1) - 1) = ax * (2*T+1) := by ring
            rw [hstep, e]
            rw [ih (k+1) (T+1) (qy + (ay*ay)*2 - (ax*ay)*2) (by omega) (by omega)
              (by omega) (by linarith) (by linarith) (by rw [hqy]; ring)]
            constructor
            · intro hall T' k' hk1' hk2' hstrip
              rcases eq_or_lt_of_le hk1' with rfl | hklt'
              · rcases (hcol T').mp hstrip with rfl | ⟨rfl, hs⟩
                · exact hproj
                · exact absurd hs (by linarith)
              · exact hall T' k' (by omega) hk2' hstrip
            · intro hall T' k' hk1' hk2' hstrip
              exact hall T' k' (by omega) hk2' hstrip

theorem bool_eq_of_iff {a b : Bool} (h : a = true ↔ b = true) : a = b := by
  cases a <;> cases b <;> simp_all

/-- The strip is invariant under the point reflection
`(T, k) ↦ (ay - T, ax - k)` through the midpoint of the segment. -/
theorem inStrip_dual (ax ay T k : Int) :
    inStrip ax ay (ay - T) (ax - k) ↔ inStrip ax ay T k := by
  unfold inStrip
  have e1 : ax * (2*(ay - T) - 1) = 2*(ax*ay) - ax*(2*T + 1) := by ring
  have e2 : ay * (2*(ax - k) + 1) = 2*(ax*ay) - ay*(2*k - 1) := by ring
  have e3 : ay * (2*(ax - k) - 1) = 2*(ax*ay) - ay*(2*k + 1) := by ring
  have e4 : ax * (2*(ay - T) + 1) = 2*(ax*ay) - ax*(2*T - 1) := by ring
  constructor <;> rintro ⟨h1, h2⟩ <;> exact ⟨by linarith, by linarith⟩

/-- In the general (diagonal) case of `los` — both deltas nonzero, not
adjacent, and neither knight early exit taken — `los` holds iff every
strictly-entered cell of the ideal line is projectable. -/
theorem los_diag_iff (F : Nat → Feature) (c : Chunk) (y1 x1 y2 x2 : Int)
    (hdx : ¬(x2 - x1 = 0)) (hdy : ¬(y2 - y1 = 0))
    (hadj : ¬(ABS (x2 - x1) < 2 ∧ ABS (y2 - y1) < 2))
    (hnk1 : ¬(ABS (x2 - x1) = 1 ∧ ABS (y2 - y1) = 2 ∧
        square_isprojectable F c (y1 + (if y2 - y1 < 0 then (-1:Int) else 1)) x1 = true))
    (hnk2 : ¬(ABS (x2 - x1) ≠ 1 ∧ ABS (y2 - y1) = 1 ∧ ABS (x2 - x1) = 2 ∧
        square_isprojectable F c y1 (x1 + (if x2 - x1 < 0 then (-1:Int) else 1)) = true)) :
    (los F c y1 x1 y2 x2 = true ↔
      (if ABS (x2 - x1) ≥ ABS (y2 - y1) then
        ∀ T k : Int, 1 ≤ k → k ≤ ABS (x2 - x1) - 1 →
          inStrip (ABS (x2 - x1)) (ABS (y2 - y1)) T k →
          square_isprojectable F c (y1 + (if y2 - y1 < 0 then (-1:Int) else 1) * T)
            (x1 + (if x2 - x1 < 0 then (-1:Int) else 1) * k) = true
      else
        ∀ T k : Int, 1 ≤ k → k ≤ ABS (y2 - y1) - 1 →
          inStrip (ABS (y2 - y1)) (ABS (x2 - x1)) T k →
          square_isprojectable F c (y1 + (if y2 - y1 < 0 then (-1:Int) else 1) * k)
            (x1 + (if x2 - x1 < 0 then (-1:Int) else 1) * T) = true)) := by
  have haxpos : 1 ≤ ABS (x2 - x1) := by rw [ABS_eq_natAbs]; omega
  have haypos : 1 ≤ ABS (y2 - y1) := by rw [ABS_eq_natAbs]; omega
  have hsx : (if x2 - x1 < 0 then (-1:Int) else 1) ≠ 0 := by split <;> omega
  have hsy : (if y2 - y1 < 0 then (-1:Int) else 1) ≠ 0 := by split <;> omega
  have hx2 : x2 = x1 + (if x2 - x1 < 0 then (-1:Int) else 1) * ABS (x2 - x1) := by
    rw [ABS_eq_natAbs]; split <;> omega
  have hy2 : y2 = y1 + (if y2 - y1 < 0 then (-1:Int) else 1) * ABS (y2 - y1) := by
    rw [ABS_eq_natAbs]; split <;> omega
  unfold los
  simp only []
  rw [if_neg hadj, if_neg hdx, if_neg hdy, if_neg hnk1, if_neg hnk2]
  set sx : Int := if x2 - x1 < 0 then (-1:Int) else 1 with hsxdef
  set sy : Int := if y2 - y1 < 0 then (-1:Int) else 1 with hsydef
  set ax : Int := ABS (x2 - x1) with haxdef
  set ay : Int := ABS (y2 - y1) with haydef
  by_cases hba : ax ≥ ay
  · rw [if_pos hba, if_pos hba]
    by_cases htie : ay * ay = ax * ay
    · have heq : ay = ax := by
        have := mul_right_cancel₀ (by omega : ay ≠ 0) htie
        omega
      rw [if_pos htie]
      have := walkH_eq_strip (fun a b => square_isprojectable F c a b) sx sy y1 x1 ax ay
        hsx haypos hba ax.toNat 1 1 (ay * ay - ax * ay * 2)
        le_rfl (by omega) (by omega)
        (by nlinarith) (by nlinarith) (by ring)
      simp only [] at this
      rw [show y1 + sy * (1:Int) = y1 + sy by ring, show x1 + sx * (1:Int) = x1 + sx by ring,
        ← hx2] at this
      exact this
    · have hlt : ay < ax := by
        rcases lt_or_eq_of_le hba with h | h
        · omega
        · exact absurd (by rw [h]) htie
      rw [if_neg htie]
      have := walkH_eq_strip (fun a b => square_isprojectable F c a b) sx sy y1 x1 ax ay
        hsx haypos hba ax.toNat 1 0 (ay * ay)
        le_rfl (by omega) (by omega)
        (by nlinarith) (by nlinarith) (by ring)
      simp only [] at this
      rw [show y1 + sy * (0:Int) = y1 by ring, show x1 + sx * (1:Int) = x1 + sx by ring,
        ← hx2] at this
      exact this
  · rw [if_neg hba, if_neg hba]
    have hab : ax ≤ ay := by omega
    have hcomm : ax * ay = ay * ax := by ring
    rw [hcomm]
    by_cases htie : ax * ax = ay * ax
    · have heq : ax = ay := by
        have := mul_right_cancel₀ (by omega : ax ≠ 0) htie
        omega
      rw [if_pos htie]
      have := walkH_eq_strip (fun a b => square_isprojectable F c b a) sy sx x1 y1 ay ax
        hsy haxpos hab ay.toNat 1 1 (ax * ax - ay * ax * 2)
        le_rfl (by omega) (by omega)
        (by nlinarith) (by nlinarith) (by ring)
      simp only [] at this
      rw [show x1 + sx * (1:Int) = x1 + sx by ring, show y1 + sy * (1:Int) = y1 + sy by ring,
        ← hy2] at this
      exact this
    · have hlt : ax < ay := by omega
      have htie2 : ¬(ax * ax = ay * ax) := htie
      rw [if_neg htie2]
      have := walkH_eq_strip (fun a b => square_isprojectable F c b a) sy sx x1 y1 ay ax
        hsy haxpos hab ay.toNat 1 0 (ax * ax)
        le_rfl (by omega) (by omega)
        (by nlinarith) (by nlinarith) (by ring)
      simp only [] at this
      rw [show x1 + sx * (0:Int) = x1 by ring, show y1 + sy * (1:Int) = y1 + sy by ring,
        ← hy2] at this
      exact this

theorem ABS_sub_comm (a b : Int) : ABS (a - b) = ABS (b - a) := by
  rw [ABS_eq_natAbs, ABS_eq_natAbs]; omega

/-- C3: for every grid and every pair of coordinates whose offset
(|Δx|,|Δy|) is not (1,2) or (2,1), `los` returns the same boolean in both
directions. -/
theorem c3_los_symm (F : Nat → Feature) (c : Chunk) (y1 x1 y2 x2 : Int)
    (h : ¬((ABS (x2 - x1) = 1 ∧ ABS (y2 - y1) = 2) ∨
           (ABS (x2 - x1) = 2 ∧ ABS (y2 - y1) = 1))) :
    los F c y1 x1 y2 x2 = los F c y2 x2 y1 x1 := by
  apply bool_eq_of_iff
  by_cases hadj : ABS (x2 - x1) < 2 ∧ ABS (y2 - y1) < 2
  · have hadj2 : ABS (x1 - x2) < 2 ∧ ABS (y1 - y2) < 2 := by
      rwa [ABS_sub_comm x1 x2, ABS_sub_comm y1 y2]
    unfold los
    simp only []
    rw [if_pos hadj, if_pos hadj2]
  · have hadj2 : ¬(ABS (x1 - x2) < 2 ∧ ABS (y1 - y2) < 2) := by
      rwa [ABS_sub_comm x1 x2, ABS_sub_comm y1 y2]
    by_cases hdx : x2 - x1 = 0
    · have hay : 2 ≤ ABS (y2 - y1) := by
        have h' := hadj
        simp only [ABS_eq_natAbs] at h' ⊢
        omega
      have hdx2 : x1 - x2 = 0 := by omega
      unfold los
      simp only []
      rw [if_neg hadj, if_neg hadj2, if_pos hdx, if_pos hdx2]
      by_cases hdyp : y2 - y1 > 0
      · rw [if_pos hdyp, if_neg (by omega : ¬(y1 - y2 > 0))]
        rw [scanS_iff _ ((y2 - (y1+1)).toNat) (y1+1) y2 (le_refl _),
          scanN_iff _ ((y2 - 1 - y1).toNat) (y2-1) y1 (le_refl _)]
        have hx12 : x2 = x1 := by omega
        rw [hx12]
        constructor
        · intro hall j hj1 hj2
          exact hall j (by omega) (by omega)
        · intro hall j hj1 hj2
          exact hall j (by omega) (by omega)
      · have hneg : y1 - y2 > 0 := by
          have h' := hay
          rw [ABS_eq_natAbs] at h'
          omega
        rw [if_neg hdyp, if_pos hneg]
        rw [scanN_iff _ ((y1 - 1 - y2).toNat) (y1-1) y2 (le_refl _),
          scanS_iff _ ((y1 - (y2+1)).toNat) (y2+1) y1 (le_refl _)]
        have hx12 : x2 = x1 := by omega
        rw [hx12]
        constructor
        · intro hall j hj1 hj2
          exact hall j (by omega) (by omega)
        · intro hall j hj1 hj2
          exact hall j (by omega) (by omega)
    · by_cases hdy : y2 - y1 = 0
      · have hax : 2 ≤ ABS (x2 - x1) := by
          have h' := hadj
          simp only [ABS_eq_natAbs] at h' ⊢
          omega
        have hdy2 : y1 - y2 = 0 := by omega
        have hdx2 : ¬(x1 - x2 = 0) := by omega
        unfold los
        simp only []
        rw [if_neg hadj, if_neg hadj2, if_neg hdx, if_neg hdx2, if_pos hdy, if_pos hdy2]
        by_cases hdxp : x2 - x1 > 0
        · rw [if_pos hdxp, if_neg (by omega : ¬(x1 - x2 > 0))]
          rw [scanS_iff _ ((x2 - (x1+1)).toNat) (x1+1) x2 (le_refl _),
            scanN_iff _ ((x2 - 1 - x1).toNat) (x2-1) x1 (le_refl _)]
          have hy12 : y2 = y1 := by omega
          rw [hy12]
          constructor
          · intro hall j hj1 hj2
            exact hall j (by omega) (by omega)
          · intro hall j hj1 hj2
            exact hall j (by omega) (by omega)
        · have hneg : x1 - x2 > 0 := by
            have h' := hax
            rw [ABS_eq_natAbs] at h'
            omega
          rw [if_neg hdxp, if_pos hneg]
          rw [scanN_iff _ ((x1 - 1 - x2).toNat) (x1-1) x2 (le_refl _),
            scanS_iff _ ((x1 - (x2+1)).toNat) (x2+1) x1 (le_refl _)]
          have hy12 : y2 = y1 := by omega
          rw [hy12]
          constructor
          · intro hall j hj1 hj2
            exact hall j (by omega) (by omega)
          · intro hall j hj1 hj2
            exact hall j (by omega) (by omega)
      · have hdx2 : ¬(x1 - x2 = 0) := by omega
        have hdy2 : ¬(y1 - y2 = 0) := by omega
        have hnk1 : ¬(ABS (x2 - x1) = 1 ∧ ABS (y2 - y1) = 2 ∧
            square_isprojectable F c (y1 + (if y2 - y1 < 0 then (-1:Int) else 1)) x1 = true) := by
          rintro ⟨a, b, _⟩
          exact h (Or.inl ⟨a, b⟩)
        have hnk2 : ¬(ABS (x2 - x1) ≠ 1 ∧ ABS (y2 - y1) = 1 ∧ ABS (x2 - x1) = 2 ∧
            square_isprojectable F c y1 (x1 + (if x2 - x1 < 0 then (-1:Int) else 1)) = true) := by
          rintro ⟨_, b, a, _⟩
          exact h (Or.inr ⟨a, b⟩)
        have hnk3 : ¬(ABS (x1 - x2) = 1 ∧ ABS (y1 - y2) = 2 ∧
            square_isprojectable F c (y2 + (if y1 - y2 < 0 then (-1:Int) else 1)) x2 = true) := by
          rintro ⟨a, b, _⟩
          rw [ABS_sub_comm x1 x2] at a
          rw [ABS_sub_comm y1 y2] at b
          exact h (Or.inl ⟨a, b⟩)
        have hnk4 : ¬(ABS (x1 - x2) ≠ 1 ∧ ABS (y1 - y2) = 1 ∧ ABS (x1 - x2) = 2 ∧
            square_isprojectable F c y2 (x2 + (if x1 - x2 < 0 then (-1:Int) else 1)) = true) := by
          rintro ⟨_, b, a, _⟩
          rw [ABS_sub_comm x1 x2] at a
          rw [ABS_sub_comm y1 y2] at b
          exact h (Or.inr ⟨a, b⟩)
        rw [los_diag_iff F c y1 x1 y2 x2 hdx hdy hadj hnk1 hnk2,
          los_diag_iff F c y2 x2 y1 x1 hdx2 hdy2 hadj2 hnk3 hnk4]
        rw [ABS_sub_comm x1 x2, ABS_sub_comm y1 y2]
        have hsx2 : (if x1 - x2 < 0 then (-1:Int) else 1) =
            -(if x2 - x1 < 0 then (-1:Int) else 1) := by
          split_ifs <;> omega
        have hsy2 : (if y1 - y2 < 0 then (-1:Int) else 1) =
            -(if y2 - y1 < 0 then (-1:Int) else 1) := by
          split_ifs <;> omega
        rw [hsx2, hsy2]
        set sx : Int := if x2 - x1 < 0 then (-1:Int) else 1 with hsxdef
        set sy : Int := if y2 - y1 < 0 then (-1:Int) else 1 with hsydef
        set ax : Int := ABS (x2 - x1) with haxdef
        set ay : Int := ABS (y2 - y1) with haydef
        have hx2 : x2 = x1 + sx * ax := by
          rw [haxdef, hsxdef, ABS_eq_natAbs]
          split <;> omega
        have hy2 : y2 = y1 + sy * ay := by
          rw [haydef, hsydef, ABS_eq_natAbs]
          split <;> omega
        by_cases hba : ax ≥ ay
        · rw [if_pos hba, if_pos hba]
          constructor
          · intro hall T k hk1 hk2 hstrip
            have := hall (ay - T) (ax - k) (by omega) (by omega)
              ((inStrip_dual ax ay T k).mpr hstrip)
            rw [show y1 + sy * (ay - T) = y2 + -sy * T by rw [hy2]; ring,
              show x1 + sx * (ax - k) = x2 + -sx * k by rw [hx2]; ring] at this
            exact this
          · intro hall T k hk1 hk2 hstrip
            have := hall (ay - T) (ax - k) (by omega) (by omega)
              ((inStrip_dual ax ay T k).mpr hstrip)
            rw [show y2 + -sy * (ay - T) = y1 + sy * T by rw [hy2]; ring,
              show x2 + -sx * (ax - k) = x1 + sx * k by rw [hx2]; ring] at this
            exact this
        · rw [if_neg hba, if_neg hba]
          constructor
          · intro hall T k hk1 hk2 hstrip
            have := hall (ax - T) (ay - k) (by omega) (by omega)
              ((inStrip_dual ay ax T k).mpr hstrip)
            rw [show y1 + sy * (ay - k) = y2 + -sy * k by rw [hy2]; ring,
              show x1 + sx * (ax - T) = x2 + -sx * T by rw [hx2]; ring] at this
            exact this
          · intro hall T k hk1 hk2 hstrip
            have := hall (ax - T) (ay - k) (by omega) (by omega)
              ((inStrip_dual ay ax T k).mpr hstrip)
            rw [show y2 + -sy * (ay - k) = y1 + sy * k by rw [hy2]; ring,
              show x2 + -sx * (ax - T) = x1 + sx * T by rw [hx2]; ring] at this
            exact this

/-! ### Concrete fixtures for witnesses and counterexamples -/

/-- A two-feature catalog for concrete grids: feature 0 is open floor,
any other feature is a wall (blocks sight and flow, not interesting). -/
def testF : Nat → Feature :=
  fun n => if n = 0 then ⟨true, false, false⟩ else ⟨false, true, false⟩

/-- An all-clear flag set. -/
def noFlags : SqInfo := ⟨false, false, false, false, false, false, false⟩

/-- A concrete chunk: given dimensions and a wall list, all flags clear. -/
def testChunk (h w : Int) (walls : List (Int × Int)) : Chunk :=
  { height := h, width := w,
    feat := fun y x => if (y, x) ∈ walls then 1 else 0,
    info := fun _ _ => noFlags,
    cost := fun _ _ => 0, whenv := fun _ _ => 0,
    feeling_squares := 0, mons := [], objMarked := fun _ _ => false }

/-- Witness for `c3_los_symm` at a concrete grid and non-knight offset. -/
theorem c3_los_symm_witness :
    ¬((ABS ((4:Int) - 0) = 1 ∧ ABS ((2:Int) - 0) = 2) ∨
      (ABS ((4:Int) - 0) = 2 ∧ ABS ((2:Int) - 0) = 1)) ∧
    los testF (testChunk 10 10 [(1, 1)]) 0 0 2 4 =
      los testF (testChunk 10 10 [(1, 1)]) 2 4 0 0 :=
  ⟨by decide, c3_los_symm testF (testChunk 10 10 [(1, 1)]) 0 0 2 4 (by decide)⟩

/-- The pure-column case of `los`: with `x1 = x2` and `|Δy| ≥ 2`, `los`
holds iff every strictly-intermediate cell of the column is projectable. -/
theorem los_col_iff (F : Nat → Feature) (c : Chunk) (y1 x1 y2 x2 : Int)
    (hx : x1 = x2) (hay : 2 ≤ ABS (y2 - y1)) :
    (los F c y1 x1 y2 x2 = true ↔
      ∀ t : Int, min y1 y2 < t → t < max y1 y2 → square_isprojectable F c t x1 = true) := by
  have hay' : 2 ≤ (y2 - y1).natAbs := by rw [ABS_eq_natAbs] at hay; omega
  have hdx : x2 - x1 = 0 := by omega
  unfold los
  simp only []
  rw [if_neg (by rw [ABS_eq_natAbs, ABS_eq_natAbs]; omega), if_pos hdx]
  by_cases hdyp : y2 - y1 > 0
  · rw [if_pos hdyp, scanS_iff _ ((y2 - (y1+1)).toNat) (y1+1) y2 (le_refl _)]
    constructor
    · intro hall t ht1 ht2
      exact hall t (by omega) (by omega)
    · intro hall t ht1 ht2
      exact hall t (by omega) (by omega)
  · rw [if_neg hdyp, scanN_iff _ ((y1 - 1 - y2).toNat) (y1-1) y2 (le_refl _)]
    constructor
    · intro hall t ht1 ht2
      exact hall t (by omega) (by omega)
    · intro hall t ht1 ht2
      exact hall t (by omega) (by omega)

/-- The pure-row case of `los`: with `y1 = y2` and `|Δx| ≥ 2`. -/
theorem los_row_iff (F : Nat → Feature) (c : Chunk) (y1 x1 y2 x2 : Int)
    (hy : y1 = y2) (hax : 2 ≤ ABS (x2 - x1)) :
    (los F c y1 x1 y2 x2 = true ↔
      ∀ t : Int, min x1 x2 < t → t < max x1 x2 → square_isprojectable F c y1 t = true) := by
  have hax' : 2 ≤ (x2 - x1).natAbs := by rw [ABS_eq_natAbs] at hax; omega
  have hdy : y2 - y1 = 0 := by omega
  unfold los
  simp only []
  rw [if_neg (by rw [ABS_eq_natAbs, ABS_eq_natAbs]; omega), if_neg (by omega : ¬(x2 - x1 = 0)),
    if_pos hdy]
  by_cases hdxp : x2 - x1 > 0
  · rw [if_pos hdxp, scanS_iff _ ((x2 - (x1+1)).toNat) (x1+1) x2 (le_refl _)]
    constructor
    · intro hall t ht1 ht2
      exact hall t (by omega) (by omega)
    · intro hall t ht1 ht2
      exact hall t (by omega) (by omega)
  · rw [if_neg hdxp, scanN_iff _ ((x1 - 1 - x2).toNat) (x1-1) x2 (le_refl _)]
    constructor
    · intro hall t ht1 ht2
      exact hall t (by omega) (by omega)
    · intro hall t ht1 ht2
      exact hall t (by omega) (by omega)

/-- C7: for every pair of distinct cells aligned on one row or one column at
distance at least 2, `los` is true iff every strictly-intermediate cell is
projectable; making one strictly-intermediate cell non-projectable flips the
result to false, and restoring its terrain restores true. -/
theorem c7_orth_los (F : Nat → Feature) (c : Chunk) (y1 x1 y2 x2 : Int) :
    (x1 = x2 → 2 ≤ ABS (y2 - y1) →
      ((los F c y1 x1 y2 x2 = true ↔
          ∀ t : Int, min y1 y2 < t → t < max y1 y2 →
            square_isprojectable F c t x1 = true) ∧
        (∀ t0 : Int, min y1 y2 < t0 → t0 < max y1 y2 →
          ∀ wf : Nat, (F wf).project = false →
            los F (putFeat c t0 x1 wf) y1 x1 y2 x2 = false ∧
            los F (putFeat (putFeat c t0 x1 wf) t0 x1 (c.feat t0 x1)) y1 x1 y2 x2 =
              los F c y1 x1 y2 x2))) ∧
    (y1 = y2 → 2 ≤ ABS (x2 - x1) →
      ((los F c y1 x1 y2 x2 = true ↔
          ∀ t : Int, min x1 x2 < t → t < max x1 x2 →
            square_isprojectable F c y1 t = true) ∧
        (∀ t0 : Int, min x1 x2 < t0 → t0 < max x1 x2 →
          ∀ wf : Nat, (F wf).project = false →
            los F (putFeat c y1 t0 wf) y1 x1 y2 x2 = false ∧
            los F (putFeat (putFeat c y1 t0 wf) y1 t0 (c.feat y1 t0)) y1 x1 y2 x2 =
              los F c y1 x1 y2 x2))) := by
  constructor
  · intro hx hay
    refine ⟨los_col_iff F c y1 x1 y2 x2 hx hay, ?_⟩
    intro t0 ht1 ht2 wf hwf
    constructor
    · cases hl : los F (putFeat c t0 x1 wf) y1 x1 y2 x2 with
      | false => rfl
      | true =>
        exfalso
        have ht := (los_col_iff F (putFeat c t0 x1 wf) y1 x1 y2 x2 hx hay).mp hl t0 ht1 ht2
        simp [square_isprojectable, putFeat, hwf] at ht
    · apply bool_eq_of_iff
      rw [los_col_iff F _ y1 x1 y2 x2 hx hay, los_col_iff F c y1 x1 y2 x2 hx hay]
      constructor
      · intro hall t h1 h2
        have ht := hall t h1 h2
        by_cases he : t = t0
        · subst he
          simpa [square_isprojectable, putFeat] using ht
        · simpa [square_isprojectable, putFeat, he] using ht
      · intro hall t h1 h2
        have ht := hall t h1 h2
        by_cases he : t = t0
        · subst he
          simpa [square_isprojectable, putFeat] using ht
        · simpa [square_isprojectable, putFeat, he] using ht
  · intro hy hax
    refine ⟨los_row_iff F c y1 x1 y2 x2 hy hax, ?_⟩
    intro t0 ht1 ht2 wf hwf
    constructor
    · cases hl : los F (putFeat c y1 t0 wf) y1 x1 y2 x2 with
      | false => rfl
      | true =>
        exfalso
        have ht := (los_row_iff F (putFeat c y1 t0 wf) y1 x1 y2 x2 hy hax).mp hl t0 ht1 ht2
        simp [square_isprojectable, putFeat, hwf] at ht
    · apply bool_eq_of_iff
      rw [los_row_iff F _ y1 x1 y2 x2 hy hax, los_row_iff F c y1 x1 y2 x2 hy hax]
      constructor
      · intro hall t h1 h2
        have ht := hall t h1 h2
        by_cases he : t = t0
        · subst he
          simpa [square_isprojectable, putFeat] using ht
        · simpa [square_isprojectable, putFeat, he] using ht
      · intro hall t h1 h2
        have ht := hall t h1 h2
        by_cases he : t = t0
        · subst he
          simpa [square_isprojectable, putFeat] using ht
        · simpa [square_isprojectable, putFeat, he] using ht

/-- Witness for `c7_orth_los`: a concrete row pair at distance 3 with all
intermediate cells open, blocked at the middle. -/
theorem c7_orth_los_witness :
    ((0:Int) = 0) ∧ (2 ≤ ABS ((3:Int) - 0)) ∧
    (los testF (testChunk 5 5 []) 0 0 0 3 = true) ∧
    (los testF (putFeat (testChunk 5 5 []) 0 1 1) 0 0 0 3 = false) := by
  have h := (c7_orth_los testF (testChunk 5 5 []) 0 0 0 3).2 rfl (by decide)
  refine ⟨rfl, by decide, ?_, ?_⟩
  · exact h.1.mpr (by decide)
  · exact (h.2 1 (by decide) (by decide) 1 (by decide)).1

/-! ### The visibility engine: `update_view` and its helpers -/

/-- `square_note_spot` (cave.c:557): no-op unless SEEN; marks all objects on
the cell as known-seen; then memorizes the terrain unless already marked. -/
def square_note_spot (c : Chunk) (y x : Int) : Chunk :=
  if ¬ square_isseen c y x then c
  else
    let c := { c with objMarked := fun a b => if a = y ∧ b = x then true else c.objMarked a b }
    if square_ismark c y x then c
    else putInfo c y x { c.info y x with mark := true }

/-- `square_light_spot` (cave.c:582): fires a redraw event only; no grid
state change, so the embedding is the identity on the chunk. -/
def square_light_spot (c : Chunk) (_y _x : Int) : Chunk := c

/-- The row-major enumeration of all in-bounds cells, as the C double loops
`for (y = 0; y < height; y++) for (x = 0; x < width; x++)` produce it. -/
def cellList (h w : Nat) : List (Int × Int) :=
  (List.range h).flatMap fun y => (List.range w).map fun x => (Int.ofNat y, Int.ofNat x)

/-- Apply a per-cell update over the whole grid in row-major order. -/
def foldCells (c : Chunk) (f : Chunk → Int → Int → Chunk) : Chunk :=
  (cellList c.height.toNat c.width.toNat).foldl (fun c1 p => f c1 p.1 p.2) c

/-- The loop body of `mark_wasseen` for one cell. -/
def mark_wasseen_one (c : Chunk) (y x : Int) : Chunk :=
  let c := if square_isseen c y x then putInfo c y x { c.info y x with wasseen := true } else c
  putInfo c y x { c.info y x with view := false, seen := false }

/-- `mark_wasseen` (cave.c:970): snapshot SEEN into WASSEEN, then clear VIEW
and SEEN, for every in-bounds cell. -/
def mark_wasseen (c : Chunk) : Chunk :=
  foldCells c mark_wasseen_one

/-- The nine offsets `(i, j)`, `i, j ∈ {-1,0,1}`, in the order of the two
nested loops of `add_monster_lights`. -/
def offsets9 : List (Int × Int) :=
  [(-1,-1), (-1,0), (-1,1), (0,-1), (0,0), (0,1), (1,-1), (1,0), (1,1)]

/-- The inner loop body of `add_monster_lights` (cave.c:1004-1026) for one
cell `(sy, sx)` of the 3x3 box around a monster. -/
def monster_light_cell (F : Nat → Feature) (c : Chunk) (fromy fromx : Int) (in_los : Bool)
    (sy sx : Int) : Chunk :=
  if ¬ in_los ∧ ¬ square_isprojectable F c sy sx then c
  else if distance fromy fromx sy sx > MAX_SIGHT then c
  else if ¬ los F c fromy fromx sy sx then c
  else putInfo c sy sx { c.info sy sx with view := true, seen := true }

/-- One monster's pass of `add_monster_lights` (cave.c:989-1027): light the
3x3 box centered on a live light-carrying monster, cell by cell. -/
def monster_light_one (F : Nat → Feature) (c : Chunk) (fromy fromx : Int) (m : Monster) :
    Chunk :=
  let in_los := los F c fromy fromx m.fy m.fx
  if ¬ m.alive then c
  else if ¬ m.has_light then c
  else
    offsets9.foldl (fun c ij => monster_light_cell F c fromy fromx in_los (m.fy + ij.1) (m.fx + ij.2)) c

/-- `add_monster_lights` (cave.c:984): scan the monster list and add monster
lights. -/
def add_monster_lights (F : Nat → Feature) (c : Chunk) (fromy fromx : Int) : Chunk :=
  c.mons.foldl (fun c1 m => monster_light_one F c1 fromy fromx m) c

/-- `become_viewable` (cave.c:1056): mark a cell VIEW (no-op when already
VIEW); SEEN when lit; additionally SEEN when the cell glows and the cell one
plain step toward the player (shifted only for walls) also glows. -/
def become_viewable (F : Nat → Feature) (c : Chunk) (y x : Int) (lit : Bool) (py px : Int) :
    Chunk :=
  if square_isview c y x then c
  else
    let c := putInfo c y x { c.info y x with view := true }
    let c := if lit then putInfo c y x { c.info y x with seen := true } else c
    if square_isglow c y x then
      let yx :=
        if square_iswall F c y x then
          ((if y < py then y + 1 else if y > py then y - 1 else y),
           (if x < px then x + 1 else if x > px then x - 1 else x))
        else (y, x)
      if square_isglow c yx.1 yx.2 then putInfo c y x { c.info y x with seen := true } else c
    else c

/-- `update_view_one` (cave.c:1081): the full-scan step for one cell.  For
wall cells the LOS test is run against a reference cell shifted one step
toward the player, except when the shifted cell is itself a wall or when the
approach matches one of the two diagonal knight sub-cases. -/
def update_view_one (F : Nat → Feature) (c : Chunk) (y x : Int) (radius py px : Int) :
    Chunk :=
  let d := distance y x py px
  let lit : Bool := d < radius
  if d > MAX_SIGHT then c
  else
    let yx :=
      if square_iswall F c y x then
        let dx := x - px
        let dy := y - py
        let ax := ABS dx
        let ay := ABS dy
        let sx : Int := if dx > 0 then 1 else -1
        let sy : Int := if dy > 0 then 1 else -1
        let xc := if x < px then x + 1 else if x > px then x - 1 else x
        let yc := if y < py then y + 1 else if y > py then y - 1 else y
        let yx := if square_iswall F c yc xc then (y, x) else (yc, xc)
        if ax = 2 ∧ ay = 1 ∧ ¬ square_iswall F c y (x - sx) = true ∧
            square_iswall F c (y - sy) (x - sx) = true then (y, x)
        else if ax = 1 ∧ ay = 2 ∧ ¬ square_iswall F c (y - sy) x = true ∧
            square_iswall F c (y - sy) (x - sx) = true then (y, x)
        else yx
      else (y, x)
    if los F c py px yx.1 yx.2 then become_viewable F c y x lit py px else c

/-- `update_one` (cave.c:1031): the commit step for one cell — force-clear
SEEN when blind, fire the newly-seen side effects (level feeling counter,
memorization, redraw), the unseen redraw, and clear WASSEEN. -/
def update_one (c : Chunk) (y x : Int) (blind : Bool) : Chunk :=
  let c := if blind then putInfo c y x { c.info y x with seen := false } else c
  let c :=
    if square_isseen c y x ∧ ¬ square_wasseen c y x = true then
      let c :=
        if square_isfeel c y x then
          let c := { c with feeling_squares := c.feeling_squares + 1 }
          putInfo c y x { c.info y x with feel := false }
        else c
      let c := square_note_spot c y x
      square_light_spot c y x
    else c
  let c := if ¬ square_isseen c y x = true ∧ square_wasseen c y x then
      square_light_spot c y x
    else c
  putInfo c y x { c.info y x with wasseen := false }

/-- `update_view` (cave.c:1143): snapshot and clear, extract the radius
(plus one for real light), monster lights, the player grid, the full scan,
and the commit pass. -/
def update_view (F : Nat → Feature) (c : Chunk) (p : PlayerS) : Chunk :=
  let c := mark_wasseen c
  let radius := p.cur_light
  let radius := if radius > 0 then radius + 1 else radius
  let c := add_monster_lights F c p.py p.px
  let c := putInfo c p.py p.px { c.info p.py p.px with view := true }
  let c :=
    if radius > 0 ∨ square_isglow c p.py p.px then
      putInfo c p.py p.px { c.info p.py p.px with seen := true }
    else c
  let c := foldCells c fun c1 y x => update_view_one F c1 y x radius p.py p.px
  foldCells c fun c1 y x => update_one c1 y x p.blind

/-! ### Basic update lemmas and the per-cell fold machinery -/

theorem putInfo_info_self (c : Chunk) (y x : Int) (s : SqInfo) :
    (putInfo c y x s).info y x = s := by
  simp [putInfo]

theorem putInfo_info_ne (c : Chunk) (y x : Int) (s : SqInfo) (a b : Int)
    (h : ¬(a = y ∧ b = x)) : (putInfo c y x s).info a b = c.info a b := by
  simp [putInfo, h]

theorem putInfo_height (c : Chunk) (y x : Int) (s : SqInfo) :
    (putInfo c y x s).height = c.height := rfl

theorem putInfo_width (c : Chunk) (y x : Int) (s : SqInfo) :
    (putInfo c y x s).width = c.width := rfl

theorem putInfo_feat (c : Chunk) (y x : Int) (s : SqInfo) :
    (putInfo c y x s).feat = c.feat := rfl

/-- If no step of a fold over a cell list touches the info of `(y, x)`, the
fold leaves that info unchanged. -/
theorem fold_frame (f : Chunk → Int → Int → Chunk)
    (hlocal : ∀ c y x a b, ¬(a = y ∧ b = x) → (f c y x).info a b = c.info a b) :
    ∀ (l : List (Int × Int)) (c : Chunk) (y x : Int), (y, x) ∉ l →
      ((l.foldl (fun c1 p => f c1 p.1 p.2) c).info y x = c.info y x) := by
  intro l
  induction l with
  | nil => intro c y x _; rfl
  | cons p l ih =>
    intro c y x hmem
    rw [List.foldl_cons]
    have hmem2 : (y, x) ≠ p ∧ (y, x) ∉ l := by
      constructor
      · intro hc; exact hmem (hc ▸ List.mem_cons_self p l)
      · intro hc; exact hmem (List.mem_cons_of_mem p hc)
    rw [ih _ y x hmem2.2]
    apply hlocal
    rintro ⟨h1, h2⟩
    exact hmem2.1 (by cases p; simp_all)

/-- A fold over a duplicate-free cell list, each step of which touches only
its own cell's info and whose effect on a cell is unperturbed by steps at
other cells, updates each listed cell as if applied directly to the
initial state. -/
theorem fold_char (f : Chunk → Int → Int → Chunk)
    (hlocal : ∀ c y x a b, ¬(a = y ∧ b = x) → (f c y x).info a b = c.info a b)
    (hstab : ∀ c a b y x, ¬(a = y ∧ b = x) →
      (f (f c a b) y x).info y x = (f c y x).info y x) :
    ∀ (l : List (Int × Int)) (c : Chunk) (y x : Int), (y, x) ∈ l → l.Nodup →
      ((l.foldl (fun c1 p => f c1 p.1 p.2) c).info y x = (f c y x).info y x) := by
  intro l
  induction l with
  | nil => intro c y x h _; cases h
  | cons p l ih =>
    intro c y x hmem hnd
    rw [List.foldl_cons]
    rcases List.mem_cons.mp hmem with heq | hmem2
    · have hni : (y, x) ∉ l := by
        rw [heq]
        exact (List.nodup_cons.mp hnd).1
      rw [fold_frame f hlocal l _ y x hni, ← heq]
    · have hnd2 := (List.nodup_cons.mp hnd).2
      have hne : ¬(p.1 = y ∧ p.2 = x) := by
        rintro ⟨h1, h2⟩
        have : p = (y, x) := by cases p; simp_all
        exact (List.nodup_cons.mp hnd).1 (this ▸ hmem2)
      rw [ih _ y x hmem2 hnd2, hstab c p.1 p.2 y x hne]

theorem mem_cellList (h w : Nat) (y x : Int) :
    ((y, x) ∈ cellList h w) ↔ 0 ≤ y ∧ y < (h : Int) ∧ 0 ≤ x ∧ x < (w : Int) := by
  unfold cellList
  rw [List.mem_flatMap]
  constructor
  · rintro ⟨a, ha, hmem⟩
    rw [List.mem_map] at hmem
    obtain ⟨b, hb, heq⟩ := hmem
    rw [List.mem_range] at ha hb
    have h1 : Int.ofNat a = y := congrArg Prod.fst heq
    have h2 : Int.ofNat b = x := congrArg Prod.snd heq
    rw [Int.ofNat_eq_coe] at h1 h2
    omega
  · rintro ⟨h1, h2, h3, h4⟩
    refine ⟨y.toNat, ?_, ?_⟩
    · rw [List.mem_range]
      omega
    · rw [List.mem_map]
      refine ⟨x.toNat, ?_, ?_⟩
      · rw [List.mem_range]
        omega
      · have e1 : Int.ofNat y.toNat = y := by
          rw [Int.ofNat_eq_coe]
          omega
        have e2 : Int.ofNat x.toNat = x := by
          rw [Int.ofNat_eq_coe]
          omega
        rw [e1, e2]

theorem nodup_cellList (h w : Nat) : (cellList h w).Nodup := by
  unfold cellList
  rw [List.nodup_flatMap]
  constructor
  · intro a _
    refine List.Nodup.map ?_ (List.nodup_range w)
    intro b1 b2 hb
    simpa using hb
  · refine (List.pairwise_lt_range h).imp ?_
    intro a b hab
    simp only [Function.onFun, List.disjoint_left]
    rintro ⟨py, px⟩ hp1 hp2
    rw [List.mem_map] at hp1 hp2
    obtain ⟨b1, _, he1⟩ := hp1
    obtain ⟨b2, _, he2⟩ := hp2
    have g1 : Int.ofNat a = py := congrArg Prod.fst he1
    have g2 : Int.ofNat b = py := congrArg Prod.fst he2
    rw [Int.ofNat_eq_coe] at g1 g2
    omega

/-- `become_viewable` leaves the chunk unchanged when the cell is already in
view (the early return of cave.c:1060). -/
theorem become_viewable_noop (F : Nat → Feature) (c : Chunk) (y x : Int)
    (lit : Bool) (py px : Int) (h : square_isview c y x = true) :
    become_viewable F c y x lit py px = c := by
  unfold become_viewable
  rw [if_pos h]

/-- C10: during the full scan, any cell whose VIEW flag is already set when
`become_viewable` is invoked on it — in particular every cell marked VIEW
and SEEN by the preceding monster-light pass — is left with all of its
flags (and the whole chunk) unchanged by that invocation, so its SEEN state
is never re-evaluated against the torch-radius or glow rules. -/
theorem c10_become_viewable_already_view_noop (F : Nat → Feature) (c : Chunk) (y x : Int)
    (lit : Bool) (py px : Int) (h : square_isview c y x = true) :
    become_viewable F c y x lit py px = c := by
  unfold become_viewable
  rw [if_pos h]

/-- Witness for `c10_become_viewable_already_view_noop` on a concrete cell
marked VIEW and SEEN as the monster-light pass does. -/
theorem c10_become_viewable_already_view_noop_witness :
    (square_isview (putInfo (testChunk 3 3 []) 1 1
        { noFlags with view := true, seen := true }) 1 1 = true) ∧
    become_viewable testF (putInfo (testChunk 3 3 [])
        1 1 { noFlags with view := true, seen := true }) 1 1 false 0 0 =
      putInfo (testChunk 3 3 []) 1 1 { noFlags with view := true, seen := true } :=
  ⟨by decide,
    c10_become_viewable_already_view_noop testF
      (putInfo (testChunk 3 3 []) 1 1 { noFlags with view := true, seen := true })
      1 1 false 0 0 (by decide)⟩

/-! ### C1: SEEN implies VIEW after `update_view` -/

theorem fold_pres {β : Type _} (P : Chunk → Prop) (f : Chunk → β → Chunk)
    (hstep : ∀ c b, P c → P (f c b)) :
    ∀ (l : List β) (c : Chunk), P c → P (l.foldl f c) := by
  intro l
  induction l with
  | nil => intro c hc; exact hc
  | cons b l ih => intro c hc; exact ih _ (hstep c b hc)

theorem foldCells_pres (P : Chunk → Prop) (f : Chunk → Int → Int → Chunk)
    (hstep : ∀ c y x, P c → P (f c y x)) (c : Chunk) (h : P c) : P (foldCells c f) := by
  unfold foldCells
  exact fold_pres P (fun c1 (p : Int × Int) => f c1 p.1 p.2)
    (fun c1 (p : Int × Int) hc => hstep c1 p.1 p.2 hc) _ c h

theorem fold_proj {β γ : Type _} (g : Chunk → γ) (f : Chunk → β → Chunk)
    (hstep : ∀ c b, g (f c b) = g c) :
    ∀ (l : List β) (c : Chunk), g (l.foldl f c) = g c := by
  intro l
  induction l with
  | nil => intro c; rfl
  | cons b l ih => intro c; rw [List.foldl_cons, ih, hstep]

theorem mark_wasseen_one_height (c : Chunk) (y x : Int) :
    (mark_wasseen_one c y x).height = c.height := by
  unfold mark_wasseen_one
  simp [apply_ite (fun ch : Chunk => ch.height), putInfo]

theorem mark_wasseen_one_width (c : Chunk) (y x : Int) :
    (mark_wasseen_one c y x).width = c.width := by
  unfold mark_wasseen_one
  simp [apply_ite (fun ch : Chunk => ch.width), putInfo]

theorem mark_wasseen_height (c : Chunk) : (mark_wasseen c).height = c.height := by
  unfold mark_wasseen foldCells
  exact fold_proj (fun ch => ch.height) _
    (fun c1 (p : Int × Int) => mark_wasseen_one_height c1 p.1 p.2) _ c

theorem mark_wasseen_width (c : Chunk) : (mark_wasseen c).width = c.width := by
  unfold mark_wasseen foldCells
  exact fold_proj (fun ch => ch.width) _
    (fun c1 (p : Int × Int) => mark_wasseen_one_width c1 p.1 p.2) _ c

theorem monster_light_cell_height (F : Nat → Feature) (c : Chunk) (fy fx : Int) (il : Bool)
    (sy sx : Int) : (monster_light_cell F c fy fx il sy sx).height = c.height := by
  unfold monster_light_cell
  simp [apply_ite (fun ch : Chunk => ch.height), putInfo]

theorem monster_light_cell_width (F : Nat → Feature) (c : Chunk) (fy fx : Int) (il : Bool)
    (sy sx : Int) : (monster_light_cell F c fy fx il sy sx).width = c.width := by
  unfold monster_light_cell
  simp [apply_ite (fun ch : Chunk => ch.width), putInfo]

theorem monster_light_one_height (F : Nat → Feature) (c : Chunk) (fy fx : Int) (m : Monster) :
    (monster_light_one F c fy fx m).height = c.height := by
  unfold monster_light_one
  simp only [apply_ite (fun ch : Chunk => ch.height)]
  rw [fold_proj (fun ch => ch.height) _
    (fun c1 (ij : Int × Int) => monster_light_cell_height F c1 fy fx _ _ _) _ c]
  simp

theorem monster_light_one_width (F : Nat → Feature) (c : Chunk) (fy fx : Int) (m : Monster) :
    (monster_light_one F c fy fx m).width = c.width := by
  unfold monster_light_one
  simp only [apply_ite (fun ch : Chunk => ch.width)]
  rw [fold_proj (fun ch => ch.width) _
    (fun c1 (ij : Int × Int) => monster_light_cell_width F c1 fy fx _ _ _) _ c]
  simp

theorem add_monster_lights_height (F : Nat → Feature) (c : Chunk) (fy fx : Int) :
    (add_monster_lights F c fy fx).height = c.height := by
  unfold add_monster_lights
  exact fold_proj (fun ch => ch.height) _
    (fun c1 m => monster_light_one_height F c1 fy fx m) _ c

theorem add_monster_lights_width (F : Nat → Feature) (c : Chunk) (fy fx : Int) :
    (add_monster_lights F c fy fx).width = c.width := by
  unfold add_monster_lights
  exact fold_proj (fun ch => ch.width) _
    (fun c1 m => monster_light_one_width F c1 fy fx m) _ c

theorem become_viewable_height (F : Nat → Feature) (c : Chunk) (y x : Int) (lit : Bool)
    (py px : Int) : (become_viewable F c y x lit py px).height = c.height := by
  unfold become_viewable
  simp [apply_ite (fun ch : Chunk => ch.height), putInfo]

theorem become_viewable_width (F : Nat → Feature) (c : Chunk) (y x : Int) (lit : Bool)
    (py px : Int) : (become_viewable F c y x lit py px).width = c.width := by
  unfold become_viewable
  simp [apply_ite (fun ch : Chunk => ch.width), putInfo]

theorem update_view_one_height (F : Nat → Feature) (c : Chunk) (y x r py px : Int) :
    (update_view_one F c y x r py px).height = c.height := by
  unfold update_view_one
  simp [apply_ite (fun ch : Chunk => ch.height), become_viewable_height]

theorem update_view_one_width (F : Nat → Feature) (c : Chunk) (y x r py px : Int) :
    (update_view_one F c y x r py px).width = c.width := by
  unfold update_view_one
  simp [apply_ite (fun ch : Chunk => ch.width), become_viewable_width]

theorem square_note_spot_height (c : Chunk) (y x : Int) :
    (square_note_spot c y x).height = c.height := by
  unfold square_note_spot
  simp [apply_ite (fun ch : Chunk => ch.height), putInfo]

theorem square_note_spot_width (c : Chunk) (y x : Int) :
    (square_note_spot c y x).width = c.width := by
  unfold square_note_spot
  simp [apply_ite (fun ch : Chunk => ch.width), putInfo]

theorem update_one_height (c : Chunk) (y x : Int) (blind : Bool) :
    (update_one c y x blind).height = c.height := by
  unfold update_one square_light_spot
  simp [apply_ite (fun ch : Chunk => ch.height), putInfo, square_note_spot_height]

theorem update_one_width (c : Chunk) (y x : Int) (blind : Bool) :
    (update_one c y x blind).width = c.width := by
  unfold update_one square_light_spot
  simp [apply_ite (fun ch : Chunk => ch.width), putInfo, square_note_spot_width]

theorem update_view_height (F : Nat → Feature) (c : Chunk) (p : PlayerS) :
    (update_view F c p).height = c.height := by
  unfold update_view foldCells
  rw [fold_proj (fun ch => ch.height) _
      (fun c1 (p1 : Int × Int) => update_one_height c1 p1.1 p1.2 _) _ _,
    fold_proj (fun ch => ch.height) _
      (fun c1 (p1 : Int × Int) => update_view_one_height F c1 p1.1 p1.2 _ _ _) _ _]
  simp [apply_ite (fun ch : Chunk => ch.height), putInfo, add_monster_lights_height,
    mark_wasseen_height]

theorem update_view_width (F : Nat → Feature) (c : Chunk) (p : PlayerS) :
    (update_view F c p).width = c.width := by
  unfold update_view foldCells
  rw [fold_proj (fun ch => ch.width) _
      (fun c1 (p1 : Int × Int) => update_one_width c1 p1.1 p1.2 _) _ _,
    fold_proj (fun ch => ch.width) _
      (fun c1 (p1 : Int × Int) => update_view_one_width F c1 p1.1 p1.2 _ _ _) _ _]
  simp [apply_ite (fun ch : Chunk => ch.width), putInfo, add_monster_lights_width,
    mark_wasseen_width]

theorem mark_wasseen_one_val (c : Chunk) (y x : Int) :
    (mark_wasseen_one c y x).info y x =
      ⟨false, false, (c.info y x).wasseen || (c.info y x).seen, (c.info y x).glow,
        (c.info y x).mark, (c.info y x).room, (c.info y x).feel⟩ := by
  unfold mark_wasseen_one square_isseen
  by_cases hs : (c.info y x).seen = true
  · rw [if_pos hs]
    simp [putInfo, hs]
  · rw [if_neg hs]
    have hs2 : (c.info y x).seen = false := by
      revert hs
      cases (c.info y x).seen <;> simp
    simp [putInfo, hs2]

theorem mark_wasseen_one_info_ne (c : Chunk) (y x a b : Int) (h : ¬(a = y ∧ b = x)) :
    (mark_wasseen_one c y x).info a b = c.info a b := by
  unfold mark_wasseen_one
  split <;> simp [putInfo, h]

theorem mark_wasseen_info (c : Chunk) (y x : Int)
    (hy : 0 ≤ y) (hy2 : y < c.height) (hx : 0 ≤ x) (hx2 : x < c.width) :
    (mark_wasseen c).info y x =
      ⟨false, false, (c.info y x).wasseen || (c.info y x).seen, (c.info y x).glow,
        (c.info y x).mark, (c.info y x).room, (c.info y x).feel⟩ := by
  unfold mark_wasseen foldCells
  rw [fold_char mark_wasseen_one
    (fun c y x a b h => mark_wasseen_one_info_ne c y x a b h)
    (fun c a b y x h => by
      rw [mark_wasseen_one_val, mark_wasseen_one_val,
        mark_wasseen_one_info_ne c a b y x (fun hc => h ⟨hc.1.symm, hc.2.symm⟩)])
    _ c y x ((mem_cellList _ _ y x).mpr ⟨hy, by omega, hx, by omega⟩) (nodup_cellList _ _)]
  exact mark_wasseen_one_val c y x

/-- The SEEN implies VIEW invariant over the in-bounds cells of a chunk. -/
def seenImpView (c : Chunk) : Prop :=
  ∀ y x : Int, 0 ≤ y → y < c.height → 0 ≤ x → x < c.width →
    (c.info y x).seen = true → (c.info y x).view = true

theorem monster_light_cell_pres (F : Nat → Feature) (c : Chunk) (fy fx : Int) (il : Bool)
    (sy sx : Int) (h : seenImpView c) :
    seenImpView (monster_light_cell F c fy fx il sy sx) := by
  unfold monster_light_cell
  split_ifs with h1 h2 h3 <;>
    first
      | exact h
      | (intro y x hy hy2 hx hx2 hseen
         rw [putInfo_height] at hy2
         rw [putInfo_width] at hx2
         by_cases hc : y = sy ∧ x = sx
         · obtain ⟨rfl, rfl⟩ := hc
           rw [putInfo_info_self]
         · rw [putInfo_info_ne _ _ _ _ _ _ hc] at hseen ⊢
           exact h y x hy hy2 hx hx2 hseen)

theorem monster_light_one_pres (F : Nat → Feature) (c : Chunk) (fy fx : Int) (m : Monster)
    (h : seenImpView c) : seenImpView (monster_light_one F c fy fx m) := by
  unfold monster_light_one
  simp only []
  split_ifs <;>
    first
      | exact h
      | exact fold_pres seenImpView _
          (fun c1 ij hc => monster_light_cell_pres F c1 fy fx _ _ _ hc) _ c h

theorem add_monster_lights_pres (F : Nat → Feature) (c : Chunk) (fy fx : Int)
    (h : seenImpView c) : seenImpView (add_monster_lights F c fy fx) := by
  unfold add_monster_lights
  exact fold_pres seenImpView _ (fun c m hc => monster_light_one_pres F c fy fx m hc) _ c h

theorem become_viewable_info_ne (F : Nat → Feature) (c : Chunk) (y0 x0 : Int) (lit : Bool)
    (py px a b : Int) (h : ¬(a = y0 ∧ b = x0)) :
    (become_viewable F c y0 x0 lit py px).info a b = c.info a b := by
  unfold become_viewable
  simp [apply_ite (fun ch : Chunk => ch.info a b), putInfo, h]

theorem become_viewable_view_self (F : Nat → Feature) (c : Chunk) (y0 x0 : Int) (lit : Bool)
    (py px : Int) (hnv : ¬ square_isview c y0 x0 = true) :
    ((become_viewable F c y0 x0 lit py px).info y0 x0).view = true := by
  unfold become_viewable
  rw [if_neg hnv]
  simp [apply_ite (fun ch : Chunk => (ch.info y0 x0).view), putInfo]

theorem become_viewable_pres (F : Nat → Feature) (c : Chunk) (y0 x0 : Int) (lit : Bool)
    (py px : Int) (h : seenImpView c) :
    seenImpView (become_viewable F c y0 x0 lit py px) := by
  by_cases hv : square_isview c y0 x0 = true
  · rw [become_viewable_noop F c y0 x0 lit py px hv]
    exact h
  · intro y x hy hy2 hx hx2 hseen
    rw [become_viewable_height F c y0 x0 lit py px] at hy2
    rw [become_viewable_width F c y0 x0 lit py px] at hx2
    by_cases hc : y = y0 ∧ x = x0
    · obtain ⟨rfl, rfl⟩ := hc
      exact become_viewable_view_self F c y x lit py px hv
    · rw [become_viewable_info_ne _ _ _ _ _ _ _ _ _ hc] at hseen ⊢
      exact h y x hy hy2 hx hx2 hseen

theorem update_view_one_pres (F : Nat → Feature) (c : Chunk) (y0 x0 r py px : Int)
    (h : seenImpView c) : seenImpView (update_view_one F c y0 x0 r py px) := by
  have haux : ∀ (A B : Int) (lit : Bool),
      seenImpView (if los F c py px A B = true then
        become_viewable F c y0 x0 lit py px else c) := by
    intro A B lit
    split
    · exact become_viewable_pres F c y0 x0 lit py px h
    · exact h
  unfold update_view_one
  simp only []
  by_cases h1 : distance y0 x0 py px > MAX_SIGHT
  · rw [if_pos h1]
    exact h
  · rw [if_neg h1]
    exact haux _ _ _

theorem update_one_info_ne (c : Chunk) (y0 x0 : Int) (blind : Bool) (a b : Int)
    (h : ¬(a = y0 ∧ b = x0)) :
    (update_one c y0 x0 blind).info a b = c.info a b := by
  unfold update_one square_note_spot square_light_spot
  simp [apply_ite (fun ch : Chunk => ch.info a b), putInfo, h]

theorem square_note_spot_view (c : Chunk) (y x a b : Int) :
    ((square_note_spot c y x).info a b).view = (c.info a b).view := by
  unfold square_note_spot
  by_cases hc : a = y ∧ b = x
  · obtain ⟨rfl, rfl⟩ := hc
    simp [apply_ite (fun ch : Chunk => (ch.info a b).view), putInfo]
  · simp [apply_ite (fun ch : Chunk => (ch.info a b).view), putInfo, hc]

theorem square_note_spot_seen (c : Chunk) (y x a b : Int) :
    ((square_note_spot c y x).info a b).seen = (c.info a b).seen := by
  unfold square_note_spot
  by_cases hc : a = y ∧ b = x
  · obtain ⟨rfl, rfl⟩ := hc
    simp [apply_ite (fun ch : Chunk => (ch.info a b).seen), putInfo]
  · simp [apply_ite (fun ch : Chunk => (ch.info a b).seen), putInfo, hc]

theorem update_one_view (c : Chunk) (y0 x0 : Int) (blind : Bool) (a b : Int) :
    ((update_one c y0 x0 blind).info a b).view = (c.info a b).view := by
  unfold update_one square_light_spot
  by_cases hc : a = y0 ∧ b = x0
  · obtain ⟨rfl, rfl⟩ := hc
    simp [apply_ite (fun ch : Chunk => (ch.info a b).view), putInfo, square_note_spot_view]
  · simp [apply_ite (fun ch : Chunk => (ch.info a b).view), putInfo, square_note_spot_view, hc]

theorem update_one_seen_imp (c : Chunk) (y0 x0 : Int) (blind : Bool) (a b : Int) :
    ((update_one c y0 x0 blind).info a b).seen = true → (c.info a b).seen = true := by
  unfold update_one square_light_spot
  by_cases hc : a = y0 ∧ b = x0
  · obtain ⟨rfl, rfl⟩ := hc
    by_cases hb : blind = true
    · simp [apply_ite (fun ch : Chunk => (ch.info a b).seen), putInfo, square_note_spot_seen,
        hb]
    · simp [apply_ite (fun ch : Chunk => (ch.info a b).seen), putInfo, square_note_spot_seen,
        hb]
  · simp [apply_ite (fun ch : Chunk => (ch.info a b).seen), putInfo, square_note_spot_seen, hc]

theorem update_one_pres (c : Chunk) (y0 x0 : Int) (blind : Bool)
    (h : seenImpView c) : seenImpView (update_one c y0 x0 blind) := by
  intro y x hy hy2 hx hx2 hseen
  rw [update_one_height c y0 x0 blind] at hy2
  rw [update_one_width c y0 x0 blind] at hx2
  have hs := update_one_seen_imp c y0 x0 blind y x hseen
  rw [update_one_view c y0 x0 blind y x]
  exact h y x hy hy2 hx hx2 hs

/-- C1: after every call to `update_view`, for every in-bounds cell of the
grid, if the cell's SEEN flag is set then its VIEW flag is also set. -/
theorem c1_update_view_seen_imp_view (F : Nat → Feature) (c : Chunk) (p : PlayerS)
    (y x : Int) (hy : 0 ≤ y) (hy2 : y < c.height) (hx : 0 ≤ x) (hx2 : x < c.width)
    (hseen : square_isseen (update_view F c p) y x = true) :
    square_isview (update_view F c p) y x = true := by
  have hbase : seenImpView (mark_wasseen c) := by
    intro a b ha ha2 hb hb2 hs
    rw [mark_wasseen_height c] at ha2
    rw [mark_wasseen_width c] at hb2
    rw [mark_wasseen_info c a b ha ha2 hb hb2] at hs
    exact absurd hs (by simp)
  have h2 : seenImpView (add_monster_lights F (mark_wasseen c) p.py p.px) :=
    add_monster_lights_pres F _ _ _ hbase
  have hdh := update_view_height F c p
  have hdw := update_view_width F c p
  unfold square_isseen at hseen
  unfold square_isview
  unfold update_view at hseen hdh hdw ⊢
  simp only [] at hseen hdh hdw ⊢
  set c2 := add_monster_lights F (mark_wasseen c) p.py p.px with hc2
  set c3 := putInfo c2 p.py p.px { c2.info p.py p.px with view := true } with hc3
  have h3 : seenImpView c3 := by
    intro a b ha ha2 hb hb2 hs
    rw [hc3, putInfo_height] at ha2
    rw [hc3, putInfo_width] at hb2
    by_cases hc : a = p.py ∧ b = p.px
    · obtain ⟨rfl, rfl⟩ := hc
      rw [hc3, putInfo_info_self]
    · rw [hc3, putInfo_info_ne _ _ _ _ _ _ hc] at hs ⊢
      exact h2 a b ha ha2 hb hb2 hs
  have h4 : ∀ (Q : Prop) (_ : Decidable Q), seenImpView (if Q then
      putInfo c3 p.py p.px { c3.info p.py p.px with seen := true } else c3) := by
    intro Q _
    split
    · intro a b ha ha2 hb hb2 hs
      rw [putInfo_height] at ha2
      rw [putInfo_width] at hb2
      by_cases hc : a = p.py ∧ b = p.px
      · obtain ⟨rfl, rfl⟩ := hc
        rw [putInfo_info_self]
        show ({ c3.info p.py p.px with seen := true }).view = true
        rw [hc3, putInfo_info_self]
      · rw [putInfo_info_ne _ _ _ _ _ _ hc] at hs ⊢
        exact h3 a b ha ha2 hb hb2 hs
    · exact h3
  have h4' := h4 ((if p.cur_light > 0 then p.cur_light + 1 else p.cur_light) > 0 ∨
      square_isglow c3 p.py p.px = true) inferInstance
  have h5 := foldCells_pres seenImpView _
    (fun c1 a b hc1 => update_view_one_pres F c1 a b
      (if p.cur_light > 0 then p.cur_light + 1 else p.cur_light) p.py p.px hc1) _ h4'
  have h6 := foldCells_pres seenImpView _
    (fun c1 a b hc1 => update_one_pres c1 a b p.blind hc1) _ h5
  exact h6 y x hy (by rw [hdh]; exact hy2) hx (by rw [hdw]; exact hx2) hseen

/-- Witness for `c1_update_view_seen_imp_view` on a concrete 1×1 grid with a
lit player standing on the single cell. -/
theorem c1_update_view_seen_imp_view_witness :
    (0:Int) ≤ 0 ∧ (0:Int) < (testChunk 1 1 []).height ∧
    (0:Int) ≤ 0 ∧ (0:Int) < (testChunk 1 1 []).width ∧
    square_isseen (update_view testF (testChunk 1 1 []) ⟨0, 0, 1, false⟩) 0 0 = true ∧
    square_isview (update_view testF (testChunk 1 1 []) ⟨0, 0, 1, false⟩) 0 0 = true :=
  ⟨by decide, by decide, by decide, by decide, by decide,
   c1_update_view_seen_imp_view testF (testChunk 1 1 []) ⟨0, 0, 1, false⟩ 0 0
     (by decide) (by decide) (by decide) (by decide) (by decide)⟩

/-! ### The full-scan SEEN rule for wall cells (claim C4) -/

/-- The unconditional one-step shift toward the player that `become_viewable`
recomputes for its glow check on wall cells (cave.c:1073-1074). -/
def plainShift (y x py px : Int) : Int × Int :=
  ((if y < py then y + 1 else if y > py then y - 1 else y),
   (if x < px then x + 1 else if x > px then x - 1 else x))

/-- The LOS reference cell of the full scan (cave.c:1100-1135): for wall
cells, one step toward the player, cancelled when the shifted cell is itself
a wall or when one of the two diagonal knight sub-cases matches; the cell
itself otherwise. -/
def viewRef (F : Nat → Feature) (c : Chunk) (y x py px : Int) : Int × Int :=
  if square_iswall F c y x then
    let dx := x - px
    let dy := y - py
    let ax := ABS dx
    let ay := ABS dy
    let sx : Int := if dx > 0 then 1 else -1
    let sy : Int := if dy > 0 then 1 else -1
    let xc := if x < px then x + 1 else if x > px then x - 1 else x
    let yc := if y < py then y + 1 else if y > py then y - 1 else y
    let yx := if square_iswall F c yc xc then (y, x) else (yc, xc)
    if ax = 2 ∧ ay = 1 ∧ ¬ square_iswall F c y (x - sx) = true ∧
        square_iswall F c (y - sy) (x - sx) = true then (y, x)
    else if ax = 1 ∧ ay = 2 ∧ ¬ square_iswall F c (y - sy) x = true ∧
        square_iswall F c (y - sy) (x - sx) = true then (y, x)
    else yx
  else (y, x)

/-- Modelled from the spec: the SEEN rule exactly as claim C4 states it —
lit by the torch radius, or the cell permanently glows and "that same
reference cell" (the exception-adjusted LOS reference) also permanently
glows. -/
def c4SpecSeen (F : Nat → Feature) (c : Chunk) (y x : Int) (lit : Bool) (py px : Int) :
    Bool :=
  lit || (square_isglow c y x &&
    square_isglow c (viewRef F c y x py px).1 (viewRef F c y x py px).2)

theorem update_view_one_eq_ref (F : Nat → Feature) (c : Chunk) (y x radius py px : Int) :
    update_view_one F c y x radius py px =
      if distance y x py px > MAX_SIGHT then c
      else if los F c py px (viewRef F c y x py px).1 (viewRef F c y x py px).2 then
        become_viewable F c y x (decide (distance y x py px < radius)) py px
      else c := rfl

theorem putInfo_isglow (c : Chunk) (y x : Int) (s : SqInfo)
    (hs : s.glow = (c.info y x).glow) (a b : Int) :
    square_isglow (putInfo c y x s) a b = square_isglow c a b := by
  unfold square_isglow putInfo
  by_cases hc : a = y ∧ b = x
  · obtain ⟨rfl, rfl⟩ := hc
    simp [hs]
  · simp [hc]

theorem become_viewable_char (F : Nat → Feature) (c : Chunk) (y x : Int) (lit : Bool)
    (py px : Int) (hview : square_isview c y x = false)
    (hseen : square_isseen c y x = false) (hwall : square_iswall F c y x = true) :
    square_isview (become_viewable F c y x lit py px) y x = true ∧
    square_isseen (become_viewable F c y x lit py px) y x =
      (lit || (square_isglow c y x &&
        square_isglow c (plainShift y x py px).1 (plainShift y x py px).2)) := by
  simp only [plainShift]
  unfold become_viewable
  rw [if_neg (by simp [hview])]
  simp only []
  set c1 := putInfo c y x { c.info y x with view := true } with hc1
  set c2 := (if lit = true then putInfo c1 y x { c1.info y x with seen := true } else c1)
    with hc2
  have hg1 : ∀ a b, square_isglow c1 a b = square_isglow c a b := fun a b =>
    putInfo_isglow c y x { c.info y x with view := true } rfl a b
  have hg2 : ∀ a b, square_isglow c2 a b = square_isglow c a b := by
    rw [hc2]
    split
    · exact fun a b =>
        (putInfo_isglow c1 y x { c1.info y x with seen := true } rfl a b).trans (hg1 a b)
    · exact hg1
  have hw2 : square_iswall F c2 y x = true := by
    rw [hc2, hc1]
    split <;> simpa [square_iswall, square_isprojectable, putInfo] using hwall
  have hv1 : (c1.info y x).view = true := by rw [hc1, putInfo_info_self]
  have hv2 : (c2.info y x).view = true := by
    rw [hc2]
    split
    · rw [putInfo_info_self]
      exact hv1
    · exact hv1
  have hs2 : (c2.info y x).seen = lit := by
    rw [hc2]
    by_cases hl : lit = true
    · rw [if_pos hl, putInfo_info_self, hl]
    · rw [if_neg hl, hc1, putInfo_info_self]
      show (c.info y x).seen = lit
      rw [show (c.info y x).seen = false from hseen]
      simp [Bool.not_eq_true] at hl
      rw [hl]
  simp only [hg2, hw2, if_true]
  by_cases hg : square_isglow c y x = true
  · rw [if_pos hg, hg]
    by_cases hgs : square_isglow c
        (if y < py then y + 1 else if y > py then y - 1 else y)
        (if x < px then x + 1 else if x > px then x - 1 else x) = true
    · rw [if_pos hgs, hgs]
      constructor
      · show ((putInfo c2 y x { c2.info y x with seen := true }).info y x).view = true
        rw [putInfo_info_self]
        exact hv2
      · show ((putInfo c2 y x { c2.info y x with seen := true }).info y x).seen = _
        rw [putInfo_info_self]
        simp
    · rw [if_neg hgs]
      rw [show square_isglow c
          (if y < py then y + 1 else if y > py then y - 1 else y)
          (if x < px then x + 1 else if x > px then x - 1 else x) = false by
        simpa using hgs]
      exact ⟨hv2, by rw [show square_isseen c2 y x = (c2.info y x).seen from rfl, hs2]; simp⟩
  · rw [if_neg hg, show square_isglow c y x = false by simpa using hg]
    exact ⟨hv2, by rw [show square_isseen c2 y x = (c2.info y x).seen from rfl, hs2]; simp⟩

/-- C4, corrected.  In the full scan, for a wall cell within max-sight whose
VIEW and SEEN flags are clear, when LOS from the player to the
exception-adjusted reference cell succeeds the cell is marked VIEW, and is
marked SEEN exactly when it is lit by the torch radius, or when the cell
permanently glows and the cell one PLAIN step toward the player also glows —
the glow check uses the unconditional shift of `become_viewable`, not the
exception-adjusted reference the claim describes. -/
theorem c4_full_scan_wall_seen (F : Nat → Feature) (c : Chunk) (y x radius py px : Int)
    (hwall : square_iswall F c y x = true)
    (hd : ¬ distance y x py px > MAX_SIGHT)
    (hview : square_isview c y x = false)
    (hseen : square_isseen c y x = false)
    (hlos : los F c py px (viewRef F c y x py px).1 (viewRef F c y x py px).2 = true) :
    square_isview (update_view_one F c y x radius py px) y x = true ∧
    square_isseen (update_view_one F c y x radius py px) y x =
      (decide (distance y x py px < radius) ||
        (square_isglow c y x &&
          square_isglow c (plainShift y x py px).1 (plainShift y x py px).2)) := by
  rw [update_view_one_eq_ref, if_neg hd, if_pos hlos]
  exact become_viewable_char F c y x _ py px hview hseen hwall

/-- A 2×4 grid with walls at (1,3) and (0,2) and permanent glow on the wall
(1,3); all other cells are plain glowless floor. -/
def c4Chunk : Chunk :=
  { height := 2, width := 4,
    feat := fun y x => if (y = 1 ∧ x = 3) ∨ (y = 0 ∧ x = 2) then 1 else 0,
    info := fun y x => if y = 1 ∧ x = 3 then { noFlags with glow := true } else noFlags,
    cost := fun _ _ => 0, whenv := fun _ _ => 0,
    feeling_squares := 0, mons := [], objMarked := fun _ _ => false }

set_option maxRecDepth 40000 in
/-- Counterexample to C4 as stated.  On `c4Chunk` with an unlit player at
(0,0), the wall cell (1,3) is within max-sight, its exception-adjusted
reference cell is (1,3) itself (the shifted cell (0,2) is a wall, so the
shift is cancelled), LOS from the player to that reference succeeds, and the
claim's SEEN rule predicts SEEN (the cell glows and the reference cell — the
cell itself — glows); yet `update_view` marks the cell VIEW but not SEEN,
because `become_viewable` checks the glow of the plain shifted cell (0,2),
not of the exception-adjusted reference. -/
theorem c4_wall_glow_counterexample :
    square_iswall testF c4Chunk 1 3 = true ∧
    distance 1 3 0 0 ≤ MAX_SIGHT ∧
    viewRef testF c4Chunk 1 3 0 0 = (1, 3) ∧
    los testF c4Chunk 0 0 (viewRef testF c4Chunk 1 3 0 0).1
      (viewRef testF c4Chunk 1 3 0 0).2 = true ∧
    c4SpecSeen testF c4Chunk 1 3 false 0 0 = true ∧
    square_isview (update_view testF c4Chunk ⟨0, 0, 0, false⟩) 1 3 = true ∧
    square_isseen (update_view testF c4Chunk ⟨0, 0, 0, false⟩) 1 3 = false := by
  decide

/-- Witness for `c4_full_scan_wall_seen` on the grid of the counterexample:
the hypotheses hold at cell (1,3) with an unlit player at (0,0), and the
scan step marks the cell VIEW with SEEN given by the plain-shift glow rule
(here: false). -/
theorem c4_full_scan_wall_seen_witness :
    (square_iswall testF c4Chunk 1 3 = true) ∧
    (¬ distance 1 3 0 0 > MAX_SIGHT) ∧
    (square_isview c4Chunk 1 3 = false) ∧
    (square_isseen c4Chunk 1 3 = false) ∧
    (los testF c4Chunk 0 0 (viewRef testF c4Chunk 1 3 0 0).1
      (viewRef testF c4Chunk 1 3 0 0).2 = true) ∧
    (square_isview (update_view_one testF c4Chunk 1 3 0 0 0) 1 3 = true ∧
      square_isseen (update_view_one testF c4Chunk 1 3 0 0 0) 1 3 =
        (decide (distance 1 3 0 0 < 0) ||
          (square_isglow c4Chunk 1 3 &&
            square_isglow c4Chunk (plainShift 1 3 0 0).1 (plainShift 1 3 0 0).2))) :=
  ⟨by decide, by decide, by decide, by decide, by decide,
   c4_full_scan_wall_seen testF c4Chunk 1 3 0 0 0 (by decide) (by decide) (by decide)
     (by decide) (by decide)⟩

/-! ### Room lighting: `light_room`, `cave_light`, `cave_unlight` (claim C5)

The point-set helpers (`point_set_new`, `add_to_point_set`,
`point_set_contains`, from `z-set.c`, not part of this repository's staged
sources) are modelled from the spec as a list of points with membership
testing and appending.  `update_stuff` (external) is modelled from the spec
as a call to `update_view`: both lighting routines request
`PU_UPDATE_VIEW` and flush it immediately. -/

/-- `cave_room_aux` (cave.c:703): add a cell to the collected set unless
already present or not flagged as part of a room. -/
def cave_room_aux (roomP : Int → Int → Bool) (ps : List (Int × Int)) (y x : Int) :
    List (Int × Int) :=
  if (y, x) ∈ ps then ps
  else if ¬ roomP y x then ps
  else ps ++ [(y, x)]

/-- The worklist loop of `light_room` (cave.c:728): process the collected
set by index, spreading to the eight neighbors of projectable cells.  The
chunk enters only through the two predicates; the fuel argument makes the
recursion structural (the C loop terminates because the set never holds a
point twice and the level is finite). -/
def roomFloodLoop (roomP projP : Int → Int → Bool) :
    Nat → Nat → List (Int × Int) → List (Int × Int)
  | 0, _, ps => ps
  | Nat.succ fuel, i, ps =>
    if h : i < ps.length then
      let p := ps.get ⟨i, h⟩
      let ps' :=
        if ¬ projP p.1 p.2 then ps
        else
          let ps := cave_room_aux roomP ps (p.1 + 1) p.2
          let ps := cave_room_aux roomP ps (p.1 - 1) p.2
          let ps := cave_room_aux roomP ps p.1 (p.2 + 1)
          let ps := cave_room_aux roomP ps p.1 (p.2 - 1)
          let ps := cave_room_aux roomP ps (p.1 + 1) (p.2 + 1)
          let ps := cave_room_aux roomP ps (p.1 - 1) (p.2 - 1)
          let ps := cave_room_aux roomP ps (p.1 - 1) (p.2 + 1)
          cave_room_aux roomP ps (p.1 + 1) (p.2 - 1)
      roomFloodLoop roomP projP fuel (i + 1) ps'
    else ps

/-- The set of cells `light_room` collects from an origin (cave.c:722-744). -/
def light_room_set (roomP projP : Int → Int → Bool) (fuel : Nat) (y1 x1 : Int) :
    List (Int × Int) :=
  roomFloodLoop roomP projP fuel 0 (cave_room_aux roomP [] y1 x1)

/-- The per-cell flag change of `cave_light` (cave.c:608-613): perma-light. -/
def cave_light_one (c : Chunk) (y x : Int) : Chunk :=
  putInfo c y x { c.info y x with glow := true }

/-- `cave_light` (cave.c:601): set GLOW on every collected cell, then flush
the requested visual update (`update_stuff`, modelled from the spec as
`update_view`).  The final per-grid loop only redraws and randomly wakes
monsters — it changes no grid flag, and the sleep-timer changes (driven by
`randint0`) are outside the model. -/
def cave_light (F : Nat → Feature) (c : Chunk) (p : PlayerS) (ps : List (Int × Int)) :
    Chunk :=
  let c := ps.foldl (fun c1 q => cave_light_one c1 q.1 q.2) c
  update_view F c p

/-- The per-cell flag change of `cave_unlight` (cave.c:670-682): darken, and
forget boring (non-interesting) cells. -/
def cave_unlight_one (F : Nat → Feature) (c : Chunk) (y x : Int) : Chunk :=
  let c := putInfo c y x { c.info y x with glow := false }
  if ¬ square_isinteresting F c y x = true then
    putInfo c y x { c.info y x with mark := false }
  else c

/-- `cave_unlight` (cave.c:664): clear GLOW on every collected cell, clear
MARK on the non-interesting ones, then flush the visual update
(`update_stuff`, modelled from the spec as `update_view`); the final loop
only redraws. -/
def cave_unlight (F : Nat → Feature) (c : Chunk) (p : PlayerS) (ps : List (Int × Int)) :
    Chunk :=
  let c := ps.foldl (fun c1 q => cave_unlight_one F c1 q.1 q.2) c
  update_view F c p

/-- `light_room` (cave.c:717): flood-collect the room containing the origin,
then light or darken the collected set at once. -/
def light_room (F : Nat → Feature) (c : Chunk) (p : PlayerS) (fuel : Nat)
    (y1 x1 : Int) (light : Bool) : Chunk :=
  let ps := light_room_set (fun a b => square_isroom c a b)
    (fun a b => square_isprojectable F c a b) fuel y1 x1
  if light then cave_light F c p ps else cave_unlight F c p ps

/-! Pointwise preservation of the GLOW, ROOM and MARK flags and of the
terrain map through the visibility pass: `update_view` writes only VIEW,
SEEN, WASSEEN, FEEL and (through `square_note_spot`, skipped when blind)
MARK. -/

theorem mark_wasseen_one_glow (c : Chunk) (y x a b : Int) :
    ((mark_wasseen_one c y x).info a b).glow = (c.info a b).glow := by
  unfold mark_wasseen_one
  by_cases hc : a = y ∧ b = x
  · obtain ⟨rfl, rfl⟩ := hc
    simp [apply_ite (fun ch : Chunk => (ch.info a b).glow), putInfo]
  · simp [apply_ite (fun ch : Chunk => (ch.info a b).glow), putInfo, hc]

theorem mark_wasseen_one_room (c : Chunk) (y x a b : Int) :
    ((mark_wasseen_one c y x).info a b).room = (c.info a b).room := by
  unfold mark_wasseen_one
  by_cases hc : a = y ∧ b = x
  · obtain ⟨rfl, rfl⟩ := hc
    simp [apply_ite (fun ch : Chunk => (ch.info a b).room), putInfo]
  · simp [apply_ite (fun ch : Chunk => (ch.info a b).room), putInfo, hc]

theorem mark_wasseen_one_mark (c : Chunk) (y x a b : Int) :
    ((mark_wasseen_one c y x).info a b).mark = (c.info a b).mark := by
  unfold mark_wasseen_one
  by_cases hc : a = y ∧ b = x
  · obtain ⟨rfl, rfl⟩ := hc
    simp [apply_ite (fun ch : Chunk => (ch.info a b).mark), putInfo]
  · simp [apply_ite (fun ch : Chunk => (ch.info a b).mark), putInfo, hc]

theorem mark_wasseen_glow (c : Chunk) (a b : Int) :
    ((mark_wasseen c).info a b).glow = (c.info a b).glow := by
  unfold mark_wasseen foldCells
  exact fold_proj (fun ch => (ch.info a b).glow) _
    (fun c1 (p : Int × Int) => mark_wasseen_one_glow c1 p.1 p.2 a b) _ c

theorem mark_wasseen_room (c : Chunk) (a b : Int) :
    ((mark_wasseen c).info a b).room = (c.info a b).room := by
  unfold mark_wasseen foldCells
  exact fold_proj (fun ch => (ch.info a b).room) _
    (fun c1 (p : Int × Int) => mark_wasseen_one_room c1 p.1 p.2 a b) _ c

theorem mark_wasseen_mark (c : Chunk) (a b : Int) :
    ((mark_wasseen c).info a b).mark = (c.info a b).mark := by
  unfold mark_wasseen foldCells
  exact fold_proj (fun ch => (ch.info a b).mark) _
    (fun c1 (p : Int × Int) => mark_wasseen_one_mark c1 p.1 p.2 a b) _ c

theorem monster_light_cell_glow (F : Nat → Feature) (c : Chunk) (fy fx : Int) (il : Bool)
    (sy sx a b : Int) :
    ((monster_light_cell F c fy fx il sy sx).info a b).glow = (c.info a b).glow := by
  unfold monster_light_cell
  by_cases hc : a = sy ∧ b = sx
  · obtain ⟨rfl, rfl⟩ := hc
    simp [apply_ite (fun ch : Chunk => (ch.info a b).glow), putInfo]
  · simp [apply_ite (fun ch : Chunk => (ch.info a b).glow), putInfo, hc]

theorem monster_light_cell_room (F : Nat → Feature) (c : Chunk) (fy fx : Int) (il : Bool)
    (sy sx a b : Int) :
    ((monster_light_cell F c fy fx il sy sx).info a b).room = (c.info a b).room := by
  unfold monster_light_cell
  by_cases hc : a = sy ∧ b = sx
  · obtain ⟨rfl, rfl⟩ := hc
    simp [apply_ite (fun ch : Chunk => (ch.info a b).room), putInfo]
  · simp [apply_ite (fun ch : Chunk => (ch.info a b).room), putInfo, hc]

theorem monster_light_cell_mark (F : Nat → Feature) (c : Chunk) (fy fx : Int) (il : Bool)
    (sy sx a b : Int) :
    ((monster_light_cell F c fy fx il sy sx).info a b).mark = (c.info a b).mark := by
  unfold monster_light_cell
  by_cases hc : a = sy ∧ b = sx
  · obtain ⟨rfl, rfl⟩ := hc
    simp [apply_ite (fun ch : Chunk => (ch.info a b).mark), putInfo]
  · simp [apply_ite (fun ch : Chunk => (ch.info a b).mark), putInfo, hc]

theorem monster_light_one_glow (F : Nat → Feature) (c : Chunk) (fy fx : Int) (m : Monster)
    (a b : Int) :
    ((monster_light_one F c fy fx m).info a b).glow = (c.info a b).glow := by
  unfold monster_light_one
  simp only [apply_ite (fun ch : Chunk => (ch.info a b).glow)]
  rw [fold_proj (fun ch => (ch.info a b).glow) _
    (fun c1 (ij : Int × Int) => monster_light_cell_glow F c1 fy fx _ _ _ a b) _ c]
  simp

theorem monster_light_one_room (F : Nat → Feature) (c : Chunk) (fy fx : Int) (m : Monster)
    (a b : Int) :
    ((monster_light_one F c fy fx m).info a b).room = (c.info a b).room := by
  unfold monster_light_one
  simp only [apply_ite (fun ch : Chunk => (ch.info a b).room)]
  rw [fold_proj (fun ch => (ch.info a b).room) _
    (fun c1 (ij : Int × Int) => monster_light_cell_room F c1 fy fx _ _ _ a b) _ c]
  simp

theorem monster_light_one_mark (F : Nat → Feature) (c : Chunk) (fy fx : Int) (m : Monster)
    (a b : Int) :
    ((monster_light_one F c fy fx m).info a b).mark = (c.info a b).mark := by
  unfold monster_light_one
  simp only [apply_ite (fun ch : Chunk => (ch.info a b).mark)]
  rw [fold_proj (fun ch => (ch.info a b).mark) _
    (fun c1 (ij : Int × Int) => monster_light_cell_mark F c1 fy fx _ _ _ a b) _ c]
  simp

theorem add_monster_lights_glow (F : Nat → Feature) (c : Chunk) (fy fx a b : Int) :
    ((add_monster_lights F c fy fx).info a b).glow = (c.info a b).glow := by
  unfold add_monster_lights
  exact fold_proj (fun ch => (ch.info a b).glow) _
    (fun c1 m => monster_light_one_glow F c1 fy fx m a b) _ c

theorem add_monster_lights_room (F : Nat → Feature) (c : Chunk) (fy fx a b : Int) :
    ((add_monster_lights F c fy fx).info a b).room = (c.info a b).room := by
  unfold add_monster_lights
  exact fold_proj (fun ch => (ch.info a b).room) _
    (fun c1 m => monster_light_one_room F c1 fy fx m a b) _ c

theorem add_monster_lights_mark (F : Nat → Feature) (c : Chunk) (fy fx a b : Int) :
    ((add_monster_lights F c fy fx).info a b).mark = (c.info a b).mark := by
  unfold add_monster_lights
  exact fold_proj (fun ch => (ch.info a b).mark) _
    (fun c1 m => monster_light_one_mark F c1 fy fx m a b) _ c

theorem become_viewable_glow (F : Nat → Feature) (c : Chunk) (y x : Int) (lit : Bool)
    (py px a b : Int) :
    ((become_viewable F c y x lit py px).info a b).glow = (c.info a b).glow := by
  unfold become_viewable
  by_cases hc : a = y ∧ b = x
  · obtain ⟨rfl, rfl⟩ := hc
    simp [apply_ite (fun ch : Chunk => (ch.info a b).glow), putInfo]
  · simp [apply_ite (fun ch : Chunk => (ch.info a b).glow), putInfo, hc]

theorem become_viewable_room (F : Nat → Feature) (c : Chunk) (y x : Int) (lit : Bool)
    (py px a b : Int) :
    ((become_viewable F c y x lit py px).info a b).room = (c.info a b).room := by
  unfold become_viewable
  by_cases hc : a = y ∧ b = x
  · obtain ⟨rfl, rfl⟩ := hc
    simp [apply_ite (fun ch : Chunk => (ch.info a b).room), putInfo]
  · simp [apply_ite (fun ch : Chunk => (ch.info a b).room), putInfo, hc]

theorem become_viewable_mark (F : Nat → Feature) (c : Chunk) (y x : Int) (lit : Bool)
    (py px a b : Int) :
    ((become_viewable F c y x lit py px).info a b).mark = (c.info a b).mark := by
  unfold become_viewable
  by_cases hc : a = y ∧ b = x
  · obtain ⟨rfl, rfl⟩ := hc
    simp [apply_ite (fun ch : Chunk => (ch.info a b).mark), putInfo]
  · simp [apply_ite (fun ch : Chunk => (ch.info a b).mark), putInfo, hc]

theorem update_view_one_glow (F : Nat → Feature) (c : Chunk) (y x r py px a b : Int) :
    ((update_view_one F c y x r py px).info a b).glow = (c.info a b).glow := by
  unfold update_view_one
  simp [apply_ite (fun ch : Chunk => (ch.info a b).glow), become_viewable_glow]

theorem update_view_one_room (F : Nat → Feature) (c : Chunk) (y x r py px a b : Int) :
    ((update_view_one F c y x r py px).info a b).room = (c.info a b).room := by
  unfold update_view_one
  simp [apply_ite (fun ch : Chunk => (ch.info a b).room), become_viewable_room]

theorem update_view_one_mark (F : Nat → Feature) (c : Chunk) (y x r py px a b : Int) :
    ((update_view_one F c y x r py px).info a b).mark = (c.info a b).mark := by
  unfold update_view_one
  simp [apply_ite (fun ch : Chunk => (ch.info a b).mark), become_viewable_mark]

theorem square_note_spot_glow (c : Chunk) (y x a b : Int) :
    ((square_note_spot c y x).info a b).glow = (c.info a b).glow := by
  unfold square_note_spot
  by_cases hc : a = y ∧ b = x
  · obtain ⟨rfl, rfl⟩ := hc
    simp [apply_ite (fun ch : Chunk => (ch.info a b).glow), putInfo]
  · simp [apply_ite (fun ch : Chunk => (ch.info a b).glow), putInfo, hc]

theorem square_note_spot_room (c : Chunk) (y x a b : Int) :
    ((square_note_spot c y x).info a b).room = (c.info a b).room := by
  unfold square_note_spot
  by_cases hc : a = y ∧ b = x
  · obtain ⟨rfl, rfl⟩ := hc
    simp [apply_ite (fun ch : Chunk => (ch.info a b).room), putInfo]
  · simp [apply_ite (fun ch : Chunk => (ch.info a b).room), putInfo, hc]

theorem update_one_glow (c : Chunk) (y x : Int) (blind : Bool) (a b : Int) :
    ((update_one c y x blind).info a b).glow = (c.info a b).glow := by
  unfold update_one square_light_spot
  by_cases hc : a = y ∧ b = x
  · obtain ⟨rfl, rfl⟩ := hc
    simp [apply_ite (fun ch : Chunk => (ch.info a b).glow), putInfo, square_note_spot_glow]
  · simp [apply_ite (fun ch : Chunk => (ch.info a b).glow), putInfo, square_note_spot_glow,
      hc]

theorem update_one_room (c : Chunk) (y x : Int) (blind : Bool) (a b : Int) :
    ((update_one c y x blind).info a b).room = (c.info a b).room := by
  unfold update_one square_light_spot
  by_cases hc : a = y ∧ b = x
  · obtain ⟨rfl, rfl⟩ := hc
    simp [apply_ite (fun ch : Chunk => (ch.info a b).room), putInfo, square_note_spot_room]
  · simp [apply_ite (fun ch : Chunk => (ch.info a b).room), putInfo, square_note_spot_room,
      hc]

theorem update_one_mark_blind (c : Chunk) (y x a b : Int) :
    ((update_one c y x true).info a b).mark = (c.info a b).mark := by
  unfold update_one square_note_spot square_light_spot
  by_cases hc : a = y ∧ b = x
  · obtain ⟨rfl, rfl⟩ := hc
    simp [apply_ite (fun ch : Chunk => (ch.info a b).mark), putInfo, square_isseen,
      square_wasseen, square_ismark, square_isfeel]
  · simp [apply_ite (fun ch : Chunk => (ch.info a b).mark), putInfo, square_isseen,
      square_wasseen, square_ismark, square_isfeel, hc]

theorem update_view_glow (F : Nat → Feature) (c : Chunk) (p : PlayerS) (a b : Int) :
    ((update_view F c p).info a b).glow = (c.info a b).glow := by
  unfold update_view foldCells
  rw [fold_proj (fun ch => (ch.info a b).glow) _
      (fun c1 (p1 : Int × Int) => update_one_glow c1 p1.1 p1.2 _ a b) _ _,
    fold_proj (fun ch => (ch.info a b).glow) _
      (fun c1 (p1 : Int × Int) => update_view_one_glow F c1 p1.1 p1.2 _ _ _ a b) _ _]
  by_cases hc : a = p.py ∧ b = p.px
  · obtain ⟨rfl, rfl⟩ := hc
    simp [apply_ite (fun ch : Chunk => (ch.info p.py p.px).glow), putInfo,
      add_monster_lights_glow, mark_wasseen_glow]
  · simp [apply_ite (fun ch : Chunk => (ch.info a b).glow), putInfo,
      add_monster_lights_glow, mark_wasseen_glow, hc]

theorem update_view_room (F : Nat → Feature) (c : Chunk) (p : PlayerS) (a b : Int) :
    ((update_view F c p).info a b).room = (c.info a b).room := by
  unfold update_view foldCells
  rw [fold_proj (fun ch => (ch.info a b).room) _
      (fun c1 (p1 : Int × Int) => update_one_room c1 p1.1 p1.2 _ a b) _ _,
    fold_proj (fun ch => (ch.info a b).room) _
      (fun c1 (p1 : Int × Int) => update_view_one_room F c1 p1.1 p1.2 _ _ _ a b) _ _]
  by_cases hc : a = p.py ∧ b = p.px
  · obtain ⟨rfl, rfl⟩ := hc
    simp [apply_ite (fun ch : Chunk => (ch.info p.py p.px).room), putInfo,
      add_monster_lights_room, mark_wasseen_room]
  · simp [apply_ite (fun ch : Chunk => (ch.info a b).room), putInfo,
      add_monster_lights_room, mark_wasseen_room, hc]

theorem update_view_mark (F : Nat → Feature) (c : Chunk) (p : PlayerS)
    (hb : p.blind = true) (a b : Int) :
    ((update_view F c p).info a b).mark = (c.info a b).mark := by
  unfold update_view foldCells
  rw [hb]
  rw [fold_proj (fun ch => (ch.info a b).mark) _
      (fun c1 (p1 : Int × Int) => update_one_mark_blind c1 p1.1 p1.2 a b) _ _,
    fold_proj (fun ch => (ch.info a b).mark) _
      (fun c1 (p1 : Int × Int) => update_view_one_mark F c1 p1.1 p1.2 _ _ _ a b) _ _]
  by_cases hc : a = p.py ∧ b = p.px
  · obtain ⟨rfl, rfl⟩ := hc
    simp [apply_ite (fun ch : Chunk => (ch.info p.py p.px).mark), putInfo,
      add_monster_lights_mark, mark_wasseen_mark]
  · simp [apply_ite (fun ch : Chunk => (ch.info a b).mark), putInfo,
      add_monster_lights_mark, mark_wasseen_mark, hc]

/-! The visibility pass never writes the terrain map. -/

theorem mark_wasseen_one_feat (c : Chunk) (y x : Int) :
    (mark_wasseen_one c y x).feat = c.feat := by
  unfold mark_wasseen_one
  simp [apply_ite (fun ch : Chunk => ch.feat), putInfo]

theorem mark_wasseen_feat (c : Chunk) : (mark_wasseen c).feat = c.feat := by
  unfold mark_wasseen foldCells
  exact fold_proj (fun ch => ch.feat) _
    (fun c1 (p : Int × Int) => mark_wasseen_one_feat c1 p.1 p.2) _ c

theorem monster_light_cell_feat (F : Nat → Feature) (c : Chunk) (fy fx : Int) (il : Bool)
    (sy sx : Int) : (monster_light_cell F c fy fx il sy sx).feat = c.feat := by
  unfold monster_light_cell
  simp [apply_ite (fun ch : Chunk => ch.feat), putInfo]

theorem monster_light_one_feat (F : Nat → Feature) (c : Chunk) (fy fx : Int) (m : Monster) :
    (monster_light_one F c fy fx m).feat = c.feat := by
  unfold monster_light_one
  simp only [apply_ite (fun ch : Chunk => ch.feat)]
  rw [fold_proj (fun ch => ch.feat) _
    (fun c1 (ij : Int × Int) => monster_light_cell_feat F c1 fy fx _ _ _) _ c]
  simp

theorem add_monster_lights_feat (F : Nat → Feature) (c : Chunk) (fy fx : Int) :
    (add_monster_lights F c fy fx).feat = c.feat := by
  unfold add_monster_lights
  exact fold_proj (fun ch => ch.feat) _
    (fun c1 m => monster_light_one_feat F c1 fy fx m) _ c

theorem become_viewable_feat (F : Nat → Feature) (c : Chunk) (y x : Int) (lit : Bool)
    (py px : Int) : (become_viewable F c y x lit py px).feat = c.feat := by
  unfold become_viewable
  simp [apply_ite (fun ch : Chunk => ch.feat), putInfo]

theorem update_view_one_feat (F : Nat → Feature) (c : Chunk) (y x r py px : Int) :
    (update_view_one F c y x r py px).feat = c.feat := by
  unfold update_view_one
  simp [apply_ite (fun ch : Chunk => ch.feat), become_viewable_feat]

theorem square_note_spot_feat (c : Chunk) (y x : Int) :
    (square_note_spot c y x).feat = c.feat := by
  unfold square_note_spot
  simp [apply_ite (fun ch : Chunk => ch.feat), putInfo]

theorem update_one_feat (c : Chunk) (y x : Int) (blind : Bool) :
    (update_one c y x blind).feat = c.feat := by
  unfold update_one square_light_spot
  simp [apply_ite (fun ch : Chunk => ch.feat), putInfo, square_note_spot_feat]

theorem update_view_feat (F : Nat → Feature) (c : Chunk) (p : PlayerS) :
    (update_view F c p).feat = c.feat := by
  unfold update_view foldCells
  rw [fold_proj (fun ch => ch.feat) _
      (fun c1 (p1 : Int × Int) => update_one_feat c1 p1.1 p1.2 _) _ _,
    fold_proj (fun ch => ch.feat) _
      (fun c1 (p1 : Int × Int) => update_view_one_feat F c1 p1.1 p1.2 _ _ _) _ _]
  simp [apply_ite (fun ch : Chunk => ch.feat), putInfo, add_monster_lights_feat,
    mark_wasseen_feat]

/-! Per-cell behavior of the two lighting folds. -/

theorem cave_light_one_feat (c : Chunk) (y x : Int) :
    (cave_light_one c y x).feat = c.feat := rfl

theorem cave_light_one_room (c : Chunk) (y x a b : Int) :
    ((cave_light_one c y x).info a b).room = (c.info a b).room := by
  unfold cave_light_one
  by_cases hc : a = y ∧ b = x
  · obtain ⟨rfl, rfl⟩ := hc
    simp [putInfo]
  · simp [putInfo, hc]

theorem cave_light_ps_feat (c : Chunk) (ps : List (Int × Int)) :
    (ps.foldl (fun c1 q => cave_light_one c1 q.1 q.2) c).feat = c.feat :=
  fold_proj (fun ch => ch.feat) _
    (fun c1 (q : Int × Int) => cave_light_one_feat c1 q.1 q.2) ps c

theorem cave_light_ps_room (c : Chunk) (ps : List (Int × Int)) (a b : Int) :
    ((ps.foldl (fun c1 q => cave_light_one c1 q.1 q.2) c).info a b).room =
      (c.info a b).room :=
  fold_proj (fun ch => (ch.info a b).room) _
    (fun c1 (q : Int × Int) => cave_light_one_room c1 q.1 q.2 a b) ps c

theorem cave_unlight_one_feat (F : Nat → Feature) (c : Chunk) (y x : Int) :
    (cave_unlight_one F c y x).feat = c.feat := by
  unfold cave_unlight_one
  simp [apply_ite (fun ch : Chunk => ch.feat), putInfo]

theorem cave_unlight_one_interesting (F : Nat → Feature) (c : Chunk) (y x a b : Int) :
    square_isinteresting F (cave_unlight_one F c y x) a b =
      square_isinteresting F c a b := by
  unfold square_isinteresting
  rw [cave_unlight_one_feat]

theorem cave_unlight_one_glow_self (F : Nat → Feature) (c : Chunk) (y x : Int) :
    ((cave_unlight_one F c y x).info y x).glow = false := by
  unfold cave_unlight_one
  simp [apply_ite (fun ch : Chunk => (ch.info y x).glow), putInfo]

theorem cave_unlight_one_glow_mono (F : Nat → Feature) (c : Chunk) (y x a b : Int)
    (h : (c.info a b).glow = false) :
    ((cave_unlight_one F c y x).info a b).glow = false := by
  unfold cave_unlight_one
  by_cases hc : a = y ∧ b = x
  · obtain ⟨rfl, rfl⟩ := hc
    simp [apply_ite (fun ch : Chunk => (ch.info a b).glow), putInfo]
  · simp [apply_ite (fun ch : Chunk => (ch.info a b).glow), putInfo, hc, h]

theorem cave_unlight_one_mark_self (F : Nat → Feature) (c : Chunk) (y x : Int)
    (hint : square_isinteresting F c y x = false) :
    ((cave_unlight_one F c y x).info y x).mark = false := by
  unfold cave_unlight_one
  have h1 : ¬ square_isinteresting F (putInfo c y x { c.info y x with glow := false })
      y x = true := by
    unfold square_isinteresting putInfo
    simp only []
    unfold square_isinteresting at hint
    simp [hint]
  rw [if_pos h1, putInfo_info_self]

theorem cave_unlight_one_mark_mono (F : Nat → Feature) (c : Chunk) (y x a b : Int)
    (h : (c.info a b).mark = false) :
    ((cave_unlight_one F c y x).info a b).mark = false := by
  unfold cave_unlight_one
  by_cases hc : a = y ∧ b = x
  · obtain ⟨rfl, rfl⟩ := hc
    simp [apply_ite (fun ch : Chunk => (ch.info a b).mark), putInfo, h]
  · simp [apply_ite (fun ch : Chunk => (ch.info a b).mark), putInfo, hc, h]

theorem cave_unlight_ps_feat (F : Nat → Feature) (c : Chunk) (ps : List (Int × Int)) :
    (ps.foldl (fun c1 q => cave_unlight_one F c1 q.1 q.2) c).feat = c.feat :=
  fold_proj (fun ch => ch.feat) _
    (fun c1 (q : Int × Int) => cave_unlight_one_feat F c1 q.1 q.2) ps c

/-- A fold establishes a per-element property at every element of its list,
provided each step establishes it at its own element and every step
preserves it. -/
theorem fold_mem_establish {α : Type _} (P : Chunk → α → Prop) (f : Chunk → α → Chunk)
    (hset : ∀ c q, P (f c q) q)
    (hpres : ∀ c q q', P c q → P (f c q') q) :
    ∀ (l : List α) (c : Chunk) (q : α), q ∈ l → P (l.foldl f c) q := by
  intro l
  induction l with
  | nil =>
    intro c q hq
    cases hq
  | cons a t ih =>
    intro c q hq
    rcases List.mem_cons.mp hq with rfl | hq'
    · exact fold_pres (fun ch => P ch q) f (fun c1 b hc => hpres c1 q b hc) t (f c q)
        (hset c q)
    · exact ih (f c a) q hq'

theorem cave_unlight_ps_glow (F : Nat → Feature) (c : Chunk) (ps : List (Int × Int)) :
    ∀ q ∈ ps, ((ps.foldl (fun c1 q => cave_unlight_one F c1 q.1 q.2) c).info
      q.1 q.2).glow = false := by
  intro q hq
  exact fold_mem_establish (fun ch q => (ch.info q.1 q.2).glow = false) _
    (fun c1 q1 => cave_unlight_one_glow_self F c1 q1.1 q1.2)
    (fun c1 q1 q2 h => cave_unlight_one_glow_mono F c1 q2.1 q2.2 q1.1 q1.2 h)
    ps c q hq

theorem cave_unlight_ps_mark (F : Nat → Feature) (c : Chunk) (ps : List (Int × Int)) :
    ∀ q ∈ ps, square_isinteresting F c q.1 q.2 = false →
      ((ps.foldl (fun c1 q => cave_unlight_one F c1 q.1 q.2) c).info
        q.1 q.2).mark = false := by
  intro q hq hint
  have h := fold_mem_establish
    (fun ch q => square_isinteresting F ch q.1 q.2 = false →
      (ch.info q.1 q.2).mark = false) _
    (fun c1 q1 hint1 => by
      rw [cave_unlight_one_interesting] at hint1
      exact cave_unlight_one_mark_self F c1 q1.1 q1.2 hint1)
    (fun c1 q1 q2 hP hint1 => by
      rw [cave_unlight_one_interesting] at hint1
      exact cave_unlight_one_mark_mono F c1 q2.1 q2.2 q1.1 q1.2 (hP hint1))
    ps c q hq
  apply h
  unfold square_isinteresting
  rw [cave_unlight_ps_feat]
  exact hint

/-! Room membership, projectability and interestingness are invariant under
`light_room(..., true)`: its two phases write only GLOW and the visibility
flags. -/

theorem light_room_true_room (F : Nat → Feature) (c : Chunk) (p : PlayerS) (fuel : Nat)
    (y1 x1 a b : Int) :
    square_isroom (light_room F c p fuel y1 x1 true) a b = square_isroom c a b := by
  unfold light_room cave_light
  rw [if_pos rfl]
  unfold square_isroom
  rw [update_view_room]
  exact cave_light_ps_room c _ a b

theorem light_room_true_proj (F : Nat → Feature) (c : Chunk) (p : PlayerS) (fuel : Nat)
    (y1 x1 a b : Int) :
    square_isprojectable F (light_room F c p fuel y1 x1 true) a b =
      square_isprojectable F c a b := by
  unfold light_room cave_light
  rw [if_pos rfl]
  unfold square_isprojectable
  rw [update_view_feat, cave_light_ps_feat]

theorem light_room_true_interesting (F : Nat → Feature) (c : Chunk) (p : PlayerS)
    (fuel : Nat) (y1 x1 a b : Int) :
    square_isinteresting F (light_room F c p fuel y1 x1 true) a b =
      square_isinteresting F c a b := by
  unfold light_room cave_light
  rw [if_pos rfl]
  unfold square_isinteresting
  rw [update_view_feat, cave_light_ps_feat]

/-- C5, corrected.  After `light_room(o, true)` then `light_room(o, false)`
(the second flood collects the same set: room membership and projectability
are untouched by lighting), every collected cell ends with GLOW false —
whether or not it was lit before — and every collected non-interesting cell
ends with MARK false: the mark is restored only when it was clear before;
a previously memorized (MARK set) boring cell comes out forgotten.  The
blind hypothesis keeps the visual update flushed by `cave_unlight` from
re-memorizing cells the player currently sees. -/
theorem c5_light_room_round_trip (F : Nat → Feature) (c : Chunk) (p : PlayerS)
    (fuel : Nat) (y1 x1 : Int) (hb : p.blind = true) :
    ∀ q ∈ light_room_set (fun a b => square_isroom c a b)
        (fun a b => square_isprojectable F c a b) fuel y1 x1,
      square_isglow (light_room F (light_room F c p fuel y1 x1 true) p fuel y1 x1 false)
          q.1 q.2 = false ∧
      (square_isinteresting F c q.1 q.2 = false →
        square_ismark (light_room F (light_room F c p fuel y1 x1 true) p fuel y1 x1 false)
            q.1 q.2 = false) := by
  intro q hq
  set c1 := light_room F c p fuel y1 x1 true with hc1
  have hroomf : (fun a b => square_isroom c1 a b) = (fun a b => square_isroom c a b) := by
    funext a b
    rw [hc1]
    exact light_room_true_room F c p fuel y1 x1 a b
  have hprojf : (fun a b => square_isprojectable F c1 a b) =
      (fun a b => square_isprojectable F c a b) := by
    funext a b
    rw [hc1]
    exact light_room_true_proj F c p fuel y1 x1 a b
  have hint1 : ∀ a b, square_isinteresting F c1 a b = square_isinteresting F c a b := by
    intro a b
    rw [hc1]
    exact light_room_true_interesting F c p fuel y1 x1 a b
  show square_isglow (light_room F c1 p fuel y1 x1 false) q.1 q.2 = false ∧ _
  unfold light_room
  simp only []
  rw [hroomf, hprojf, if_neg (by simp)]
  unfold cave_unlight
  simp only []
  constructor
  · unfold square_isglow
    rw [update_view_glow]
    exact cave_unlight_ps_glow F c1 _ q hq
  · intro hint
    unfold square_ismark
    rw [update_view_mark F _ p hb]
    refine cave_unlight_ps_mark F c1 _ q hq ?_
    rw [hint1]
    exact hint

/-- A 1×1 grid whose single cell is room-flagged floor, already memorized
(MARK set) and unlit. -/
def c5Chunk : Chunk :=
  { height := 1, width := 1,
    feat := fun _ _ => 0,
    info := fun y x => if y = 0 ∧ x = 0 then { noFlags with room := true, mark := true }
      else noFlags,
    cost := fun _ _ => 0, whenv := fun _ _ => 0,
    feeling_squares := 0, mons := [], objMarked := fun _ _ => false }

/-- Counterexample to C5 as stated: on `c5Chunk` the cell (0,0) is collected
by the room flood, is non-interesting, was unlit, and had MARK set before
the round trip; after `light_room((0,0), true)` then `light_room((0,0),
false)` its MARK flag is false, not its prior value true — `cave_unlight`
unconditionally forgets boring cells, it does not restore their prior
memorization.  (The glow half of the claim holds: GLOW ends false.) -/
theorem c5_mark_not_restored_counterexample :
    ((0:Int), (0:Int)) ∈ light_room_set (fun a b => square_isroom c5Chunk a b)
        (fun a b => square_isprojectable testF c5Chunk a b) 2 0 0 ∧
    square_isinteresting testF c5Chunk 0 0 = false ∧
    square_isglow c5Chunk 0 0 = false ∧
    square_ismark c5Chunk 0 0 = true ∧
    square_isglow (light_room testF (light_room testF c5Chunk ⟨0, 0, 0, false⟩ 2 0 0 true)
      ⟨0, 0, 0, false⟩ 2 0 0 false) 0 0 = false ∧
    square_ismark (light_room testF (light_room testF c5Chunk ⟨0, 0, 0, false⟩ 2 0 0 true)
      ⟨0, 0, 0, false⟩ 2 0 0 false) 0 0 = false := by
  decide

/-- Witness for `c5_light_room_round_trip` on `c5Chunk` with a blind player:
the collected cell (0,0) ends with GLOW false, and, being non-interesting,
with MARK false. -/
theorem c5_light_room_round_trip_witness :
    ((⟨0, 0, 0, true⟩ : PlayerS).blind = true) ∧
    (((0:Int), (0:Int)) ∈ light_room_set (fun a b => square_isroom c5Chunk a b)
        (fun a b => square_isprojectable testF c5Chunk a b) 2 0 0) ∧
    (square_isinteresting testF c5Chunk 0 0 = false) ∧
    (square_isglow (light_room testF (light_room testF c5Chunk ⟨0, 0, 0, true⟩ 2 0 0 true)
        ⟨0, 0, 0, true⟩ 2 0 0 false) 0 0 = false ∧
      square_ismark (light_room testF (light_room testF c5Chunk ⟨0, 0, 0, true⟩ 2 0 0 true)
        ⟨0, 0, 0, true⟩ 2 0 0 false) 0 0 = false) := by
  refine ⟨rfl, by decide, by decide, ?_⟩
  have h := c5_light_room_round_trip testF c5Chunk ⟨0, 0, 0, true⟩ 2 0 0 rfl
    ((0:Int), (0:Int)) (by decide)
  exact ⟨h.1, h.2 (by decide)⟩

/-! ### Monster pursuit flow: `cave_update_flow` (claims C2, C8, C9)

`MONSTER_FLOW_DEPTH` (a config constant from outside this repository's
staged sources) is kept as the parameter `DEPTH`.  The direction tables
`ddy_ddd`/`ddx_ddd` (`z-virt`/`defines`, also external) are modelled from
the spec: the four orthogonal then the four diagonal one-step offsets.
The `byte` grids (`cost`, `when`) and the `byte` queue arrays take their
values modulo 256 at every store. -/

/-- Size of the circular queue used by `cave_update_flow` (cave.c:1202). -/
def FLOW_MAX : Nat := 2048

/-- Modelled from the spec: the row offsets of the eight one-step
directions, orthogonals first. -/
def ddy_ddd : List Int := [1, -1, 0, 0, 1, 1, -1, -1]

/-- Modelled from the spec: the column offsets matching `ddy_ddd`. -/
def ddx_ddd : List Int := [0, 0, 1, -1, 1, -1, 1, -1]

/-- Point update of the flow timestamp grid (a byte store). -/
def putWhen (c : Chunk) (y x : Int) (v : Nat) : Chunk :=
  { c with whenv := fun a b => if a = y ∧ b = x then v % 256 else c.whenv a b }

/-- Point update of the flow cost grid (a byte store). -/
def putCost (c : Chunk) (y x : Int) (v : Nat) : Chunk :=
  { c with cost := fun a b => if a = y ∧ b = x then v % 256 else c.cost a b }

/-- The local state of one `cave_update_flow` call: the grid plus the
circular queue (`flow_y`, `flow_x`, byte-valued) and its consumer/producer
indices. -/
structure FlowState where
  c : Chunk
  qy : Nat → Nat
  qx : Nat → Nat
  head : Nat
  tail : Nat

/-- One child of the dequeued cell (cave.c:1341-1369): bounds check, the
pre-stamped check, the `TF_NO_FLOW` check, then stamp, store the cost and
enqueue — advancing the producer with wraparound, and on overflow
(producer catching the consumer) forgetting the new entry by resetting the
producer to its value before this child. -/
def flow_child (F : Nat → Feature) (flow_n n : Nat) (s : FlowState) (y x : Int) :
    FlowState :=
  let old_head := s.tail
  if ¬ square_in_bounds s.c y x = true then s
  else if s.c.whenv y x = flow_n then s
  else if (F (s.c.feat y x)).no_flow then s
  else
    let c := putWhen s.c y x flow_n
    let c := putCost c y x n
    let qy := fun i => if i = s.tail then y.toNat % 256 else s.qy i
    let qx := fun i => if i = s.tail then x.toNat % 256 else s.qx i
    let tail := s.tail + 1
    let tail := if tail = FLOW_MAX then 0 else tail
    let tail := if tail = s.head then old_head else tail
    { c := c, qy := qy, qx := qx, head := s.head, tail := tail }

/-- The eight-children loop of one dequeued cell (cave.c:1339-1370). -/
def flow_children (F : Nat → Feature) (flow_n n : Nat) (ty tx : Int) (s : FlowState) :
    FlowState :=
  (ddy_ddd.zip ddx_ddd).foldl
    (fun s1 dd => flow_child F flow_n n s1 (ty + dd.1) (tx + dd.2)) s

/-- The queue-processing loop of `cave_update_flow` (cave.c:1321-1371):
dequeue (advancing the consumer with wraparound), cut at the flow depth,
else add the children.  The fuel only makes the recursion structural: a
cell is stamped at most once per call and only stamped cells are enqueued,
so the loop dequeues at most `1 + height * width` entries; the wrapper
passes fuel exceeding that bound. -/
def flow_loop (F : Nat → Feature) (DEPTH flow_n : Nat) : Nat → FlowState → FlowState
  | 0, s => s
  | Nat.succ fuel, s =>
    if s.head ≠ s.tail then
      let ty : Int := s.qy s.head
      let tx : Int := s.qx s.head
      let head := s.head + 1
      let head := if head = FLOW_MAX then 0 else head
      let s1 : FlowState := { s with head := head }
      let n := s.c.cost ty tx + 1
      if n = DEPTH then flow_loop F DEPTH flow_n fuel s1
      else flow_loop F DEPTH flow_n fuel (flow_children F flow_n n ty tx s1)
    else s

/-- The timestamp rebase of `cave_update_flow` (cave.c:1285-1297): halve
every existing stamp toward zero. -/
def flow_rebase (c : Chunk) : Chunk :=
  foldCells c fun c1 y x =>
    putWhen c1 y x (if c1.whenv y x ≥ 128 then c1.whenv y x - 128 else 0)

/-- `cave_update_flow` (cave.c:1262), with the static generation counter
`flow_save` passed in and returned: cycle the generation (post-increment,
rebasing and restarting at 128 when it leaves 255), stamp and enqueue the
player grid, then process the queue. -/
def cave_update_flow (F : Nat → Feature) (DEPTH : Nat) (c : Chunk) (py px : Int)
    (flow_save : Nat) : Chunk × Nat :=
  let cs : Chunk × Nat :=
    if flow_save = 255 then (flow_rebase c, 128) else (c, flow_save + 1)
  let c := cs.1
  let flow_n := cs.2
  let c := putWhen c py px flow_n
  let c := putCost c py px 0
  let s : FlowState :=
    { c := c, qy := fun i => if i = 0 then py.toNat % 256 else 0,
      qx := fun i => if i = 0 then px.toNat % 256 else 0, head := 0, tail := 1 }
  let s := flow_loop F DEPTH flow_n (c.height.toNat * c.width.toNat + 2) s
  (s.c, cs.2)

/-- A fold preserves an invariant of any state type (the `FlowState`
sibling of `fold_pres`). -/
theorem foldl_inv {σ α : Type _} (P : σ → Prop) (f : σ → α → σ)
    (h : ∀ s a, P s → P (f s a)) : ∀ (l : List α) (s : σ), P s → P (l.foldl f s) := by
  intro l
  induction l with
  | nil => intro s hs; exact hs
  | cons a t ih => intro s hs; exact ih (f s a) (h s a hs)

theorem flow_child_full_pres (F : Nat → Feature) (flow_n n : Nat) (s0 : FlowState)
    (hfull : (if s0.tail + 1 = FLOW_MAX then 0 else s0.tail + 1) = s0.head)
    (s : FlowState) (y x : Int)
    (h1 : s.head = s0.head) (h2 : s.tail = s0.tail)
    (h3 : ∀ i, i ≠ s0.tail → s.qy i = s0.qy i ∧ s.qx i = s0.qx i) :
    (flow_child F flow_n n s y x).head = s0.head ∧
    (flow_child F flow_n n s y x).tail = s0.tail ∧
    (∀ i, i ≠ s0.tail → (flow_child F flow_n n s y x).qy i = s0.qy i ∧
      (flow_child F flow_n n s y x).qx i = s0.qx i) := by
  unfold flow_child
  simp only []
  split
  · exact ⟨h1, h2, h3⟩
  · split
    · exact ⟨h1, h2, h3⟩
    · split
      · exact ⟨h1, h2, h3⟩
      · refine ⟨h1, ?_, ?_⟩
        · show (if (if s.tail + 1 = FLOW_MAX then 0 else s.tail + 1) = s.head then s.tail
            else if s.tail + 1 = FLOW_MAX then 0 else s.tail + 1) = s0.tail
          rw [h2, h1, hfull, if_pos rfl]
        · intro i hi
          show (if i = s.tail then y.toNat % 256 else s.qy i) = s0.qy i ∧
            (if i = s.tail then x.toNat % 256 else s.qx i) = s0.qx i
          rw [h2]
          rw [if_neg hi, if_neg hi]
          exact h3 i hi

/-- C8: when the circular queue is full as the children of a dequeued cell
are generated (advancing the producer index would land it on the consumer
index), the whole batch of children is dropped — each accepted child's
enqueue is undone by resetting the producer — leaving the consumer index,
the producer index and every queue slot other than the (unused) slot at the
producer exactly as they were: the buffer is not corrupted and nothing
fails, the propagation for this call is merely truncated. -/
theorem c8_flow_overflow_drops_batch (F : Nat → Feature) (flow_n n : Nat) (ty tx : Int)
    (s : FlowState)
    (hfull : (if s.tail + 1 = FLOW_MAX then 0 else s.tail + 1) = s.head) :
    (flow_children F flow_n n ty tx s).head = s.head ∧
    (flow_children F flow_n n ty tx s).tail = s.tail ∧
    ∀ i, i ≠ s.tail → (flow_children F flow_n n ty tx s).qy i = s.qy i ∧
      (flow_children F flow_n n ty tx s).qx i = s.qx i := by
  unfold flow_children
  exact foldl_inv (fun s1 : FlowState => s1.head = s.head ∧ s1.tail = s.tail ∧
      ∀ i, i ≠ s.tail → s1.qy i = s.qy i ∧ s1.qx i = s.qx i)
    (fun s1 dd => flow_child F flow_n n s1 (ty + dd.1) (tx + dd.2))
    (fun s1 (dd : Int × Int) hs1 =>
      flow_child_full_pres F flow_n n s hfull s1 (ty + dd.1) (tx + dd.2)
        hs1.1 hs1.2.1 hs1.2.2)
    (ddy_ddd.zip ddx_ddd) s ⟨rfl, rfl, fun i _ => ⟨rfl, rfl⟩⟩

/-- A concrete full-queue flow state on an open 3×3 grid: the producer
index is one slot (with wraparound) behind the consumer index. -/
def c8State : FlowState :=
  { c := testChunk 3 3 [], qy := fun _ => 0, qx := fun _ => 0, head := 5, tail := 4 }

/-- Witness for `c8_flow_overflow_drops_batch`: expanding the cell (0,0) on
the full queue of `c8State` (its three in-bounds children are all accepted
and then dropped) leaves the consumer, the producer and — sampled at slot
7 — the other queue slots unchanged. -/
theorem c8_flow_overflow_drops_batch_witness :
    ((if c8State.tail + 1 = FLOW_MAX then 0 else c8State.tail + 1) = c8State.head) ∧
    (flow_children testF 1 1 0 0 c8State).head = c8State.head ∧
    (flow_children testF 1 1 0 0 c8State).tail = c8State.tail ∧
    ((flow_children testF 1 1 0 0 c8State).qy 7 = c8State.qy 7 ∧
      (flow_children testF 1 1 0 0 c8State).qx 7 = c8State.qx 7) :=
  ⟨by decide,
   (c8_flow_overflow_drops_batch testF 1 1 0 0 c8State (by decide)).1,
   (c8_flow_overflow_drops_batch testF 1 1 0 0 c8State (by decide)).2.1,
   (c8_flow_overflow_drops_batch testF 1 1 0 0 c8State (by decide)).2.2 7 (by decide)⟩

/-- A fully open (all-floor, no-flow-free) rectangular room. -/
def openChunk (h w : Int) : Chunk :=
  { height := h, width := w, feat := fun _ _ => 0,
    info := fun _ _ => noFlags,
    cost := fun _ _ => 0, whenv := fun _ _ => 0,
    feeling_squares := 0, mons := [], objMarked := fun _ _ => false }

/-- Counterexample to C2 as stated: in the open 3×3 room with the player at
(0,0), a fresh flow (generation 0, depth 32 — every cell is well within the
depth) stores cost 2 at the opposite corner (2,2), while the octagonal
distance max+min/2 from the player is 3: the flow search charges diagonal
steps 1, so it computes the Chebyshev distance, not the octagonal one. -/
theorem c2_octagonal_counterexample :
    ((List.range 3).all fun y => (List.range 3).all fun x =>
      !(testF ((openChunk 3 3).feat (Int.ofNat y) (Int.ofNat x))).no_flow) = true ∧
    (cave_update_flow testF 32 (openChunk 3 3) 0 0 0).1.whenv 2 2 =
      (cave_update_flow testF 32 (openChunk 3 3) 0 0 0).2 ∧
    (cave_update_flow testF 32 (openChunk 3 3) 0 0 0).1.cost 2 2 = 2 ∧
    distance 0 0 2 2 = 3 := by
  decide

/-! ### Flow-queue window arithmetic and single-call invariants (claim C9) -/

/-- Index `i` lies in the active region of the circular queue, from the
consumer `head` (inclusive) to the producer `tail` (exclusive). -/
def inWindow (head tail i : Nat) : Prop :=
  if head ≤ tail then head ≤ i ∧ i < tail
  else (head ≤ i ∧ i < FLOW_MAX) ∨ i < tail

theorem inWindow_head (head tail : Nat) (hne : head ≠ tail) (hh : head < FLOW_MAX)
    (ht : tail < FLOW_MAX) : inWindow head tail head := by
  simp only [inWindow, FLOW_MAX] at *
  split_ifs <;> omega

theorem inWindow_dequeue (head tail i : Nat) (hne : head ≠ tail)
    (hh : head < FLOW_MAX) (ht : tail < FLOW_MAX)
    (h : inWindow (if head + 1 = FLOW_MAX then 0 else head + 1) tail i) :
    inWindow head tail i := by
  simp only [inWindow, FLOW_MAX] at *
  split_ifs at * <;> omega

theorem inWindow_not_tail (head tail : Nat) (hh : head < FLOW_MAX) (ht : tail < FLOW_MAX) :
    ¬ inWindow head tail tail := by
  simp only [inWindow, FLOW_MAX] at *
  split_ifs <;> omega

theorem inWindow_enqueue (head tail i : Nat) (hh : head < FLOW_MAX) (ht : tail < FLOW_MAX)
    (h : inWindow head (if tail + 1 = FLOW_MAX then 0 else tail + 1) i) :
    inWindow head tail i ∨ i = tail := by
  simp only [inWindow, FLOW_MAX] at *
  split_ifs at * <;> omega

/-- `fold_frame` for the flow timestamp grid. -/
theorem fold_frame_when (f : Chunk → Int → Int → Chunk)
    (hlocal : ∀ c y x a b, ¬(a = y ∧ b = x) → (f c y x).whenv a b = c.whenv a b) :
    ∀ (l : List (Int × Int)) (c : Chunk) (y x : Int), (y, x) ∉ l →
      ((l.foldl (fun c1 p => f c1 p.1 p.2) c).whenv y x = c.whenv y x) := by
  intro l
  induction l with
  | nil => intro c y x _; rfl
  | cons p l ih =>
    intro c y x hmem
    rw [List.foldl_cons]
    have hmem2 : (y, x) ≠ p ∧ (y, x) ∉ l := by
      constructor
      · intro hc; exact hmem (hc ▸ List.mem_cons_self p l)
      · intro hc; exact hmem (List.mem_cons_of_mem p hc)
    rw [ih _ y x hmem2.2]
    apply hlocal
    rintro ⟨h1, h2⟩
    exact hmem2.1 (by cases p; simp_all)

/-- `fold_char` for the flow timestamp grid. -/
theorem fold_char_when (f : Chunk → Int → Int → Chunk)
    (hlocal : ∀ c y x a b, ¬(a = y ∧ b = x) → (f c y x).whenv a b = c.whenv a b)
    (hstab : ∀ c a b y x, ¬(a = y ∧ b = x) →
      (f (f c a b) y x).whenv y x = (f c y x).whenv y x) :
    ∀ (l : List (Int × Int)) (c : Chunk) (y x : Int), (y, x) ∈ l → l.Nodup →
      ((l.foldl (fun c1 p => f c1 p.1 p.2) c).whenv y x = (f c y x).whenv y x) := by
  intro l
  induction l with
  | nil => intro c y x h _; cases h
  | cons p l ih =>
    intro c y x hmem hnd
    rw [List.foldl_cons]
    rcases List.mem_cons.mp hmem with heq | hmem2
    · have hni : (y, x) ∉ l := by
        rw [heq]
        exact (List.nodup_cons.mp hnd).1
      rw [fold_frame_when f hlocal l _ y x hni, ← heq]
    · have hnd2 := (List.nodup_cons.mp hnd).2
      have hne : ¬(p.1 = y ∧ p.2 = x) := by
        rintro ⟨h1, h2⟩
        have : p = (y, x) := by cases p; simp_all
        exact (List.nodup_cons.mp hnd).1 (this ▸ hmem2)
      rw [ih _ y x hmem2 hnd2, hstab c p.1 p.2 y x hne]

theorem flow_rebase_height (c : Chunk) : (flow_rebase c).height = c.height := by
  unfold flow_rebase foldCells
  exact fold_proj (fun ch => ch.height)
    (fun c1 (p : Int × Int) => putWhen c1 p.1 p.2
      (if c1.whenv p.1 p.2 ≥ 128 then c1.whenv p.1 p.2 - 128 else 0))
    (fun c1 (p : Int × Int) => rfl) _ c

theorem flow_rebase_width (c : Chunk) : (flow_rebase c).width = c.width := by
  unfold flow_rebase foldCells
  exact fold_proj (fun ch => ch.width)
    (fun c1 (p : Int × Int) => putWhen c1 p.1 p.2
      (if c1.whenv p.1 p.2 ≥ 128 then c1.whenv p.1 p.2 - 128 else 0))
    (fun c1 (p : Int × Int) => rfl) _ c

theorem flow_rebase_feat (c : Chunk) : (flow_rebase c).feat = c.feat := by
  unfold flow_rebase foldCells
  exact fold_proj (fun ch => ch.feat)
    (fun c1 (p : Int × Int) => putWhen c1 p.1 p.2
      (if c1.whenv p.1 p.2 ≥ 128 then c1.whenv p.1 p.2 - 128 else 0))
    (fun c1 (p : Int × Int) => rfl) _ c

theorem flow_rebase_cost (c : Chunk) : (flow_rebase c).cost = c.cost := by
  unfold flow_rebase foldCells
  exact fold_proj (fun ch => ch.cost)
    (fun c1 (p : Int × Int) => putWhen c1 p.1 p.2
      (if c1.whenv p.1 p.2 ≥ 128 then c1.whenv p.1 p.2 - 128 else 0))
    (fun c1 (p : Int × Int) => rfl) _ c

/-- The rebase pointwise: every in-bounds stamp is halved toward zero,
nothing else is touched. -/
theorem flow_rebase_when (c : Chunk) (y x : Int) :
    (flow_rebase c).whenv y x =
      if (y, x) ∈ cellList c.height.toNat c.width.toNat then
        (if c.whenv y x ≥ 128 then c.whenv y x - 128 else 0) % 256
      else c.whenv y x := by
  have hlocal : ∀ (c1 : Chunk) (y1 x1 a b : Int), ¬(a = y1 ∧ b = x1) →
      ((putWhen c1 y1 x1 (if c1.whenv y1 x1 ≥ 128 then c1.whenv y1 x1 - 128 else 0)).whenv
        a b = c1.whenv a b) := by
    intro c1 y1 x1 a b h
    simp [putWhen, h]
  have hstab : ∀ (c1 : Chunk) (a b y1 x1 : Int), ¬(a = y1 ∧ b = x1) →
      ((fun c2 y2 x2 => putWhen c2 y2 x2
          (if c2.whenv y2 x2 ≥ 128 then c2.whenv y2 x2 - 128 else 0))
        ((fun c2 y2 x2 => putWhen c2 y2 x2
          (if c2.whenv y2 x2 ≥ 128 then c2.whenv y2 x2 - 128 else 0)) c1 a b)
        y1 x1).whenv y1 x1 =
      ((fun c2 y2 x2 => putWhen c2 y2 x2
          (if c2.whenv y2 x2 ≥ 128 then c2.whenv y2 x2 - 128 else 0)) c1 y1 x1).whenv
        y1 x1 := by
    intro c1 a b y1 x1 h
    have hmid := hlocal c1 a b y1 x1 (by tauto)
    simp only [putWhen]
    simp only [putWhen] at hmid
    simp [hmid]
  unfold flow_rebase foldCells
  by_cases hm : (y, x) ∈ cellList c.height.toNat c.width.toNat
  · rw [if_pos hm]
    rw [fold_char_when _ hlocal hstab _ c y x hm (nodup_cellList _ _)]
    simp [putWhen]
  · rw [if_neg hm, fold_frame_when _ hlocal _ c y x hm]

/-- Freshness of a chunk's flow stamps relative to a bound: in-bounds
stamps do not exceed it, out-of-bounds stamps are untouched zeroes. -/
def flowFresh (c : Chunk) (N : Nat) : Prop :=
  ∀ y x, (square_in_bounds c y x = true → c.whenv y x ≤ N) ∧
    (square_in_bounds c y x = false → c.whenv y x = 0)

/-- The single-call queue invariant: the indices are in range and every
active slot names a cell stamped with this call's generation. -/
def flowInv (N : Nat) (s : FlowState) : Prop :=
  s.head < FLOW_MAX ∧ s.tail < FLOW_MAX ∧
  ∀ i, inWindow s.head s.tail i → s.c.whenv (s.qy i) (s.qx i) = N

/-- The full single-run invariant: fixed dimensions and terrain, the queue
invariant, and stamp freshness. -/
def flowGood (N : Nat) (H W : Int) (Ft : Int → Int → Nat) (s : FlowState) : Prop :=
  s.c.height = H ∧ s.c.width = W ∧ s.c.feat = Ft ∧ flowInv N s ∧ flowFresh s.c N

theorem flow_child_c_dims (F : Nat → Feature) (N n : Nat) (s : FlowState) (y x : Int) :
    (flow_child F N n s y x).c.height = s.c.height ∧
    (flow_child F N n s y x).c.width = s.c.width ∧
    (flow_child F N n s y x).c.feat = s.c.feat := by
  unfold flow_child
  simp only []
  split
  · exact ⟨rfl, rfl, rfl⟩
  · split
    · exact ⟨rfl, rfl, rfl⟩
    · split
      · exact ⟨rfl, rfl, rfl⟩
      · exact ⟨rfl, rfl, rfl⟩

theorem flow_child_fresh (F : Nat → Feature) (N n : Nat) (s : FlowState) (y x : Int)
    (hf : flowFresh s.c N) : flowFresh (flow_child F N n s y x).c N := by
  unfold flow_child
  simp only []
  split
  · exact hf
  · split
    · exact hf
    · split
      · exact hf
      · rename_i hb hstamp hflow
        intro a b
        refine ⟨fun hin => ?_, fun hout => ?_⟩
        · by_cases hc : a = y ∧ b = x
          · obtain ⟨rfl, rfl⟩ := hc
            show (if (a = a ∧ b = b) then N % 256 else s.c.whenv a b) ≤ N
            rw [if_pos ⟨rfl, rfl⟩]
            exact Nat.mod_le N 256
          · show (if (a = y ∧ b = x) then N % 256 else s.c.whenv a b) ≤ N
            rw [if_neg hc]
            exact (hf a b).1 hin
        · by_cases hc : a = y ∧ b = x
          · obtain ⟨rfl, rfl⟩ := hc
            have hbnd : square_in_bounds s.c a b = true := not_not.mp hb
            have hout' : square_in_bounds s.c a b = false := hout
            rw [hbnd] at hout'
            cases hout'
          · show (if (a = y ∧ b = x) then N % 256 else s.c.whenv a b) = 0
            rw [if_neg hc]
            exact (hf a b).2 hout

theorem flow_child_inv (F : Nat → Feature) (N n : Nat) (s : FlowState) (y x : Int)
    (hN : N ≤ 255) (hh : s.c.height ≤ 256) (hw : s.c.width ≤ 256)
    (hInv : flowInv N s) : flowInv N (flow_child F N n s y x) := by
  obtain ⟨h1, h2, h3⟩ := hInv
  unfold flow_child
  simp only []
  split
  · exact ⟨h1, h2, h3⟩
  · split
    · exact ⟨h1, h2, h3⟩
    · split
      · exact ⟨h1, h2, h3⟩
      · rename_i hb hstamp hflow
        have hkeep : ∀ (a b : Int), s.c.whenv a b = N →
            (putCost (putWhen s.c y x N) y x n).whenv a b = N := by
          intro a b hab
          by_cases hc : a = y ∧ b = x
          · obtain ⟨rfl, rfl⟩ := hc
            show (if (a = a ∧ b = b) then N % 256 else s.c.whenv a b) = N
            rw [if_pos ⟨rfl, rfl⟩]
            exact Nat.mod_eq_of_lt (by omega)
          · show (if (a = y ∧ b = x) then N % 256 else s.c.whenv a b) = N
            rw [if_neg hc]
            exact hab
        have hself : (putCost (putWhen s.c y x N) y x n).whenv y x = N := by
          show (if (y = y ∧ x = x) then N % 256 else s.c.whenv y x) = N
          rw [if_pos ⟨rfl, rfl⟩]
          exact Nat.mod_eq_of_lt (by omega)
        refine ⟨h1, ?_, ?_⟩
        · show (if (if s.tail + 1 = FLOW_MAX then 0 else s.tail + 1) = s.head then s.tail
            else if s.tail + 1 = FLOW_MAX then 0 else s.tail + 1) < FLOW_MAX
          simp only [FLOW_MAX] at *
          split_ifs <;> omega
        · intro i hi
          by_cases hov : (if s.tail + 1 = FLOW_MAX then 0 else s.tail + 1) = s.head
          · rw [if_pos hov] at hi
            have hneq : i ≠ s.tail := fun he =>
              inWindow_not_tail s.head s.tail h1 h2 (he ▸ hi)
            show (putCost (putWhen s.c y x N) y x n).whenv
              ((if i = s.tail then y.toNat % 256 else s.qy i : Nat) : Int)
              ((if i = s.tail then x.toNat % 256 else s.qx i : Nat) : Int) = N
            rw [if_neg hneq, if_neg hneq]
            exact hkeep _ _ (h3 i hi)
          · rw [if_neg hov] at hi
            rcases inWindow_enqueue s.head s.tail i h1 h2 hi with hold | rfl
            · have hneq : i ≠ s.tail := fun he =>
                inWindow_not_tail s.head s.tail h1 h2 (he ▸ hold)
              show (putCost (putWhen s.c y x N) y x n).whenv
                ((if i = s.tail then y.toNat % 256 else s.qy i : Nat) : Int)
                ((if i = s.tail then x.toNat % 256 else s.qx i : Nat) : Int) = N
              rw [if_neg hneq, if_neg hneq]
              exact hkeep _ _ (h3 i hold)
            · show (putCost (putWhen s.c y x N) y x n).whenv
                ((if s.tail = s.tail then y.toNat % 256 else s.qy s.tail : Nat) : Int)
                ((if s.tail = s.tail then x.toNat % 256 else s.qx s.tail : Nat) : Int) = N
              rw [if_pos rfl, if_pos rfl]
              have hbnd : square_in_bounds s.c y x = true := not_not.mp hb
              unfold square_in_bounds at hbnd
              simp only [Bool.and_eq_true, decide_eq_true_eq] at hbnd
              obtain ⟨⟨⟨hx0, hxw⟩, hy0⟩, hyh⟩ := hbnd
              have hy : ((y.toNat % 256 : Nat) : Int) = y := by omega
              have hx : ((x.toNat % 256 : Nat) : Int) = x := by omega
              rw [hy, hx]
              exact hself

theorem flow_child_good (F : Nat → Feature) (N n : Nat) (H W : Int)
    (Ft : Int → Int → Nat) (hN : N ≤ 255) (hH : H ≤ 256) (hW : W ≤ 256)
    (s : FlowState) (y x : Int) (hg : flowGood N H W Ft s) :
    flowGood N H W Ft (flow_child F N n s y x) := by
  obtain ⟨g1, g2, g3, g4, g5⟩ := hg
  obtain ⟨d1, d2, d3⟩ := flow_child_c_dims F N n s y x
  refine ⟨d1.trans g1, d2.trans g2, d3.trans g3, ?_, flow_child_fresh F N n s y x g5⟩
  exact flow_child_inv F N n s y x hN (by rw [g1]; exact hH) (by rw [g2]; exact hW) g4

theorem flow_children_good (F : Nat → Feature) (N n : Nat) (H W : Int)
    (Ft : Int → Int → Nat) (hN : N ≤ 255) (hH : H ≤ 256) (hW : W ≤ 256)
    (ty tx : Int) (s : FlowState) (hg : flowGood N H W Ft s) :
    flowGood N H W Ft (flow_children F N n ty tx s) := by
  unfold flow_children
  exact foldl_inv (flowGood N H W Ft) _
    (fun s1 (dd : Int × Int) h1 =>
      flow_child_good F N n H W Ft hN hH hW s1 (ty + dd.1) (tx + dd.2) h1)
    _ s hg

theorem flow_good_dequeue (N : Nat) (H W : Int) (Ft : Int → Int → Nat) (s : FlowState)
    (hne : s.head ≠ s.tail) (hg : flowGood N H W Ft s) :
    flowGood N H W Ft
      { s with head := if s.head + 1 = FLOW_MAX then 0 else s.head + 1 } := by
  obtain ⟨g1, g2, g3, ⟨i1, i2, i3⟩, g5⟩ := hg
  refine ⟨g1, g2, g3, ⟨?_, i2, ?_⟩, g5⟩
  · show (if s.head + 1 = FLOW_MAX then 0 else s.head + 1) < FLOW_MAX
    simp only [FLOW_MAX] at *
    split_ifs <;> omega
  · intro i hi
    exact i3 i (inWindow_dequeue s.head s.tail i hne i1 i2 hi)

theorem flow_loop_good (F : Nat → Feature) (DEPTH N : Nat) (H W : Int)
    (Ft : Int → Int → Nat) (hN : N ≤ 255) (hH : H ≤ 256) (hW : W ≤ 256) :
    ∀ (fuel : Nat) (s : FlowState), flowGood N H W Ft s →
      flowGood N H W Ft (flow_loop F DEPTH N fuel s) := by
  intro fuel
  induction fuel with
  | zero => intro s h; exact h
  | succ fuel ih =>
    intro s h
    rw [flow_loop]
    split
    · rename_i hne
      simp only []
      split
      · exact ih _ (flow_good_dequeue N H W Ft s hne h)
      · exact ih _ (flow_children_good F N _ H W Ft hN hH hW _ _ _
          (flow_good_dequeue N H W Ft s hne h))
    · exact h

/-- Lockstep relation between the states of two `cave_update_flow` calls
with generations `N1` and `N2`: equal queues and indices, equal terrain,
matching stamp sets and equal costs on stamped cells. -/
def flowRel (N1 N2 : Nat) (sA sB : FlowState) : Prop :=
  sA.qy = sB.qy ∧ sA.qx = sB.qx ∧ sA.head = sB.head ∧ sA.tail = sB.tail ∧
  sA.c.height = sB.c.height ∧ sA.c.width = sB.c.width ∧ sA.c.feat = sB.c.feat ∧
  (∀ y x, sA.c.whenv y x = N1 ↔ sB.c.whenv y x = N2) ∧
  (∀ y x, sA.c.whenv y x = N1 → sA.c.cost y x = sB.c.cost y x)

/-- Two folds in lockstep preserve a relation. -/
theorem foldl_rel {σ τ α : Type _} (R : σ → τ → Prop) (f : σ → α → σ) (g : τ → α → τ)
    (h : ∀ (sA : σ) (sB : τ) (a : α), R sA sB → R (f sA a) (g sB a)) :
    ∀ (l : List α) (sA : σ) (sB : τ), R sA sB → R (l.foldl f sA) (l.foldl g sB) := by
  intro l
  induction l with
  | nil => intro sA sB h0; exact h0
  | cons a t ih => intro sA sB h0; exact ih _ _ (h sA sB a h0)

theorem flow_child_rel (F : Nat → Feature) (N1 N2 n : Nat)
    (hN1 : N1 ≤ 255) (hN2 : N2 ≤ 255) (sA sB : FlowState) (y x : Int)
    (hrel : flowRel N1 N2 sA sB) :
    flowRel N1 N2 (flow_child F N1 n sA y x) (flow_child F N2 n sB y x) := by
  obtain ⟨r1, r2, r3, r4, r5, r6, r7, r8, r9⟩ := hrel
  have hbEq : square_in_bounds sA.c y x = square_in_bounds sB.c y x := by
    unfold square_in_bounds
    rw [r5, r6]
  unfold flow_child
  simp only []
  by_cases hb : square_in_bounds sA.c y x = true
  · have hbB : ¬¬ square_in_bounds sB.c y x = true := not_not_intro (hbEq ▸ hb)
    rw [if_neg (not_not_intro hb), if_neg hbB]
    by_cases hs : sA.c.whenv y x = N1
    · have hsB : sB.c.whenv y x = N2 := (r8 y x).mp hs
      rw [if_pos hs, if_pos hsB]
      exact ⟨r1, r2, r3, r4, r5, r6, r7, r8, r9⟩
    · have hsB : ¬ sB.c.whenv y x = N2 := fun h => hs ((r8 y x).mpr h)
      rw [if_neg hs, if_neg hsB]
      by_cases hf : (F (sA.c.feat y x)).no_flow = true
      · have hfB : (F (sB.c.feat y x)).no_flow = true := by rw [← r7]; exact hf
        rw [if_pos hf, if_pos hfB]
        exact ⟨r1, r2, r3, r4, r5, r6, r7, r8, r9⟩
      · have hfB : ¬ (F (sB.c.feat y x)).no_flow = true := by rw [← r7]; exact hf
        rw [if_neg hf, if_neg hfB]
        refine ⟨?_, ?_, r3, ?_, r5, r6, r7, ?_, ?_⟩
        · funext i
          show (if i = sA.tail then y.toNat % 256 else sA.qy i) =
            (if i = sB.tail then y.toNat % 256 else sB.qy i)
          rw [r4, r1]
        · funext i
          show (if i = sA.tail then x.toNat % 256 else sA.qx i) =
            (if i = sB.tail then x.toNat % 256 else sB.qx i)
          rw [r4, r2]
        · show (if (if sA.tail + 1 = FLOW_MAX then 0 else sA.tail + 1) = sA.head
              then sA.tail else if sA.tail + 1 = FLOW_MAX then 0 else sA.tail + 1) =
            (if (if sB.tail + 1 = FLOW_MAX then 0 else sB.tail + 1) = sB.head
              then sB.tail else if sB.tail + 1 = FLOW_MAX then 0 else sB.tail + 1)
          rw [r4, r3]
        · intro a b
          show (if a = y ∧ b = x then N1 % 256 else sA.c.whenv a b) = N1 ↔
            (if a = y ∧ b = x then N2 % 256 else sB.c.whenv a b) = N2
          by_cases hc : a = y ∧ b = x
          · rw [if_pos hc, if_pos hc, Nat.mod_eq_of_lt (by omega : N1 < 256),
              Nat.mod_eq_of_lt (by omega : N2 < 256)]
            simp
          · rw [if_neg hc, if_neg hc]
            exact r8 a b
        · intro a b hstamp
          show (if a = y ∧ b = x then n % 256 else sA.c.cost a b) =
            (if a = y ∧ b = x then n % 256 else sB.c.cost a b)
          by_cases hc : a = y ∧ b = x
          · rw [if_pos hc, if_pos hc]
          · rw [if_neg hc, if_neg hc]
            apply r9 a b
            have h0 : (if a = y ∧ b = x then N1 % 256 else sA.c.whenv a b) = N1 := hstamp
            rwa [if_neg hc] at h0
  · have hb' : ¬ square_in_bounds sB.c y x = true := by rw [← hbEq]; exact hb
    rw [if_pos hb, if_pos hb']
    exact ⟨r1, r2, r3, r4, r5, r6, r7, r8, r9⟩

theorem flow_children_rel (F : Nat → Feature) (N1 N2 n : Nat)
    (hN1 : N1 ≤ 255) (hN2 : N2 ≤ 255) (ty tx : Int) (sA sB : FlowState)
    (hrel : flowRel N1 N2 sA sB) :
    flowRel N1 N2 (flow_children F N1 n ty tx sA) (flow_children F N2 n ty tx sB) := by
  unfold flow_children
  exact foldl_rel (flowRel N1 N2) _ _
    (fun s1 s2 (dd : Int × Int) h1 =>
      flow_child_rel F N1 N2 n hN1 hN2 s1 s2 (ty + dd.1) (tx + dd.2) h1)
    _ sA sB hrel

theorem flow_loop_rel (F : Nat → Feature) (DEPTH N1 N2 : Nat) (H W : Int)
    (Ft : Int → Int → Nat) (hN1 : N1 ≤ 255) (hN2 : N2 ≤ 255)
    (hH : H ≤ 256) (hW : W ≤ 256) :
    ∀ (fuel : Nat) (sA sB : FlowState),
      flowRel N1 N2 sA sB → flowGood N1 H W Ft sA → flowGood N2 H W Ft sB →
      flowRel N1 N2 (flow_loop F DEPTH N1 fuel sA) (flow_loop F DEPTH N2 fuel sB) := by
  intro fuel
  induction fuel with
  | zero => intro sA sB hrel _ _; exact hrel
  | succ fuel ih =>
    intro sA sB hrel hgA hgB
    obtain ⟨r1, r2, r3, r4, r5, r6, r7, r8, r9⟩ := hrel
    rw [flow_loop, flow_loop]
    by_cases hne : sA.head ≠ sA.tail
    · have hneB : sB.head ≠ sB.tail := by rw [← r3, ← r4]; exact hne
      rw [if_pos hne, if_pos hneB]
      simp only []
      obtain ⟨iA1, iA2, iA3⟩ := hgA.2.2.2.1
      have hstampA : sA.c.whenv (sA.qy sA.head) (sA.qx sA.head) = N1 :=
        iA3 sA.head (inWindow_head _ _ hne iA1 iA2)
      have hty : ((sA.qy sA.head : Nat) : Int) = ((sB.qy sB.head : Nat) : Int) := by
        rw [r1, r3]
      have htx : ((sA.qx sA.head : Nat) : Int) = ((sB.qx sB.head : Nat) : Int) := by
        rw [r2, r3]
      have hn : sA.c.cost (sA.qy sA.head) (sA.qx sA.head) + 1 =
          sB.c.cost (sB.qy sB.head) (sB.qx sB.head) + 1 := by
        rw [← hty, ← htx]
        exact congrArg (· + 1) (r9 _ _ hstampA)
      have hrel1 : flowRel N1 N2
          { sA with head := if sA.head + 1 = FLOW_MAX then 0 else sA.head + 1 }
          { sB with head := if sB.head + 1 = FLOW_MAX then 0 else sB.head + 1 } := by
        refine ⟨r1, r2, ?_, r4, r5, r6, r7, r8, r9⟩
        show (if sA.head + 1 = FLOW_MAX then 0 else sA.head + 1) =
          (if sB.head + 1 = FLOW_MAX then 0 else sB.head + 1)
        rw [r3]
      have hgA1 := flow_good_dequeue N1 H W Ft sA hne hgA
      have hgB1 := flow_good_dequeue N2 H W Ft sB hneB hgB
      by_cases hd : sA.c.cost (sA.qy sA.head) (sA.qx sA.head) + 1 = DEPTH
      · have hdB : sB.c.cost (sB.qy sB.head) (sB.qx sB.head) + 1 = DEPTH := by
          rw [← hn]; exact hd
        rw [if_pos hd, if_pos hdB]
        exact ih _ _ hrel1 hgA1 hgB1
      · have hdB : ¬ sB.c.cost (sB.qy sB.head) (sB.qx sB.head) + 1 = DEPTH := by
          rw [← hn]; exact hd
        rw [if_neg hd, if_neg hdB]
        rw [← hn, ← hty, ← htx]
        exact ih _ _
          (flow_children_rel F N1 N2 _ hN1 hN2 _ _ _ _ hrel1)
          (flow_children_good F N1 _ H W Ft hN1 hH hW _ _ _ hgA1)
          (flow_children_good F N2 _ H W Ft hN2 hH hW _ _ _ hgB1)
    · have hneB : ¬ sB.head ≠ sB.tail := by rw [← r3, ← r4]; exact hne
      rw [if_neg hne, if_neg hneB]
      exact ⟨r1, r2, r3, r4, r5, r6, r7, r8, r9⟩

/-- The generation cycling of `cave_update_flow` (cave.c:1285-1297):
post-increment, rebasing and restarting at 128 when the counter leaves
255. -/
def flowCycle (c : Chunk) (s : Nat) : Chunk × Nat :=
  if s = 255 then (flow_rebase c, 128) else (c, s + 1)

/-- The flow state as `cave_update_flow` enqueues the player grid
(cave.c:1303-1319). -/
def flowInit (c : Chunk) (py px : Int) (N : Nat) : FlowState :=
  { c := putCost (putWhen c py px N) py px 0,
    qy := fun i => if i = 0 then py.toNat % 256 else 0,
    qx := fun i => if i = 0 then px.toNat % 256 else 0, head := 0, tail := 1 }

theorem cave_update_flow_eq (F : Nat → Feature) (DEPTH : Nat) (c : Chunk) (py px : Int)
    (s : Nat) :
    cave_update_flow F DEPTH c py px s =
      ((flow_loop F DEPTH (flowCycle c s).2
        ((flowCycle c s).1.height.toNat * (flowCycle c s).1.width.toNat + 2)
        (flowInit (flowCycle c s).1 py px (flowCycle c s).2)).c,
       (flowCycle c s).2) := rfl

theorem in_bounds_iff_mem (c : Chunk) (y x : Int) :
    square_in_bounds c y x = true ↔ (y, x) ∈ cellList c.height.toNat c.width.toNat := by
  unfold square_in_bounds
  rw [mem_cellList]
  simp only [Bool.and_eq_true, decide_eq_true_eq]
  omega

theorem square_in_bounds_of_dims (c : Chunk) (H W py px : Int)
    (h1 : c.height = H) (h2 : c.width = W)
    (hb : 0 ≤ py ∧ py < H ∧ 0 ≤ px ∧ px < W) : square_in_bounds c py px = true := by
  unfold square_in_bounds
  rw [h1, h2]
  simp only [Bool.and_eq_true, decide_eq_true_eq]
  omega

theorem flowCycle_facts (c : Chunk) (s : Nat) (py px : Int) (hs : s ≤ 255)
    (hf : flowFresh c s) (hp : square_in_bounds c py px = true) :
    (flowCycle c s).1.height = c.height ∧ (flowCycle c s).1.width = c.width ∧
    (flowCycle c s).1.feat = c.feat ∧
    1 ≤ (flowCycle c s).2 ∧ (flowCycle c s).2 ≤ 255 ∧
    flowFresh (flowCycle c s).1 ((flowCycle c s).2 - 1) ∧
    square_in_bounds (flowCycle c s).1 py px = true := by
  unfold flowCycle
  by_cases h : s = 255
  · rw [if_pos h]
    have hpR : square_in_bounds (flow_rebase c) py px = true := by
      unfold square_in_bounds at hp ⊢
      rw [flow_rebase_height, flow_rebase_width]
      exact hp
    refine ⟨flow_rebase_height c, flow_rebase_width c, flow_rebase_feat c,
      by omega, by omega, ?_, hpR⟩
    intro y x
    constructor
    · intro hin
      have hin' : square_in_bounds c y x = true := by
        unfold square_in_bounds at hin ⊢
        rw [flow_rebase_height, flow_rebase_width] at hin
        exact hin
      have hm := (in_bounds_iff_mem c y x).mp hin'
      rw [flow_rebase_when, if_pos hm]
      have hb := (hf y x).1 hin'
      have hv : (if c.whenv y x ≥ 128 then c.whenv y x - 128 else 0) ≤ 127 := by
        split_ifs <;> omega
      rw [Nat.mod_eq_of_lt (by omega)]
      omega
    · intro hout
      have hout' : square_in_bounds c y x = false := by
        unfold square_in_bounds at hout ⊢
        rw [flow_rebase_height, flow_rebase_width] at hout
        exact hout
      have hm : (y, x) ∉ cellList c.height.toNat c.width.toNat := fun hm =>
        by rw [(in_bounds_iff_mem c y x).mpr hm] at hout'; cases hout'
      rw [flow_rebase_when, if_neg hm]
      exact (hf y x).2 hout'
  · rw [if_neg h]
    refine ⟨rfl, rfl, rfl, by omega, by omega, ?_, hp⟩
    show flowFresh c (s + 1 - 1)
    have : s + 1 - 1 = s := by omega
    rw [this]
    exact hf

theorem flow_init_good (c : Chunk) (py px : Int) (N : Nat)
    (hN1 : 1 ≤ N) (hN2 : N ≤ 255) (hH : c.height ≤ 256) (hW : c.width ≤ 256)
    (hp : square_in_bounds c py px = true) (hst : flowFresh c (N - 1)) :
    flowGood N c.height c.width c.feat (flowInit c py px N) := by
  refine ⟨rfl, rfl, rfl, ⟨?_, ?_, ?_⟩, ?_⟩
  · show (0 : Nat) < FLOW_MAX
    simp [FLOW_MAX]
  · show (1 : Nat) < FLOW_MAX
    simp [FLOW_MAX]
  · intro i hi
    have hi0 : i = 0 := by
      simp only [flowInit, inWindow, FLOW_MAX] at hi
      split_ifs at hi <;> omega
    subst hi0
    show (putCost (putWhen c py px N) py px 0).whenv
      ((if (0:Nat) = 0 then py.toNat % 256 else 0 : Nat) : Int)
      ((if (0:Nat) = 0 then px.toNat % 256 else 0 : Nat) : Int) = N
    rw [if_pos rfl, if_pos rfl]
    have hp' := hp
    unfold square_in_bounds at hp'
    simp only [Bool.and_eq_true, decide_eq_true_eq] at hp'
    obtain ⟨⟨⟨hx0, hxw⟩, hy0⟩, hyh⟩ := hp'
    have hy : ((py.toNat % 256 : Nat) : Int) = py := by omega
    have hx : ((px.toNat % 256 : Nat) : Int) = px := by omega
    rw [hy, hx]
    show (if py = py ∧ px = px then N % 256 else c.whenv py px) = N
    rw [if_pos ⟨rfl, rfl⟩]
    exact Nat.mod_eq_of_lt (by omega)
  · intro a b
    refine ⟨fun hin => ?_, fun hout => ?_⟩
    · show (if a = py ∧ b = px then N % 256 else c.whenv a b) ≤ N
      by_cases hc : a = py ∧ b = px
      · rw [if_pos hc]
        exact Nat.mod_le N 256
      · rw [if_neg hc]
        cases hbb : square_in_bounds c a b
        · have := (hst a b).2 hbb
          omega
        · have := (hst a b).1 hbb
          omega
    · show (if a = py ∧ b = px then N % 256 else c.whenv a b) = 0
      by_cases hc : a = py ∧ b = px
      · obtain ⟨rfl, rfl⟩ := hc
        have hout' : square_in_bounds c a b = false := hout
        rw [hp] at hout'
        cases hout'
      · rw [if_neg hc]
        cases hbb : square_in_bounds c a b
        · exact (hst a b).2 hbb
        · have hout' : square_in_bounds c a b = false := hout
          rw [hbb] at hout'
          cases hout'

theorem flow_call_rel (F : Nat → Feature) (DEPTH : Nat) (cA cB : Chunk) (py px : Int)
    (NA NB : Nat)
    (hd1 : cA.height = cB.height) (hd2 : cA.width = cB.width) (hd3 : cA.feat = cB.feat)
    (hH : cA.height ≤ 256) (hW : cA.width ≤ 256)
    (hpA : square_in_bounds cA py px = true)
    (hNA : 1 ≤ NA ∧ NA ≤ 255) (hNB : 1 ≤ NB ∧ NB ≤ 255)
    (hstA : flowFresh cA (NA - 1)) (hstB : flowFresh cB (NB - 1)) :
    flowRel NA NB
      (flow_loop F DEPTH NA (cA.height.toNat * cA.width.toNat + 2) (flowInit cA py px NA))
      (flow_loop F DEPTH NB (cB.height.toNat * cB.width.toNat + 2)
        (flowInit cB py px NB)) := by
  have hpB : square_in_bounds cB py px = true := by
    unfold square_in_bounds at hpA ⊢
    rw [← hd1, ← hd2]
    exact hpA
  have hfuel : cB.height.toNat * cB.width.toNat + 2 =
      cA.height.toNat * cA.width.toNat + 2 := by
    rw [hd1, hd2]
  rw [hfuel]
  apply flow_loop_rel F DEPTH NA NB cA.height cA.width cA.feat hNA.2 hNB.2 hH hW
  · refine ⟨rfl, rfl, rfl, rfl, hd1, hd2, hd3, ?_, ?_⟩
    · intro y x
      show (if y = py ∧ x = px then NA % 256 else cA.whenv y x) = NA ↔
        (if y = py ∧ x = px then NB % 256 else cB.whenv y x) = NB
      by_cases hc : y = py ∧ x = px
      · rw [if_pos hc, if_pos hc, Nat.mod_eq_of_lt (by omega : NA < 256),
          Nat.mod_eq_of_lt (by omega : NB < 256)]
        simp
      · rw [if_neg hc, if_neg hc]
        constructor
        · intro h
          exfalso
          cases hbb : square_in_bounds cA y x
          · have := (hstA y x).2 hbb
            omega
          · have := (hstA y x).1 hbb
            omega
        · intro h
          exfalso
          cases hbb : square_in_bounds cB y x
          · have := (hstB y x).2 hbb
            omega
          · have := (hstB y x).1 hbb
            omega
    · intro y x hst
      show (if y = py ∧ x = px then 0 % 256 else cA.cost y x) =
        (if y = py ∧ x = px then 0 % 256 else cB.cost y x)
      by_cases hc : y = py ∧ x = px
      · rw [if_pos hc, if_pos hc]
      · exfalso
        have h0 : (if y = py ∧ x = px then NA % 256 else cA.whenv y x) = NA := hst
        rw [if_neg hc] at h0
        cases hbb : square_in_bounds cA y x
        · have := (hstA y x).2 hbb
          omega
        · have := (hstA y x).1 hbb
          omega
  · exact flow_init_good cA py px NA hNA.1 hNA.2 hH hW hpA hstA
  · have hg := flow_init_good cB py px NB hNB.1 hNB.2 (by rw [← hd1]; exact hH)
      (by rw [← hd2]; exact hW) hpB hstB
    rw [hd1, hd2, hd3]
    exact hg

theorem cave_update_flow_rel (F : Nat → Feature) (DEPTH : Nat) (cA cB : Chunk)
    (py px : Int) (sA sB : Nat)
    (hd1 : cA.height = cB.height) (hd2 : cA.width = cB.width) (hd3 : cA.feat = cB.feat)
    (hH : cA.height ≤ 256) (hW : cA.width ≤ 256)
    (hpA : square_in_bounds cA py px = true)
    (hsA : sA ≤ 255) (hsB : sB ≤ 255)
    (hfA : flowFresh cA sA) (hfB : flowFresh cB sB) :
    ∀ y x,
      ((cave_update_flow F DEPTH cA py px sA).1.whenv y x =
          (cave_update_flow F DEPTH cA py px sA).2 ↔
        (cave_update_flow F DEPTH cB py px sB).1.whenv y x =
          (cave_update_flow F DEPTH cB py px sB).2) ∧
      ((cave_update_flow F DEPTH cA py px sA).1.whenv y x =
          (cave_update_flow F DEPTH cA py px sA).2 →
        (cave_update_flow F DEPTH cA py px sA).1.cost y x =
          (cave_update_flow F DEPTH cB py px sB).1.cost y x) := by
  have hpB : square_in_bounds cB py px = true := by
    unfold square_in_bounds at hpA ⊢
    rw [← hd1, ← hd2]
    exact hpA
  obtain ⟨fA1, fA2, fA3, fA4, fA5, fA6, fA7⟩ := flowCycle_facts cA sA py px hsA hfA hpA
  obtain ⟨fB1, fB2, fB3, fB4, fB5, fB6, fB7⟩ := flowCycle_facts cB sB py px hsB hfB hpB
  have hrel := flow_call_rel F DEPTH (flowCycle cA sA).1 (flowCycle cB sB).1 py px
    (flowCycle cA sA).2 (flowCycle cB sB).2
    (fA1.trans (hd1.trans fB1.symm)) (fA2.trans (hd2.trans fB2.symm))
    (fA3.trans (hd3.trans fB3.symm))
    (by rw [fA1]; exact hH) (by rw [fA2]; exact hW) fA7
    ⟨fA4, fA5⟩ ⟨fB4, fB5⟩ fA6 fB6
  obtain ⟨_, _, _, _, _, _, _, r8, r9⟩ := hrel
  intro y x
  exact ⟨r8 y x, r9 y x⟩

theorem cave_update_flow_chain (F : Nat → Feature) (DEPTH : Nat) (c : Chunk)
    (py px : Int) (s : Nat)
    (hH : c.height ≤ 256) (hW : c.width ≤ 256)
    (hp : square_in_bounds c py px = true) (hs : s ≤ 255) (hf : flowFresh c s) :
    (cave_update_flow F DEPTH c py px s).1.height = c.height ∧
    (cave_update_flow F DEPTH c py px s).1.width = c.width ∧
    (cave_update_flow F DEPTH c py px s).1.feat = c.feat ∧
    (cave_update_flow F DEPTH c py px s).2 ≤ 255 ∧
    flowFresh (cave_update_flow F DEPTH c py px s).1
      (cave_update_flow F DEPTH c py px s).2 := by
  obtain ⟨f1, f2, f3, f4, f5, f6, f7⟩ := flowCycle_facts c s py px hs hf hp
  have hg := flow_loop_good F DEPTH (flowCycle c s).2 (flowCycle c s).1.height
    (flowCycle c s).1.width (flowCycle c s).1.feat f5
    (by rw [f1]; exact hH) (by rw [f2]; exact hW)
    ((flowCycle c s).1.height.toNat * (flowCycle c s).1.width.toNat + 2)
    (flowInit (flowCycle c s).1 py px (flowCycle c s).2)
    (flow_init_good (flowCycle c s).1 py px (flowCycle c s).2 f4 f5
      (by rw [f1]; exact hH) (by rw [f2]; exact hW) f7 f6)
  obtain ⟨g1, g2, g3, _, g5⟩ := hg
  exact ⟨g1.trans f1, g2.trans f2, g3.trans f3, f5, g5⟩

/-- Repeated `cave_update_flow` calls on a static map with a fixed player:
the chunk and the static generation counter are threaded through. -/
def flow_iter (F : Nat → Feature) (DEPTH : Nat) (py px : Int) :
    Nat → Chunk × Nat → Chunk × Nat
  | 0, cs => cs
  | Nat.succ k, cs =>
    flow_iter F DEPTH py px k (cave_update_flow F DEPTH cs.1 py px cs.2)

theorem flow_iter_succ_last (F : Nat → Feature) (DEPTH : Nat) (py px : Int) :
    ∀ (k : Nat) (cs : Chunk × Nat),
      flow_iter F DEPTH py px (k + 1) cs =
        cave_update_flow F DEPTH (flow_iter F DEPTH py px k cs).1 py px
          (flow_iter F DEPTH py px k cs).2 := by
  intro k
  induction k with
  | zero => intro cs; rfl
  | succ k ih =>
    intro cs
    show flow_iter F DEPTH py px (k + 1)
      (cave_update_flow F DEPTH cs.1 py px cs.2) = _
    rw [ih]
    rfl

theorem flow_iter_chain (F : Nat → Feature) (DEPTH : Nat) (py px : Int) (H W : Int)
    (Ft : Int → Int → Nat) (hH : H ≤ 256) (hW : W ≤ 256)
    (hb : 0 ≤ py ∧ py < H ∧ 0 ≤ px ∧ px < W) :
    ∀ (k : Nat) (cs : Chunk × Nat), cs.1.height = H → cs.1.width = W → cs.1.feat = Ft →
      cs.2 ≤ 255 → flowFresh cs.1 cs.2 →
      (flow_iter F DEPTH py px k cs).1.height = H ∧
      (flow_iter F DEPTH py px k cs).1.width = W ∧
      (flow_iter F DEPTH py px k cs).1.feat = Ft ∧
      (flow_iter F DEPTH py px k cs).2 ≤ 255 ∧
      flowFresh (flow_iter F DEPTH py px k cs).1 (flow_iter F DEPTH py px k cs).2 := by
  intro k
  induction k with
  | zero => intro cs h1 h2 h3 h4 h5; exact ⟨h1, h2, h3, h4, h5⟩
  | succ k ih =>
    intro cs h1 h2 h3 h4 h5
    have hpc : square_in_bounds cs.1 py px = true :=
      square_in_bounds_of_dims cs.1 H W py px h1 h2 hb
    obtain ⟨w1, w2, w3, w4, w5⟩ := cave_update_flow_chain F DEPTH cs.1 py px cs.2
      (by rw [h1]; exact hH) (by rw [h2]; exact hW) hpc h4 h5
    exact ih _ (w1.trans h1) (w2.trans h2) (w3.trans h3) w4 w5

/-- C9: on a static map with the player fixed, every call — in particular
the calls past the generation rebase — stamps exactly the cells the first
call stamps, and stores for each of them a cost numerically identical to
the first call's.  (The generation counter and the grids are byte-valued
and the queue is fuel-run exactly as in the wrapper; the hypotheses bound
the map to the byte coordinate range of the queue and start it with the
pristine all-zero timestamps of a fresh level.) -/
theorem c9_flow_wraparound_stable (F : Nat → Feature) (DEPTH : Nat) (c0 : Chunk)
    (py px : Int) (k : Nat)
    (hH : c0.height ≤ 256) (hW : c0.width ≤ 256)
    (hp : square_in_bounds c0 py px = true)
    (hz : ∀ y x, c0.whenv y x = 0) (hk : 1 ≤ k) :
    ∀ y x,
      ((flow_iter F DEPTH py px k (c0, 0)).1.whenv y x =
          (flow_iter F DEPTH py px k (c0, 0)).2 ↔
        (cave_update_flow F DEPTH c0 py px 0).1.whenv y x =
          (cave_update_flow F DEPTH c0 py px 0).2) ∧
      ((flow_iter F DEPTH py px k (c0, 0)).1.whenv y x =
          (flow_iter F DEPTH py px k (c0, 0)).2 →
        (flow_iter F DEPTH py px k (c0, 0)).1.cost y x =
          (cave_update_flow F DEPTH c0 py px 0).1.cost y x) := by
  obtain ⟨m, rfl⟩ : ∃ m, k = m + 1 := ⟨k - 1, by omega⟩
  rw [flow_iter_succ_last]
  have hb : 0 ≤ py ∧ py < c0.height ∧ 0 ≤ px ∧ px < c0.width := by
    unfold square_in_bounds at hp
    simp only [Bool.and_eq_true, decide_eq_true_eq] at hp
    omega
  have hfresh0 : flowFresh c0 0 := fun y x =>
    ⟨fun _ => Nat.le_of_eq (hz y x), fun _ => hz y x⟩
  obtain ⟨w1, w2, w3, w4, w5⟩ := flow_iter_chain F DEPTH py px c0.height c0.width
    c0.feat hH hW hb m (c0, 0) rfl rfl rfl (by omega) hfresh0
  exact cave_update_flow_rel F DEPTH (flow_iter F DEPTH py px m (c0, 0)).1 c0 py px
    (flow_iter F DEPTH py px m (c0, 0)).2 0
    w1 w2 w3 (by rw [w1]; exact hH) (by rw [w2]; exact hW)
    (square_in_bounds_of_dims _ c0.height c0.width py px w1 w2 hb)
    w4 (by omega) w5 hfresh0

/-- Witness for `c9_flow_wraparound_stable` on the open 1×1 room with 256
calls: the generation counter runs 1..255 and then rebases to 128, and the
stamp and cost of the single cell match the first call's. -/
theorem c9_flow_wraparound_stable_witness :
    ((openChunk 1 1).height ≤ 256) ∧ ((openChunk 1 1).width ≤ 256) ∧
    (square_in_bounds (openChunk 1 1) 0 0 = true) ∧
    ((1 : Nat) ≤ 256) ∧
    (((flow_iter testF 32 0 0 256 (openChunk 1 1, 0)).1.whenv 0 0 =
        (flow_iter testF 32 0 0 256 (openChunk 1 1, 0)).2 ↔
      (cave_update_flow testF 32 (openChunk 1 1) 0 0 0).1.whenv 0 0 =
        (cave_update_flow testF 32 (openChunk 1 1) 0 0 0).2) ∧
     ((flow_iter testF 32 0 0 256 (openChunk 1 1, 0)).1.whenv 0 0 =
        (flow_iter testF 32 0 0 256 (openChunk 1 1, 0)).2 →
      (flow_iter testF 32 0 0 256 (openChunk 1 1, 0)).1.cost 0 0 =
        (cave_update_flow testF 32 (openChunk 1 1) 0 0 0).1.cost 0 0)) :=
  ⟨by decide, by decide, by decide, by decide,
   c9_flow_wraparound_stable testF 32 (openChunk 1 1) 0 0 256 (by decide) (by decide)
     (by decide) (fun _ _ => rfl) (by decide) 0 0⟩

/-! ### Flow correctness on open rooms (claim C2): geometry of the
Chebyshev distance, and the BFS invariant of the queue loop. -/

/-- The Chebyshev distance, the metric the flow search actually computes:
every one of the eight steps costs one. -/
def cheb (py px y x : Int) : Nat := max (y - py).natAbs (x - px).natAbs

theorem cheb_eq_zero (py px y x : Int) (h : cheb py px y x = 0) : y = py ∧ x = px := by
  simp only [cheb] at h
  omega

theorem cheb_le_255 (c : Chunk) (py px y x : Int) (hH : c.height ≤ 256)
    (hW : c.width ≤ 256) (hp : square_in_bounds c py px = true)
    (hz : square_in_bounds c y x = true) : cheb py px y x ≤ 255 := by
  unfold square_in_bounds at hp hz
  simp only [Bool.and_eq_true, decide_eq_true_eq] at hp hz
  simp only [cheb]
  omega

theorem cheb_adj (py px y x dy dx : Int) (hdy : dy.natAbs ≤ 1) (hdx : dx.natAbs ≤ 1) :
    cheb py px (y + dy) (x + dx) ≤ cheb py px y x + 1 := by
  simp only [cheb]
  omega

theorem cheb_shift (py px y x : Int) (h : cheb py px y x ≠ 0) :
    cheb py px (plainShift y x py px).1 (plainShift y x py px).2 + 1 =
      cheb py px y x := by
  simp only [cheb, plainShift] at *
  split_ifs <;> omega

theorem shift_in_bounds (c : Chunk) (py px y x : Int)
    (hp : square_in_bounds c py px = true) (hz : square_in_bounds c y x = true) :
    square_in_bounds c (plainShift y x py px).1 (plainShift y x py px).2 = true := by
  unfold square_in_bounds at hp hz ⊢
  simp only [plainShift]
  simp only [Bool.and_eq_true, decide_eq_true_eq] at hp hz ⊢
  split_ifs <;> omega

theorem dirs_bounded : ∀ dd ∈ ddy_ddd.zip ddx_ddd, dd.1.natAbs ≤ 1 ∧ dd.2.natAbs ≤ 1 := by
  decide

theorem shift_neighbor (py px y x : Int) (h : ¬(y = py ∧ x = px)) :
    ∃ dd ∈ ddy_ddd.zip ddx_ddd,
      (plainShift y x py px).1 + dd.1 = y ∧ (plainShift y x py px).2 + dd.2 = x := by
  simp only [plainShift]
  rcases lt_trichotomy y py with h1 | h1 | h1 <;>
    rcases lt_trichotomy x px with h2 | h2 | h2
  · exact ⟨(-1, -1), by decide, by split_ifs <;> omega, by split_ifs <;> omega⟩
  · exact ⟨(-1, 0), by decide, by split_ifs <;> omega, by split_ifs <;> omega⟩
  · exact ⟨(-1, 1), by decide, by split_ifs <;> omega, by split_ifs <;> omega⟩
  · exact ⟨(0, -1), by decide, by split_ifs <;> omega, by split_ifs <;> omega⟩
  · exact absurd ⟨h1, h2⟩ h
  · exact ⟨(0, 1), by decide, by split_ifs <;> omega, by split_ifs <;> omega⟩
  · exact ⟨(1, -1), by decide, by split_ifs <;> omega, by split_ifs <;> omega⟩
  · exact ⟨(1, 0), by decide, by split_ifs <;> omega, by split_ifs <;> omega⟩
  · exact ⟨(1, 1), by decide, by split_ifs <;> omega, by split_ifs <;> omega⟩

theorem length_cellList (h w : Nat) : (cellList h w).length = h * w := by
  unfold cellList
  rw [List.length_flatMap]
  have he : List.map (List.length ∘ fun y =>
      List.map (fun x => (Int.ofNat y, Int.ofNat x)) (List.range w)) (List.range h) =
      List.replicate h w := by
    apply List.eq_replicate.mpr
    constructor
    · simp
    · intro b hb
      rw [List.mem_map] at hb
      obtain ⟨y, _, rfl⟩ := hb
      simp
  rw [he, List.sum_replicate, smul_eq_mul]

/-- A duplicate-free list of in-bounds cells has at most `height * width`
entries. -/
theorem nodup_cells_length_le (c : Chunk) (l : List (Int × Int)) (hnd : l.Nodup)
    (hmem : ∀ p ∈ l, square_in_bounds c p.1 p.2 = true) :
    l.length ≤ c.height.toNat * c.width.toNat := by
  have hsub : l.toFinset ⊆ (cellList c.height.toNat c.width.toNat).toFinset := by
    intro p hp
    rw [List.mem_toFinset] at hp ⊢
    have := hmem p hp
    rcases p with ⟨a, b⟩
    exact (in_bounds_iff_mem c a b).mp this
  calc l.length = l.toFinset.card := (List.toFinset_card_of_nodup hnd).symm
    _ ≤ (cellList c.height.toNat c.width.toNat).toFinset.card :=
        Finset.card_le_card hsub
    _ ≤ (cellList c.height.toNat c.width.toNat).length := List.toFinset_card_le _
    _ = c.height.toNat * c.width.toNat := length_cellList _ _

/-- A fold preserves a property under a carried invariant. -/
theorem foldl_pres_inv {σ α : Type _} (Q : σ → Prop) (P : σ → Prop) (f : σ → α → σ)
    (hQ : ∀ s a, Q s → Q (f s a)) (hP : ∀ s a, Q s → P s → P (f s a)) :
    ∀ (l : List α) (s : σ), Q s → P s → P (l.foldl f s) := by
  intro l
  induction l with
  | nil => intro s _ h; exact h
  | cons b t ih =>
    intro s hQs hPs
    exact ih (f s b) (hQ s b hQs) (hP s b hQs hPs)

/-- `foldl_mem_establish` over any state type, with a carried invariant. -/
theorem foldl_mem_establish_inv {σ α : Type _} (Q : σ → Prop) (P : σ → α → Prop)
    (f : σ → α → σ)
    (hQ : ∀ s a, Q s → Q (f s a))
    (hset : ∀ s a, Q s → P (f s a) a)
    (hpres : ∀ s a a', Q s → P s a → P (f s a') a) :
    ∀ (l : List α) (s : σ), Q s → ∀ a ∈ l, P (l.foldl f s) a := by
  intro l
  induction l with
  | nil =>
    intro s _ a ha
    cases ha
  | cons b t ih =>
    intro s hQs a ha
    rcases List.mem_cons.mp ha with rfl | ha'
    · exact foldl_pres_inv Q (fun s1 => P s1 a) f hQ
        (fun s1 a' hQ1 hP1 => hpres s1 a a' hQ1 hP1) t (f s a) (hQ s a hQs)
        (hset s a hQs)
    · exact ih (f s b) (hQ s b hQs) a ha'

/-- The invariant of the flow queue loop on a fully open room, for the
fresh-call generation 1.  `d` is the Chebyshev radius of the wavefront
being expanded; `ph` bounds the fully-expanded prefix of the queue. -/
structure BfsInv (c : Chunk) (py px : Int) (d ph : Nat) (s : FlowState) : Prop where
  hh : s.c.height = c.height
  hw : s.c.width = c.width
  hf : s.c.feat = c.feat
  hhead : s.head ≤ s.tail
  player : s.c.whenv py px = 1
  slots : ∀ i, i < s.tail → square_in_bounds c (s.qy i) (s.qx i) = true ∧
    s.c.whenv (s.qy i) (s.qx i) = 1 ∧
    s.c.cost (s.qy i) (s.qx i) = cheb py px (s.qy i) (s.qx i)
  inj : ∀ i j, i < s.tail → j < s.tail → i ≠ j →
    ¬((s.qy i : Int) = (s.qy j : Int) ∧ (s.qx i : Int) = (s.qx j : Int))
  complete : ∀ a b : Int, s.c.whenv a b = 1 → ∃ i, i < s.tail ∧
    (s.qy i : Int) = a ∧ (s.qx i : Int) = b
  mono : ∀ i j, i ≤ j → j < s.tail →
    cheb py px (s.qy i) (s.qx i) ≤ cheb py px (s.qy j) (s.qx j)
  active : ∀ i, s.head ≤ i → i < s.tail →
    d ≤ cheb py px (s.qy i) (s.qx i) ∧ cheb py px (s.qy i) (s.qx i) ≤ d + 1
  wave : ∀ a b : Int, square_in_bounds c a b = true → cheb py px a b ≤ d →
    s.c.whenv a b = 1
  expanded : ∀ i, i < ph → ∀ dd ∈ ddy_ddd.zip ddx_ddd,
    square_in_bounds c ((s.qy i : Int) + dd.1) ((s.qx i : Int) + dd.2) = true →
    s.c.whenv ((s.qy i : Int) + dd.1) ((s.qx i : Int) + dd.2) = 1

/-- The queue never outgrows the cell count: its slots are distinct
in-bounds cells. -/
theorem bfs_tail_le (c : Chunk) (py px : Int) (d ph : Nat) (s : FlowState)
    (hb : BfsInv c py px d ph s) : s.tail ≤ c.height.toNat * c.width.toNat := by
  have hnd : ((List.range s.tail).map
      (fun i => ((s.qy i : Int), (s.qx i : Int)))).Nodup := by
    refine List.Nodup.map_on ?_ (List.nodup_range s.tail)
    intro i hi j hj hij
    rw [List.mem_range] at hi hj
    by_contra hne
    exact hb.inj i j hi hj hne
      ⟨congrArg Prod.fst hij, congrArg Prod.snd hij⟩
  have hmem : ∀ p ∈ (List.range s.tail).map
      (fun i => ((s.qy i : Int), (s.qx i : Int))),
      square_in_bounds c p.1 p.2 = true := by
    intro p hp
    rw [List.mem_map] at hp
    obtain ⟨i, hi, rfl⟩ := hp
    rw [List.mem_range] at hi
    exact (hb.slots i hi).1
  have := nodup_cells_length_le c _ hnd hmem
  simpa using this

theorem flow_child_bfs (F : Nat → Feature) (c : Chunk) (py px : Int) (d ph : Nat)
    (hH : c.height ≤ 256) (hW : c.width ≤ 256)
    (hcells : c.height.toNat * c.width.toNat ≤ 2046)
    (hp : square_in_bounds c py px = true)
    (t : FlowState) (uy ux y x : Int)
    (hdy : (y - uy).natAbs ≤ 1) (hdx : (x - ux).natAbs ≤ 1)
    (hu : cheb py px uy ux = d)
    (hupos : 0 < t.head)
    (husy : (t.qy (t.head - 1) : Int) = uy) (husx : (t.qx (t.head - 1) : Int) = ux)
    (hph : ph ≤ t.head)
    (hb : BfsInv c py px d ph t) :
    BfsInv c py px d ph (flow_child F 1 (d + 1) t y x) := by
  unfold flow_child
  simp only []
  split
  · exact hb
  · split
    · exact hb
    · split
      · exact hb
      · rename_i hbnd hstamp hflow
        have hbc : square_in_bounds t.c y x = true := not_not.mp hbnd
        have hbcc : square_in_bounds c y x = true := by
          unfold square_in_bounds at hbc ⊢
          rw [hb.hh, hb.hw] at hbc
          exact hbc
        have hchz : cheb py px y x = d + 1 := by
          have h1 : cheb py px y x ≤ d + 1 := by
            have h0 := cheb_adj py px uy ux (y - uy) (x - ux) hdy hdx
            have e1 : uy + (y - uy) = y := by ring
            have e2 : ux + (x - ux) = x := by ring
            rw [e1, e2, hu] at h0
            exact h0
          have h2 : ¬ cheb py px y x ≤ d := fun hle =>
            hstamp (hb.wave y x hbcc hle)
          omega
        have hch255 : d + 1 ≤ 255 := by
          have := cheb_le_255 c py px y x hH hW hp hbcc
          omega
        have htail_le := bfs_tail_le c py px d ph t hb
        have hnw : ¬ (t.tail + 1 = FLOW_MAX) := by
          simp only [FLOW_MAX]
          omega
        rw [if_neg hnw]
        have hnov : ¬ (t.tail + 1 = t.head) := by
          have := hb.hhead
          omega
        rw [if_neg hnov]
        have hwv : ∀ a b : Int, (putCost (putWhen t.c y x 1) y x (d + 1)).whenv a b =
            if a = y ∧ b = x then 1 else t.c.whenv a b := by
          intro a b
          show (if a = y ∧ b = x then 1 % 256 else t.c.whenv a b) = _
          norm_num
        have hcv : ∀ a b : Int, (putCost (putWhen t.c y x 1) y x (d + 1)).cost a b =
            if a = y ∧ b = x then d + 1 else t.c.cost a b := by
          intro a b
          show (if a = y ∧ b = x then (d + 1) % 256 else t.c.cost a b) = _
          rw [Nat.mod_eq_of_lt (by omega)]
        have hsmono : ∀ a b : Int, t.c.whenv a b = 1 →
            (putCost (putWhen t.c y x 1) y x (d + 1)).whenv a b = 1 := by
          intro a b h
          rw [hwv]
          split_ifs with hc
          · rfl
          · exact h
        have hbb := hbcc
        unfold square_in_bounds at hbb
        simp only [Bool.and_eq_true, decide_eq_true_eq] at hbb
        obtain ⟨⟨⟨hx0, hxw⟩, hy0⟩, hyh⟩ := hbb
        have hyrt : ((y.toNat % 256 : Nat) : Int) = y := by omega
        have hxrt : ((x.toNat % 256 : Nat) : Int) = x := by omega
        have hqy : ∀ i : Nat, ((if i = t.tail then y.toNat % 256 else t.qy i : Nat) : Int) =
            if i = t.tail then y else (t.qy i : Int) := by
          intro i
          split_ifs with hc
          · exact hyrt
          · rfl
        have hqx : ∀ i : Nat, ((if i = t.tail then x.toNat % 256 else t.qx i : Nat) : Int) =
            if i = t.tail then x else (t.qx i : Int) := by
          intro i
          split_ifs with hc
          · exact hxrt
          · rfl
        have hnotold : ∀ i, i < t.tail →
            ¬((t.qy i : Int) = y ∧ (t.qx i : Int) = x) := by
          intro i hi ⟨e1, e2⟩
          exact hstamp (e1 ▸ e2 ▸ (hb.slots i hi).2.1)
        refine
          { hh := hb.hh, hw := hb.hw, hf := hb.hf,
            hhead := by show t.head ≤ t.tail + 1; have := hb.hhead; omega,
            player := hsmono py px hb.player,
            slots := ?_, inj := ?_, complete := ?_, mono := ?_, active := ?_,
            wave := ?_, expanded := ?_ }
        · intro i hi
          have hi2 : i < t.tail + 1 := hi
          show square_in_bounds c
              ((if i = t.tail then y.toNat % 256 else t.qy i : Nat) : Int)
              ((if i = t.tail then x.toNat % 256 else t.qx i : Nat) : Int) = true ∧ _
          rw [hqy, hqx]
          by_cases hit : i = t.tail
          · rw [if_pos hit, if_pos hit]
            refine ⟨hbcc, ?_, ?_⟩
            · rw [hwv, if_pos ⟨rfl, rfl⟩]
            · rw [hcv, if_pos ⟨rfl, rfl⟩, hchz]
          · have hlt : i < t.tail := by omega
            rw [if_neg hit, if_neg hit]
            obtain ⟨o1, o2, o3⟩ := hb.slots i hlt
            refine ⟨o1, hsmono _ _ o2, ?_⟩
            rw [hcv, if_neg (hnotold i hlt)]
            exact o3
        · intro i j hi hj hij
          have hi2 : i < t.tail + 1 := hi
          have hj2 : j < t.tail + 1 := hj
          show ¬(((if i = t.tail then y.toNat % 256 else t.qy i : Nat) : Int) =
              ((if j = t.tail then y.toNat % 256 else t.qy j : Nat) : Int) ∧ _)
          rw [hqy, hqx, hqy, hqx]
          by_cases hit : i = t.tail <;> by_cases hjt : j = t.tail
          · omega
          · rw [if_pos hit, if_pos hit, if_neg hjt, if_neg hjt]
            have hlt : j < t.tail := by omega
            intro ⟨e1, e2⟩
            exact hnotold j hlt ⟨e1.symm, e2.symm⟩
          · rw [if_neg hit, if_neg hit, if_pos hjt, if_pos hjt]
            have hlt : i < t.tail := by omega
            exact hnotold i hlt
          · rw [if_neg hit, if_neg hit, if_neg hjt, if_neg hjt]
            exact hb.inj i j (by omega) (by omega) hij
        · intro a b hst
          rw [hwv] at hst
          by_cases hc : a = y ∧ b = x
          · refine ⟨t.tail, by show t.tail < t.tail + 1; omega, ?_, ?_⟩
            · show ((if t.tail = t.tail then y.toNat % 256 else t.qy t.tail : Nat) : Int) = a
              rw [hqy, if_pos rfl]
              exact hc.1.symm
            · show ((if t.tail = t.tail then x.toNat % 256 else t.qx t.tail : Nat) : Int) = b
              rw [hqx, if_pos rfl]
              exact hc.2.symm
          · rw [if_neg hc] at hst
            obtain ⟨i, hi, e1, e2⟩ := hb.complete a b hst
            refine ⟨i, by show i < t.tail + 1; omega, ?_, ?_⟩
            · show ((if i = t.tail then y.toNat % 256 else t.qy i : Nat) : Int) = a
              rw [hqy, if_neg (by omega)]
              exact e1
            · show ((if i = t.tail then x.toNat % 256 else t.qx i : Nat) : Int) = b
              rw [hqx, if_neg (by omega)]
              exact e2
        · intro i j hij hj
          have hj2 : j < t.tail + 1 := hj
          show cheb py px ((if i = t.tail then y.toNat % 256 else t.qy i : Nat) : Int)
              ((if i = t.tail then x.toNat % 256 else t.qx i : Nat) : Int) ≤ _
          rw [hqy, hqx, hqy, hqx]
          have hbound : ∀ k, k < t.tail → cheb py px (t.qy k) (t.qx k) ≤ d + 1 := by
            intro k hk
            rcases le_or_lt k (t.head - 1) with hk1 | hk1
            · have h1 := hb.mono k (t.head - 1) hk1 (by have := hb.hhead; omega)
              rw [husy, husx, hu] at h1
              omega
            · exact (hb.active k (by omega) hk).2
          by_cases hjt : j = t.tail
          · rw [if_pos hjt, if_pos hjt, hchz]
            by_cases hit : i = t.tail
            · rw [if_pos hit, if_pos hit, hchz]
            · have hlt : i < t.tail := by omega
              rw [if_neg hit, if_neg hit]
              exact hbound i hlt
          · have hjl : j < t.tail := by omega
            have hil : i < t.tail := by omega
            rw [if_neg hjt, if_neg hjt, if_neg (by omega : ¬ i = t.tail),
              if_neg (by omega : ¬ i = t.tail)]
            exact hb.mono i j hij hjl
        · intro i hhi hit
          have hhi2 : t.head ≤ i := hhi
          have hit2 : i < t.tail + 1 := hit
          show d ≤ cheb py px ((if i = t.tail then y.toNat % 256 else t.qy i : Nat) : Int)
              ((if i = t.tail then x.toNat % 256 else t.qx i : Nat) : Int) ∧ _
          rw [hqy, hqx]
          by_cases hitl : i = t.tail
          · rw [if_pos hitl, if_pos hitl, hchz]
            omega
          · rw [if_neg hitl, if_neg hitl]
            exact hb.active i hhi (by omega)
        · intro a b hib hle
          exact hsmono a b (hb.wave a b hib hle)
        · intro i hi dd hdd hib
          have hilt : i < t.tail := by
            have := hb.hhead
            omega
          show (putCost (putWhen t.c y x 1) y x (d + 1)).whenv
            (((if i = t.tail then y.toNat % 256 else t.qy i : Nat) : Int) + dd.1)
            (((if i = t.tail then x.toNat % 256 else t.qx i : Nat) : Int) + dd.2) = 1
          rw [hqy, hqx] at hib ⊢
          rw [if_neg (by omega : ¬ i = t.tail), if_neg (by omega : ¬ i = t.tail)] at hib ⊢
          exact hsmono _ _ (hb.expanded i hi dd hdd hib)

theorem flow_child_head (F : Nat → Feature) (N n : Nat) (s : FlowState) (y x : Int) :
    (flow_child F N n s y x).head = s.head := by
  unfold flow_child
  simp only []
  split
  · rfl
  · split
    · rfl
    · split
      · rfl
      · rfl

theorem flow_child_q_frame (F : Nat → Feature) (N n : Nat) (s : FlowState) (y x : Int)
    (i : Nat) (hne : i ≠ s.tail) :
    (flow_child F N n s y x).qy i = s.qy i ∧ (flow_child F N n s y x).qx i = s.qx i := by
  unfold flow_child
  simp only []
  split
  · exact ⟨rfl, rfl⟩
  · split
    · exact ⟨rfl, rfl⟩
    · split
      · exact ⟨rfl, rfl⟩
      · exact ⟨if_neg hne, if_neg hne⟩

theorem flow_child_stamp_mono (F : Nat → Feature) (n : Nat) (s : FlowState) (y x a b : Int)
    (h : s.c.whenv a b = 1) : (flow_child F 1 n s y x).c.whenv a b = 1 := by
  unfold flow_child
  simp only []
  split
  · exact h
  · split
    · exact h
    · split
      · exact h
      · show (if a = y ∧ b = x then 1 % 256 else s.c.whenv a b) = 1
        split_ifs with hc
        · rfl
        · exact h

theorem foldl_inv_mem {σ α : Type _} (P : σ → Prop) (f : σ → α → σ) :
    ∀ (l : List α), (∀ s a, a ∈ l → P s → P (f s a)) →
      ∀ s, P s → P (l.foldl f s) := by
  intro l
  induction l with
  | nil => intro _ s h; exact h
  | cons b t ih =>
    intro h s hs
    exact ih (fun s1 a ha h1 => h s1 a (List.mem_cons_of_mem b ha) h1) (f s b)
      (h s b (List.mem_cons_self b t) hs)

theorem foldl_pres_inv_mem {σ α : Type _} (Q P : σ → Prop) (f : σ → α → σ) :
    ∀ (l : List α), (∀ s a, a ∈ l → Q s → Q (f s a)) →
      (∀ s a, a ∈ l → Q s → P s → P (f s a)) →
      ∀ s, Q s → P s → P (l.foldl f s) := by
  intro l
  induction l with
  | nil => intro _ _ s _ h; exact h
  | cons b t ih =>
    intro hQ hP s hQs hPs
    exact ih (fun s1 a ha h1 => hQ s1 a (List.mem_cons_of_mem b ha) h1)
      (fun s1 a ha h1 h2 => hP s1 a (List.mem_cons_of_mem b ha) h1 h2)
      (f s b) (hQ s b (List.mem_cons_self b t) hQs)
      (hP s b (List.mem_cons_self b t) hQs hPs)

theorem foldl_mem_establish_inv_mem {σ α : Type _} (Q : σ → Prop) (P : σ → α → Prop)
    (f : σ → α → σ) :
    ∀ (l : List α), (∀ s a, a ∈ l → Q s → Q (f s a)) →
      (∀ s a, a ∈ l → Q s → P (f s a) a) →
      (∀ s a a', a' ∈ l → Q s → P s a → P (f s a') a) →
      ∀ s, Q s → ∀ a ∈ l, P (l.foldl f s) a := by
  intro l
  induction l with
  | nil =>
    intro _ _ _ s _ a ha
    cases ha
  | cons b t ih =>
    intro hQ hset hpres s hQs a ha
    rcases List.mem_cons.mp ha with rfl | ha'
    · exact foldl_pres_inv_mem Q (fun s1 => P s1 a) f t
        (fun s1 a' ha' h1 => hQ s1 a' (List.mem_cons_of_mem a ha') h1)
        (fun s1 a' ha' h1 h2 => hpres s1 a a' (List.mem_cons_of_mem a ha') h1 h2)
        (f s a) (hQ s a (List.mem_cons_self a t) hQs)
        (hset s a (List.mem_cons_self a t) hQs)
    · exact ih (fun s1 a2 ha2 h1 => hQ s1 a2 (List.mem_cons_of_mem b ha2) h1)
        (fun s1 a2 ha2 h1 => hset s1 a2 (List.mem_cons_of_mem b ha2) h1)
        (fun s1 a2 a3 ha3 h1 h2 => hpres s1 a2 a3 (List.mem_cons_of_mem b ha3) h1 h2)
        (f s b) (hQ s b (List.mem_cons_self b t) hQs) a ha'

theorem flow_children_bfs (F : Nat → Feature) (c : Chunk) (py px : Int) (g : Nat)
    (hH : c.height ≤ 256) (hW : c.width ≤ 256)
    (hcells : c.height.toNat * c.width.toNat ≤ 2046)
    (hp : square_in_bounds c py px = true)
    (hopen : ∀ a b : Int, square_in_bounds c a b = true →
      (F (c.feat a b)).no_flow = false)
    (s1 : FlowState) (uy ux : Int)
    (hg : cheb py px uy ux = g)
    (hhead : 0 < s1.head)
    (husy : (s1.qy (s1.head - 1) : Int) = uy) (husx : (s1.qx (s1.head - 1) : Int) = ux)
    (hb1 : BfsInv c py px g (s1.head - 1) s1) :
    BfsInv c py px g (s1.head - 1) (flow_children F 1 (g + 1) uy ux s1) ∧
    (flow_children F 1 (g + 1) uy ux s1).head = s1.head ∧
    ((flow_children F 1 (g + 1) uy ux s1).qy (s1.head - 1) : Int) = uy ∧
    ((flow_children F 1 (g + 1) uy ux s1).qx (s1.head - 1) : Int) = ux ∧
    (∀ dd ∈ ddy_ddd.zip ddx_ddd,
      square_in_bounds c (uy + dd.1) (ux + dd.2) = true →
      (flow_children F 1 (g + 1) uy ux s1).c.whenv (uy + dd.1) (ux + dd.2) = 1) := by
  have hQstep : ∀ (t : FlowState) (dd : Int × Int), dd ∈ ddy_ddd.zip ddx_ddd →
      (BfsInv c py px g (s1.head - 1) t ∧ t.head = s1.head ∧
        (t.qy (s1.head - 1) : Int) = uy ∧ (t.qx (s1.head - 1) : Int) = ux) →
      (BfsInv c py px g (s1.head - 1) (flow_child F 1 (g + 1) t (uy + dd.1) (ux + dd.2)) ∧
        (flow_child F 1 (g + 1) t (uy + dd.1) (ux + dd.2)).head = s1.head ∧
        ((flow_child F 1 (g + 1) t (uy + dd.1) (ux + dd.2)).qy (s1.head - 1) : Int) = uy ∧
        ((flow_child F 1 (g + 1) t (uy + dd.1) (ux + dd.2)).qx (s1.head - 1) : Int) = ux) := by
    intro t dd hdd ⟨b', he, hy', hx'⟩
    have hdy : (uy + dd.1 - uy).natAbs ≤ 1 := by
      have e : uy + dd.1 - uy = dd.1 := by ring
      rw [e]
      exact (dirs_bounded dd hdd).1
    have hdx : (ux + dd.2 - ux).natAbs ≤ 1 := by
      have e : ux + dd.2 - ux = dd.2 := by ring
      rw [e]
      exact (dirs_bounded dd hdd).2
    have husy' : (t.qy (t.head - 1) : Int) = uy := by rw [he]; exact hy'
    have husx' : (t.qx (t.head - 1) : Int) = ux := by rw [he]; exact hx'
    have hne : s1.head - 1 ≠ t.tail := by
      have h1 := b'.hhead
      omega
    obtain ⟨e1, e2⟩ := flow_child_q_frame F 1 (g + 1) t (uy + dd.1) (ux + dd.2)
      (s1.head - 1) hne
    refine ⟨flow_child_bfs F c py px g (s1.head - 1) hH hW hcells hp t uy ux
        (uy + dd.1) (ux + dd.2) hdy hdx hg (by omega) husy' husx' (by omega) b',
      (flow_child_head F 1 (g + 1) t (uy + dd.1) (ux + dd.2)).trans he,
      ?_, ?_⟩
    · rw [e1]
      exact hy'
    · rw [e2]
      exact hx'
  have hQ0 : BfsInv c py px g (s1.head - 1) s1 ∧ s1.head = s1.head ∧
      (s1.qy (s1.head - 1) : Int) = uy ∧ (s1.qx (s1.head - 1) : Int) = ux :=
    ⟨hb1, rfl, husy, husx⟩
  have hQf := foldl_inv_mem _ _ (ddy_ddd.zip ddx_ddd) hQstep s1 hQ0
  have hpost := foldl_mem_establish_inv_mem
    (fun t => BfsInv c py px g (s1.head - 1) t ∧ t.head = s1.head ∧
      (t.qy (s1.head - 1) : Int) = uy ∧ (t.qx (s1.head - 1) : Int) = ux)
    (fun t dd => square_in_bounds c (uy + dd.1) (ux + dd.2) = true →
      t.c.whenv (uy + dd.1) (ux + dd.2) = 1)
    (fun t dd => flow_child F 1 (g + 1) t (uy + dd.1) (ux + dd.2))
    (ddy_ddd.zip ddx_ddd) hQstep
    (fun t dd _ hQ' => by
      intro hinb
      obtain ⟨b', _, _, _⟩ := hQ'
      have hinb' : square_in_bounds t.c (uy + dd.1) (ux + dd.2) = true := by
        unfold square_in_bounds at hinb ⊢
        rw [b'.hh, b'.hw]
        exact hinb
      unfold flow_child
      simp only []
      split
      · rename_i h1
        exact absurd hinb' h1
      · split
        · rename_i h2
          exact h2
        · split
          · rename_i h3
            exfalso
            have hfeq : t.c.feat = c.feat := b'.hf
            rw [hfeq, hopen _ _ hinb] at h3
            cases h3
          · show (if uy + dd.1 = uy + dd.1 ∧ ux + dd.2 = ux + dd.2 then 1 % 256
              else t.c.whenv (uy + dd.1) (ux + dd.2)) = 1
            rw [if_pos ⟨rfl, rfl⟩])
    (fun t dd dd' _ _ hP' => by
      intro hinb
      exact flow_child_stamp_mono F (g + 1) t _ _ _ _ (hP' hinb))
    s1 hQ0
  exact ⟨hQf.1, hQf.2.1, hQf.2.2.1, hQf.2.2.2, hpost⟩

/-- On a fully open room the queue loop maintains the BFS invariant until
the queue drains: the wavefront radius only ever bumps by one at the front,
and each dequeued cell's expansion is recorded. -/
theorem flow_loop_bfs (F : Nat → Feature) (DEPTH : Nat) (c : Chunk) (py px : Int)
    (hH : c.height ≤ 256) (hW : c.width ≤ 256)
    (hcells : c.height.toNat * c.width.toNat ≤ 2046)
    (hD : 257 ≤ DEPTH)
    (hp : square_in_bounds c py px = true)
    (hopen : ∀ a b : Int, square_in_bounds c a b = true →
      (F (c.feat a b)).no_flow = false) :
    ∀ (fuel : Nat) (s : FlowState) (d : Nat),
      BfsInv c py px d s.head s →
      c.height.toNat * c.width.toNat + 1 ≤ fuel + s.head →
      ∃ d', BfsInv c py px d' (flow_loop F DEPTH 1 fuel s).head
          (flow_loop F DEPTH 1 fuel s) ∧
        (flow_loop F DEPTH 1 fuel s).head = (flow_loop F DEPTH 1 fuel s).tail := by
  intro fuel
  induction fuel with
  | zero =>
    intro s d hb hfuel
    exfalso
    have h1 := bfs_tail_le c py px d s.head s hb
    have h2 := hb.hhead
    omega
  | succ fuel ih =>
    intro s d hb hfuel
    rcases eq_or_ne s.head s.tail with hht | hht
    · rw [flow_loop, if_neg (fun h => h hht)]
      exact ⟨d, hb, hht⟩
    · have hhlt : s.head < s.tail := lt_of_le_of_ne hb.hhead hht
      have hslot := hb.slots s.head hhlt
      have hact := hb.active s.head (le_refl s.head) hhlt
      have hbump : ∃ g, cheb py px ((s.qy s.head : Int)) ((s.qx s.head : Int)) = g ∧
          BfsInv c py px g s.head s := by
        rcases (by omega : cheb py px ((s.qy s.head : Int)) ((s.qx s.head : Int)) = d ∨
            cheb py px ((s.qy s.head : Int)) ((s.qx s.head : Int)) = d + 1) with hgd | hgd
        · exact ⟨d, hgd, hb⟩
        · refine ⟨d + 1, hgd, ⟨hb.hh, hb.hw, hb.hf, hb.hhead, hb.player, hb.slots,
            hb.inj, hb.complete, hb.mono, ?_, ?_, hb.expanded⟩⟩
          · intro i hi hit
            have h1 := hb.active i hi hit
            have h2 := hb.mono s.head i hi hit
            rw [hgd] at h2
            exact ⟨h2, by omega⟩
          · intro a b hab hle
            rcases Nat.lt_or_ge (cheb py px a b) (d + 1) with hlt | hge
            · exact hb.wave a b hab (by omega)
            · have hcz : cheb py px a b = d + 1 := by omega
              have hnz : cheb py px a b ≠ 0 := by omega
              have hsh := cheb_shift py px a b hnz
              have hzb := shift_in_bounds c py px a b hp hab
              have hzst := hb.wave _ _ hzb (by omega)
              obtain ⟨i, hit, hiy, hix⟩ := hb.complete _ _ hzst
              have hih : i < s.head := by
                by_contra hge2
                push_neg at hge2
                have hm := hb.mono s.head i hge2 hit
                rw [hgd, hiy, hix] at hm
                omega
              have hnp : ¬(a = py ∧ b = px) := by
                intro h
                rw [h.1, h.2] at hcz
                simp only [cheb, sub_self, Int.natAbs_zero, max_self] at hcz
                omega
              obtain ⟨dd, hdd, hey, hex⟩ := shift_neighbor py px a b hnp
              have hexp := hb.expanded i hih dd hdd
              rw [hiy, hix, hey, hex] at hexp
              exact hexp hab
      obtain ⟨g, hg29, hb'⟩ := hbump
      have hN := bfs_tail_le c py px d s.head s hb
      have hflt : ¬(s.head + 1 = FLOW_MAX) := by
        simp only [FLOW_MAX]
        omega
      have hdep : ¬(s.c.cost ((s.qy s.head : Int)) ((s.qx s.head : Int)) + 1 = DEPTH) := by
        intro h
        rw [hslot.2.2] at h
        have h255 := cheb_le_255 c py px _ _ hH hW hp hslot.1
        omega
      have hcost : s.c.cost ((s.qy s.head : Int)) ((s.qx s.head : Int)) + 1 = g + 1 := by
        rw [hslot.2.2, hg29]
      rw [flow_loop, if_pos hht]
      simp only []
      rw [if_neg hflt, if_neg hdep, hcost]
      have hb1 : BfsInv c py px g s.head { s with head := s.head + 1 } := by
        refine ⟨hb'.hh, hb'.hw, hb'.hf, ?_, hb'.player, hb'.slots, hb'.inj,
          hb'.complete, hb'.mono, ?_, hb'.wave, ?_⟩
        · show s.head + 1 ≤ s.tail
          omega
        · intro i hi hit
          have hi' : s.head + 1 ≤ i := hi
          exact hb'.active i (by omega) hit
        · intro i hi
          exact hb'.expanded i hi
      obtain ⟨hbo, hho, hyo, hxo, hexp⟩ := flow_children_bfs F c py px g hH hW hcells
        hp hopen { s with head := s.head + 1 } ((s.qy s.head : Int))
        ((s.qx s.head : Int)) hg29 (Nat.succ_pos s.head) rfl rfl hb1
      set s2 := flow_children F 1 (g + 1) ((s.qy s.head : Int)) ((s.qx s.head : Int))
        { s with head := s.head + 1 } with hs2def
      have hho' : s2.head = s.head + 1 := hho
      have hb2 : BfsInv c py px g s2.head s2 := by
        rw [hho']
        refine ⟨hbo.hh, hbo.hw, hbo.hf, hbo.hhead, hbo.player, hbo.slots, hbo.inj,
          hbo.complete, hbo.mono, hbo.active, hbo.wave, ?_⟩
        intro i hi dd hdd hinb
        rcases Nat.lt_or_ge i s.head with hlt | hge2
        · exact hbo.expanded i hlt dd hdd hinb
        · have hieq : i = s.head := by omega
          subst hieq
          have hyo' : ((s2.qy s.head : Nat) : Int) = ((s.qy s.head : Nat) : Int) := hyo
          have hxo' : ((s2.qx s.head : Nat) : Int) = ((s.qx s.head : Nat) : Int) := hxo
          rw [hyo', hxo'] at hinb ⊢
          exact hexp dd hdd hinb
      exact ih s2 g hb2 (by rw [hho']; omega)

/-- The state enqueuing just the player satisfies the BFS invariant at
radius 0 with nothing expanded yet. -/
theorem bfs_init (c : Chunk) (py px : Int)
    (hH : c.height ≤ 256) (hW : c.width ≤ 256)
    (hp : square_in_bounds c py px = true)
    (hz : ∀ a b : Int, c.whenv a b = 0) :
    BfsInv c py px 0 (flowInit c py px 1).head (flowInit c py px 1) := by
  have hp2 := hp
  unfold square_in_bounds at hp2
  simp only [Bool.and_eq_true, decide_eq_true_eq] at hp2
  obtain ⟨⟨⟨hx0, hxw⟩, hy0⟩, hyh⟩ := hp2
  have hky : ((py.toNat % 256 : Nat) : Int) = py := by omega
  have hkx : ((px.toNat % 256 : Nat) : Int) = px := by omega
  have hwv : ∀ a b : Int, (flowInit c py px 1).c.whenv a b =
      if a = py ∧ b = px then 1 else c.whenv a b := by
    intro a b
    show (if a = py ∧ b = px then 1 % 256 else c.whenv a b) = _
    norm_num
  have hcost : (flowInit c py px 1).c.cost py px = 0 := by
    show (if py = py ∧ px = px then 0 % 256 else _) = 0
    rw [if_pos ⟨rfl, rfl⟩]
  have hqy : ((flowInit c py px 1).qy 0 : Int) = py := by
    show ((if (0 : Nat) = 0 then py.toNat % 256 else 0 : Nat) : Int) = py
    rw [if_pos rfl]
    exact hky
  have hqx : ((flowInit c py px 1).qx 0 : Int) = px := by
    show ((if (0 : Nat) = 0 then px.toNat % 256 else 0 : Nat) : Int) = px
    rw [if_pos rfl]
    exact hkx
  have hch0 : cheb py px py px = 0 := by simp [cheb]
  refine ⟨rfl, rfl, rfl, Nat.zero_le 1, ?_, ?_, ?_, ?_, ?_, ?_, ?_, ?_⟩
  · rw [hwv, if_pos ⟨rfl, rfl⟩]
  · intro i hi
    have hi' : i < 1 := hi
    have hi0 : i = 0 := by omega
    subst hi0
    refine ⟨?_, ?_, ?_⟩
    · rw [hqy, hqx]
      exact hp
    · rw [hqy, hqx, hwv, if_pos ⟨rfl, rfl⟩]
    · rw [hqy, hqx, hcost, hch0]
  · intro i j hi hj hij
    have hi' : i < 1 := hi
    have hj' : j < 1 := hj
    intro _
    exact hij (by omega)
  · intro a b hab
    rw [hwv] at hab
    by_cases hc : a = py ∧ b = px
    · refine ⟨0, Nat.zero_lt_one, ?_, ?_⟩
      · rw [hqy]
        exact hc.1.symm
      · rw [hqx]
        exact hc.2.symm
    · rw [if_neg hc, hz a b] at hab
      exact absurd hab (by omega)
  · intro i j hij hj
    have hj' : j < 1 := hj
    have he : i = 0 ∧ j = 0 := by omega
    rw [he.1, he.2]
  · intro i hi1 hi2
    have hi2' : i < 1 := hi2
    have hi0 : i = 0 := by omega
    subst hi0
    rw [hqy, hqx, hch0]
    omega
  · intro a b hab hle
    obtain ⟨rfl, rfl⟩ := cheb_eq_zero py px a b (Nat.le_zero.mp hle)
    rw [hwv, if_pos ⟨rfl, rfl⟩]
  · intro i hi
    have hi' : i < 0 := hi
    exact absurd hi' (Nat.not_lt_zero i)

/-- When the queue has drained, the BFS invariant forces every in-bounds
cell to be stamped with its Chebyshev distance as cost (induction on the
distance, stepping through the recorded expansion of the parent cell one
plain shift toward the player). -/
theorem bfs_final (c : Chunk) (py px : Int) (d : Nat) (s : FlowState)
    (hp : square_in_bounds c py px = true)
    (hb : BfsInv c py px d s.head s) (hht : s.head = s.tail) :
    ∀ (n : Nat) (y x : Int), square_in_bounds c y x = true → cheb py px y x ≤ n →
      s.c.whenv y x = 1 ∧ s.c.cost y x = cheb py px y x := by
  intro n
  induction n with
  | zero =>
    intro y x hbnd hle
    obtain ⟨rfl, rfl⟩ := cheb_eq_zero py px y x (Nat.le_zero.mp hle)
    refine ⟨hb.player, ?_⟩
    obtain ⟨i, hit, hiy, hix⟩ := hb.complete _ _ hb.player
    have hslot := (hb.slots i hit).2.2
    rw [hiy, hix] at hslot
    exact hslot
  | succ n ih =>
    intro y x hbnd hle
    rcases Nat.lt_or_ge (cheb py px y x) (n + 1) with hlt | hge
    · exact ih y x hbnd (by omega)
    · have hcz : cheb py px y x = n + 1 := by omega
      have hnz : cheb py px y x ≠ 0 := by omega
      have hnp : ¬(y = py ∧ x = px) := by
        intro h
        rw [h.1, h.2] at hcz
        simp only [cheb, sub_self, Int.natAbs_zero, max_self] at hcz
        omega
      have hsh := cheb_shift py px y x hnz
      have hzb := shift_in_bounds c py px y x hp hbnd
      have hzst := (ih _ _ hzb (by omega)).1
      obtain ⟨i, hit, hiy, hix⟩ := hb.complete _ _ hzst
      obtain ⟨dd, hdd, hey, hex⟩ := shift_neighbor py px y x hnp
      have h2 := hb.expanded i (by omega) dd hdd
      rw [hiy, hix, hey, hex] at h2
      have hst := h2 hbnd
      refine ⟨hst, ?_⟩
      obtain ⟨j, hjt, hjy, hjx⟩ := hb.complete y x hst
      have hslot := (hb.slots j hjt).2.2
      rw [hjy, hjx] at hslot
      exact hslot

/-- C2 (amended): in a fully open room (no flow-blocking terrain) a single
`cave_update_flow` call from a fresh timestamp grid stamps every in-bounds
cell and stores as its cost the Chebyshev distance `max(|Δy|,|Δx|)` from
the player's cell — not the octagonal distance `max + min/2` the spec
claims (refuted separately on the 3×3 room): the queue charges diagonal
steps cost 1, so the stored flow metric never adds the `min/2` term. -/
theorem c2_flow_chebyshev (F : Nat → Feature) (DEPTH : Nat) (c : Chunk) (py px : Int)
    (hH : c.height ≤ 256) (hW : c.width ≤ 256)
    (hcells : c.height.toNat * c.width.toNat ≤ 2046)
    (hD : 257 ≤ DEPTH)
    (hp : square_in_bounds c py px = true)
    (hopen : ∀ a b : Int, square_in_bounds c a b = true →
      (F (c.feat a b)).no_flow = false)
    (hz : ∀ a b : Int, c.whenv a b = 0) :
    ∀ y x : Int, square_in_bounds c y x = true →
      (cave_update_flow F DEPTH c py px 0).1.whenv y x = 1 ∧
      (cave_update_flow F DEPTH c py px 0).1.cost y x = cheb py px y x := by
  intro y x hbnd
  have hb0 := bfs_init c py px hH hW hp hz
  have hh0 : (flowInit c py px 1).head = 0 := rfl
  obtain ⟨d', hbf, hhtf⟩ := flow_loop_bfs F DEPTH c py px hH hW hcells hD hp hopen
    (c.height.toNat * c.width.toNat + 2) (flowInit c py px 1) 0 hb0
    (by rw [hh0]; omega)
  have hfin := bfs_final c py px d' _ hp hbf hhtf (cheb py px y x) y x hbnd (le_refl _)
  have hcyc : flowCycle c 0 = (c, 1) := rfl
  rw [cave_update_flow_eq, hcyc]
  exact hfin

theorem c2_flow_chebyshev_witness :
    (cave_update_flow testF 257 (openChunk 3 3) 0 0 0).1.whenv 2 2 = 1 ∧
    (cave_update_flow testF 257 (openChunk 3 3) 0 0 0).1.cost 2 2 = cheb 0 0 2 2 :=
  c2_flow_chebyshev testF 257 (openChunk 3 3) 0 0 (by decide) (by decide) (by decide)
    (by decide) (by decide) (fun _ _ _ => rfl) (fun _ _ => rfl) 2 2 (by decide)

end Cave
